import Mathlib

/-!
# casacore: the indirect-array column of the AipsIO storage manager

A shallow embedding of `tables/DataMan/StIndArrAIO.cc`
(class `StManColumnIndArrayAipsIO`) and theorems about it.

Conventions of the embedding

* `uInt` is a `Nat` below `2^32`, `Int64` is an `Int`; a C++ conversion
  `uInt(x)` is written `Int.toNat (x % 4294967296)`.
* A member function that changes the object becomes a function from the
  state before the call to an `Outcome` holding the state after it.
* Classes of casacore that the column uses but whose code is not among the
  sources embedded here (`AipsIO`, `StIndArray`, `StManArrayFile`, `StManAipsIO`, the
  base class `StManColumnAipsIO`) are modelled from the specification; each such
  definition says so in its doc comment.
-/

namespace casacore

/-! ## The AipsIO stream -/

/-- Modelled from the spec: one item of an `AipsIO` stream (class `AipsIO` is not
among the sources embedded here). Values travel as raw bytes; the framing that
`putstart` and `putend` add around an object is kept as two markers, the header
carrying the tag and the version integer, and the end marker. -/
inductive Item where
  | byte (b : Fin 256)
  | start (type : String) (version : Nat)
  | finish
  deriving DecidableEq, Repr

/-- An `AipsIO` stream: the writer appends at the back, the reader consumes from
the front. -/
abbrev AipsIO := List Item

/-- The byte holding `n` modulo 256. -/
def byteOf (n : Nat) : Item := Item.byte ⟨n % 256, Nat.mod_lt n (by decide)⟩

/-- Modelled from the spec: the 4 bytes of a `uInt` (a 4-byte unsigned value),
most significant byte first. -/
def uIntBytes (v : Nat) : List Item :=
  [byteOf (v / 16777216), byteOf (v / 65536), byteOf (v / 256), byteOf v]

/-- Modelled from the spec: the 8 bytes of an `Int64`, two's complement, most
significant byte first. -/
def int64Bytes (v : Int) : List Item :=
  let u := Int.toNat (v % 18446744073709551616)
  [byteOf (u / 72057594037927936), byteOf (u / 281474976710656),
   byteOf (u / 1099511627776), byteOf (u / 4294967296),
   byteOf (u / 16777216), byteOf (u / 65536), byteOf (u / 256), byteOf u]

/-- Modelled from the spec: `ios << uInt`. -/
def putUInt (v : Nat) (ios : AipsIO) : AipsIO := ios ++ uIntBytes v

/-- Modelled from the spec: `ios << Int64`. -/
def putInt64 (v : Int) (ios : AipsIO) : AipsIO := ios ++ int64Bytes v

/-- Modelled from the spec: `ios >> uInt`; the value read and the rest of the
stream, or `none` when the stream does not start with 4 bytes (AipsIO raises an
error then). -/
def getUInt : AipsIO → Option (Nat × AipsIO)
  | Item.byte b0 :: Item.byte b1 :: Item.byte b2 :: Item.byte b3 :: rest =>
    some (b0.val * 16777216 + b1.val * 65536 + b2.val * 256 + b3.val, rest)
  | _ => none

/-- Modelled from the spec: `ios >> Int64`; the value read and the rest of the
stream, or `none` when the stream does not start with 8 bytes. -/
def getInt64 : AipsIO → Option (Int × AipsIO)
  | Item.byte b0 :: Item.byte b1 :: Item.byte b2 :: Item.byte b3 ::
    Item.byte b4 :: Item.byte b5 :: Item.byte b6 :: Item.byte b7 :: rest =>
    let u : Nat := b0.val * 72057594037927936 + b1.val * 281474976710656 +
      b2.val * 1099511627776 + b3.val * 4294967296 +
      b4.val * 16777216 + b5.val * 65536 + b6.val * 256 + b7.val
    some (if u < 9223372036854775808 then (u : Int) else (u : Int) - 18446744073709551616,
      rest)
  | _ => none

/-! ## Array descriptors -/

/-- An `IPosition`: the extents of an array, one per axis. -/
abbrev IPosition := List Int

/-- Modelled from the spec: the per-row array descriptor `StIndArray` (not among
the sources embedded here): the file offset (0 = absent), the shape, and whether the
shape held in memory is the one of the array (it is after the lazy read on first
access and after a shape has been assigned). -/
structure StIndArray where
  fileOffset : Int
  shapeKnown : Bool
  shape : IPosition
  deriving DecidableEq, Repr

/-- Modelled from the spec: `new StIndArray (fileOffset)`: a descriptor knowing
only its file offset. -/
def StIndArray.new (fileOffset : Int) : StIndArray :=
  { fileOffset := fileOffset, shapeKnown := false, shape := [] }

/-! ## Writing and reading the offsets (`putData`, `getData`) -/

/-- The body of the loop of `StManColumnIndArrayAipsIO::putData` for one slot
`*dpa`: a null slot is written as `(uInt)0`; otherwise the offset is written as
`uInt(off)` when `off <= 2u*1024u*1024u*1024u` (the comparison is made in
`Int64`), and as the word `2u*1024u*1024u*1024u + 1u` followed by the `Int64`
otherwise. -/
def putDataEntry (dpa : Option StIndArray) (ios : AipsIO) : AipsIO :=
  match dpa with
  | none => putUInt 0 ios
  | some d =>
    let off := d.fileOffset
    if off ≤ 2147483648 then
      putUInt (Int.toNat (off % 4294967296)) ios
    else
      putInt64 off (putUInt 2147483649 ios)

/-- `StManColumnIndArrayAipsIO::putData (dp, nrval, ios)`: the first `nrval`
slots of the block `dp` are written in turn. The result is `none` when the block
holds fewer than `nrval` slots (the loop would read past the block). -/
def putData : List (Option StIndArray) → Nat → AipsIO → Option AipsIO
  | _, 0, ios => some ios
  | [], _ + 1, _ => none
  | dpa :: dp, nrval + 1, ios => putData dp nrval (putDataEntry dpa ios)

/-- The reading half of the loop body of `getData`: `ios >> off`, then
`ios >> offset` when `off == 2u*1024u*1024u*1024u + 1u` and `offset = off`
otherwise. The result is the offset and the rest of the stream. -/
def getDataOffset (ios : AipsIO) : Option (Int × AipsIO) :=
  match getUInt ios with
  | none => none
  | some (off, ios1) =>
    if off = 2147483649 then getInt64 ios1 else some ((off : Int), ios1)

/-- The storing half of the loop body of `getData`: offset 0 gives a null slot,
any other offset a new descriptor holding it. -/
def getDataSlot (offset : Int) : Option StIndArray :=
  if offset = 0 then none else some (StIndArray.new offset)

/-- How a call of `getData` ends: normally, with the block and the rest of the
stream; with the error AipsIO raises when the stream does not hold the bytes
asked for (`eof`, the block being as filled until then); or by writing a slot
outside the block. -/
inductive GetResult where
  | ok (dp : List (Option StIndArray)) (ios : AipsIO)
  | eof (dp : List (Option StIndArray))
  | outside
  deriving DecidableEq, Repr

/-- The loop of `getData`, `dpa` being the index of the slot written next. -/
def getDataLoop : List (Option StIndArray) → Nat → Nat → AipsIO → GetResult
  | dp, _, 0, ios => GetResult.ok dp ios
  | dp, dpa, nrval + 1, ios =>
    match getDataOffset ios with
    | none => GetResult.eof dp
    | some (offset, ios1) =>
      if dpa < dp.length then
        getDataLoop (dp.set dpa (getDataSlot offset)) (dpa + 1) nrval ios1
      else GetResult.outside

/-- `StManColumnIndArrayAipsIO::getData (dp, inx, nrval, ios, uInt)`: `nrval`
entries are read into the slots `inx`, `inx + 1`, ... of the block `dp`. The
last parameter has no name in the source and is not used; it is left out. -/
def getData (dp : List (Option StIndArray)) (inx nrval : Nat) (ios : AipsIO) : GetResult :=
  getDataLoop dp inx nrval ios

/-! ## The array file -/

/-- The open options of `ByteIO` (`ByteIO::OpenOption`). -/
inductive OpenOption where
  | Old | Update | Append | New | NewNoReplace | Scratch | Delete
  deriving DecidableEq, Repr

/-- Modelled from the spec: an array value (`ArrayBase`): its shape and its
elements in storage order. -/
structure ArrayBase where
  shape : IPosition
  data : List Int
  deriving DecidableEq, Repr

/-- Modelled from the spec: a `Slicer` selecting a rectangular sub-array: the
first position and the number of positions taken along each axis. -/
structure Slicer where
  start : List Nat
  length : List Nat
  deriving DecidableEq, Repr

/-- The number of elements of an array of the given shape. -/
def nelements (shape : IPosition) : Nat := (shape.map Int.toNat).prod

/-- The positions, in storage order (first axis running fastest), of the
elements that a rectangular section selects in an array of the given shape. -/
def slicePositions : IPosition → List Nat → List Nat → List Nat
  | n :: shape, s :: start, l :: length =>
    (slicePositions shape start length).flatMap
      (fun p => (List.range' s l).map (fun i => i + Int.toNat n * p))
  | _, _, _ => [0]

/-- Modelled from the spec: one array stored in the array file: where it
starts, its shape and its elements. -/
structure ArrayRecord where
  offset : Int
  shape : IPosition
  data : List Int
  deriving DecidableEq, Repr

/-- An access made to an array file, kept in the order made. -/
inductive FileAccess where
  | getShape (offset : Int)
  | putShape (offset : Int)
  | getArray (offset : Int)
  | putArray (offset : Int)
  | resync
  | reopenRW
  | flush
  deriving DecidableEq, Repr

/-- Modelled from the spec: the append-style binary file holding the arrays
(`StManArrayFile`, not among the sources embedded here): its name, whether it is
writable, its length, the arrays stored in it and the accesses made so far. -/
structure StManArrayFile where
  name : String
  writable : Bool
  leng : Int
  records : List ArrayRecord
  accesses : List FileAccess
  deriving DecidableEq, Repr

/-- Modelled from the spec: a newly created array file. It holds a header only,
so that no array starts at offset 0 (offset 0 means absent); the header length
is nominal. -/
def StManArrayFile.create (name : String) : StManArrayFile :=
  { name := name, writable := true, leng := 16, records := [], accesses := [] }

/-- Modelled from the spec: the space a stored array takes: a nominal header,
the extents and the elements. -/
def recordLength (shape : IPosition) : Int :=
  8 + 4 * (shape.length : Int) + 8 * (nelements shape : Int)

/-- Modelled from the spec: `putShape`: append an array of the given shape at
the end of the file; the result is the offset where it starts. -/
def StManArrayFile.putShape (f : StManArrayFile) (shape : IPosition) :
    Int × StManArrayFile :=
  (f.leng,
   { f with
     leng := f.leng + recordLength shape
     records := f.records ++
       [{ offset := f.leng, shape := shape, data := List.replicate (nelements shape) 0 }]
     accesses := f.accesses ++ [FileAccess.putShape f.leng] })

/-- The array stored at the given offset, if there is one. -/
def StManArrayFile.find (f : StManArrayFile) (offset : Int) : Option ArrayRecord :=
  f.records.find? (fun r => r.offset = offset)

/-- Modelled from the spec: `getShape`: read the shape of the array stored at
the given offset; `none` when no array starts there. -/
def StManArrayFile.getShape (f : StManArrayFile) (offset : Int) :
    Option (IPosition × StManArrayFile) :=
  match f.find offset with
  | none => none
  | some r => some (r.shape, { f with accesses := f.accesses ++ [FileAccess.getShape offset] })

/-- Modelled from the spec: read the elements of the array stored at the given
offset. -/
def StManArrayFile.getArray (f : StManArrayFile) (offset : Int) :
    Option (List Int × StManArrayFile) :=
  match f.find offset with
  | none => none
  | some r => some (r.data, { f with accesses := f.accesses ++ [FileAccess.getArray offset] })

/-- Modelled from the spec: replace the elements of the array stored at the
given offset. -/
def StManArrayFile.putArray (f : StManArrayFile) (offset : Int) (data : List Int) :
    Option StManArrayFile :=
  match f.find offset with
  | none => none
  | some _ =>
    some { f with
      records := f.records.map (fun r => if r.offset = offset then { r with data := data } else r)
      accesses := f.accesses ++ [FileAccess.putArray offset] }

/-- Modelled from the spec: `resync` of an open array file. -/
def StManArrayFile.resync (f : StManArrayFile) : StManArrayFile :=
  { f with accesses := f.accesses ++ [FileAccess.resync] }

/-- Modelled from the spec: `reopenRW`: a file attached read-only becomes
writable. -/
def StManArrayFile.reopenRW (f : StManArrayFile) : StManArrayFile :=
  { f with writable := true, accesses := f.accesses ++ [FileAccess.reopenRW] }

/-- Modelled from the spec: `flush` of an open array file. -/
def StManArrayFile.flush (f : StManArrayFile) : StManArrayFile :=
  { f with accesses := f.accesses ++ [FileAccess.flush] }

/-! ## Operations of a descriptor -/

/-- Modelled from the spec: `StIndArray::setShape (ios, dataType, shape)`: assign
or replace the shape. Nothing happens, and the result is `False`, when the shape
is known and is the given one; otherwise the array is appended to the file, its
offset is recorded and the result is `True`. -/
def StIndArray.setShape (d : StIndArray) (f : StManArrayFile) (_dataType : Int)
    (shape : IPosition) :
    Bool × StIndArray × StManArrayFile :=
  if d.shapeKnown = true ∧ d.shape = shape then (false, d, f)
  else
    let r := f.putShape shape
    (true, { fileOffset := r.1, shapeKnown := true, shape := shape }, r.2)

/-- Modelled from the spec: `StIndArray::getShape (ios)`: the shape is read from
the file on the first access only. `none` when it has to be read and no array
starts at the offset. -/
def StIndArray.getShape (d : StIndArray) (f : StManArrayFile) :
    Option (StIndArray × StManArrayFile) :=
  if d.shapeKnown = true then some (d, f)
  else
    match f.getShape d.fileOffset with
    | none => none
    | some (shape, f1) => some ({ d with shapeKnown := true, shape := shape }, f1)

/-- Modelled from the spec: `StIndArray::getArrayV`: the whole array of the
descriptor, read from the file. -/
def StIndArray.getArrayV (d : StIndArray) (f : StManArrayFile) (_dataType : Int) :
    Option (ArrayBase × StManArrayFile) :=
  match f.getArray d.fileOffset with
  | none => none
  | some (data, f1) => some ({ shape := d.shape, data := data }, f1)

/-- Modelled from the spec: `StIndArray::putArrayV`: the whole array of the
descriptor is written to the file. -/
def StIndArray.putArrayV (d : StIndArray) (f : StManArrayFile) (arr : ArrayBase)
    (_dataType : Int) :
    Option StManArrayFile :=
  f.putArray d.fileOffset arr.data

/-- Modelled from the spec: `StIndArray::getSliceV`: a rectangular section of the
array of the descriptor, read from the file. -/
def StIndArray.getSliceV (d : StIndArray) (f : StManArrayFile) (ns : Slicer)
    (_dataType : Int) :
    Option (ArrayBase × StManArrayFile) :=
  match f.getArray d.fileOffset with
  | none => none
  | some (data, f1) =>
    some ({ shape := ns.length.map Int.ofNat
            data := (slicePositions d.shape ns.start ns.length).map (fun p => data.getD p 0) },
          f1)

/-- Modelled from the spec: `StIndArray::putSliceV`: a rectangular section of the
array of the descriptor is written to the file. -/
def StIndArray.putSliceV (d : StIndArray) (f : StManArrayFile) (ns : Slicer)
    (arr : ArrayBase) (_dataType : Int) : Option StManArrayFile :=
  match f.find d.fileOffset with
  | none => none
  | some r =>
    f.putArray d.fileOffset
      (((slicePositions d.shape ns.start ns.length).zip arr.data).foldl
        (fun data pv => data.set pv.1 pv.2) r.data)

/-! ## The column and its storage manager -/

/-- The errors the operations raise. `DataManInvOper` is the data-manager error
of an invalid operation; `AipsError` stands for the errors raised by the classes
used (stream exhausted, wrong object type, file cannot be opened). -/
inductive Exception where
  | DataManInvOper (msg : String)
  | AipsError (msg : String)
  deriving DecidableEq, Repr

/-- Modelled from the spec: the parent storage manager `StManAipsIO` (not among
the sources embedded here), as far as the column uses it: the name of its file, the
option its files are opened with, the next unique column number, the has-put
flag (the table is dirty) and the shared array file once it is open. -/
structure StManAipsIO where
  fileName : String
  fileOption : OpenOption
  uniqnr : Nat
  hasPut : Bool
  iosfile_p : Option String
  deriving DecidableEq, Repr

/-- The state of a `StManColumnIndArrayAipsIO` object and of what it points to.
`dtype` and `data` are the part of the base class `StManColumnAipsIO` (the
element type and one slot per row, a null pointer or a descriptor); `seqnr_p`,
`shapeIsFixed_p`, `fixedShape_p`, `version_p` and `iosfile_p` are the data
members of the class; `stman` is the storage manager that `stmanPtr_p` and
`staioPtr_p` point to; `files` are the array files that exist, a pointer to an
open `StManArrayFile` being kept as the name of the file. -/
structure StManColumnIndArrayAipsIO where
  dtype : Int
  data : List (Option StIndArray)
  seqnr_p : Nat
  shapeIsFixed_p : Bool
  fixedShape_p : IPosition
  version_p : Nat
  iosfile_p : Option String
  stman : StManAipsIO
  files : List StManArrayFile
  deriving DecidableEq, Repr

/-- How a call of a member function ends: it returns a result (`ok`), or it
raises an error (`throw`), the state being the one reached at that point in both
cases; or its behaviour is undefined (a null `iosfile_p` is dereferenced, a row
outside the slots is addressed, a buffer is overrun). -/
inductive Outcome (α : Type) where
  | ok (result : α) (c : StManColumnIndArrayAipsIO)
  | throw (e : Exception) (c : StManColumnIndArrayAipsIO)
  | undefined
  deriving DecidableEq, Repr

/-- Modelled from the spec: `new StManArrayFile (name, opt)` seen on the files
that exist: the create options make a new empty file of that name, the other
options attach to the existing file (read-only for `Old`) and fail when there is
none. -/
def StManArrayFile.new (name : String) (opt : OpenOption) (files : List StManArrayFile) :
    Except Exception (List StManArrayFile) :=
  match opt with
  | OpenOption.New | OpenOption.Scratch =>
    Except.ok (files.filter (fun f => f.name ≠ name) ++ [StManArrayFile.create name])
  | OpenOption.NewNoReplace =>
    if files.any (fun f => f.name = name) then
      Except.error (Exception.AipsError ("file exists: " ++ name))
    else Except.ok (files ++ [StManArrayFile.create name])
  | OpenOption.Old =>
    if files.any (fun f => f.name = name) then
      Except.ok (files.map (fun f => if f.name = name then { f with writable := false } else f))
    else Except.error (Exception.AipsError ("cannot open file: " ++ name))
  | OpenOption.Update | OpenOption.Append | OpenOption.Delete =>
    if files.any (fun f => f.name = name) then
      Except.ok (files.map (fun f => if f.name = name then { f with writable := true } else f))
    else Except.error (Exception.AipsError ("cannot open file: " ++ name))

/-- Modelled from the spec: `ios.putstart (type, version)`: the header of an
object, carrying the tag and the version integer. -/
def putstart (type : String) (version : Nat) (ios : AipsIO) : AipsIO :=
  ios ++ [Item.start type version]

/-- Modelled from the spec: `ios.putend ()`: the end marker of an object. -/
def putend (ios : AipsIO) : AipsIO := ios ++ [Item.finish]

/-- Modelled from the spec: `ios.getstart (type)`: the version integer of the
object starting here; an error when no object of that type starts here. -/
def getstart (type : String) : AipsIO → Except Exception (Nat × AipsIO)
  | Item.start t version :: rest =>
    if t = type then Except.ok (version, rest)
    else Except.error (Exception.AipsError ("AipsIO: found object type " ++ t))
  | _ => Except.error (Exception.AipsError "AipsIO: no object header")

/-- Modelled from the spec: `ios.getend ()`: the end marker is consumed; an error
when the object does not end here. -/
def getend : AipsIO → Except Exception AipsIO
  | Item.finish :: rest => Except.ok rest
  | _ => Except.error (Exception.AipsError "AipsIO: no object end")

/-- Modelled from the spec: `ios << int`, 4 bytes in two's complement. -/
def putInt (v : Int) (ios : AipsIO) : AipsIO :=
  putUInt (Int.toNat (v % 4294967296)) ios

/-- Modelled from the spec: `ios >> int`. -/
def getInt (ios : AipsIO) : Option (Int × AipsIO) :=
  match getUInt ios with
  | none => none
  | some (u, rest) =>
    some (if u < 2147483648 then (u : Int) else (u : Int) - 4294967296, rest)

/-- The text `sprintf (strc, "i%i", seqnr_p)` produces: the letter i and the
sequence number as a decimal `int`. -/
def sprintf_i (seqnr : Nat) : String :=
  "i" ++ toString (if seqnr < 2147483648 then (seqnr : Int) else (seqnr : Int) - 4294967296)

namespace StManColumnIndArrayAipsIO

/-- The constructor `StManColumnIndArrayAipsIO (smptr, dataType)`: no rows, the
sequence number taken from `smptr->uniqueNr()`, no fixed shape, version 2, no
array file. The third argument gives the array files that exist. -/
def new (smptr : StManAipsIO) (dataType : Int) (files : List StManArrayFile) :
    StManColumnIndArrayAipsIO :=
  { dtype := dataType
    data := []
    seqnr_p := smptr.uniqnr
    shapeIsFixed_p := false
    fixedShape_p := []
    version_p := 2
    iosfile_p := none
    stman := { smptr with uniqnr := smptr.uniqnr + 1 }
    files := files }

/-- The object `*iosfile_p`: `none` when `iosfile_p` is null (or dangling). -/
def file (c : StManColumnIndArrayAipsIO) : Option StManArrayFile :=
  match c.iosfile_p with
  | none => none
  | some n => c.files.find? (fun f => f.name = n)

/-- The state in which the array file named as `f` has become `f`. -/
def setFile (c : StManColumnIndArrayAipsIO) (f : StManArrayFile) :
    StManColumnIndArrayAipsIO :=
  { c with files := c.files.map (fun g => if g.name = f.name then f else g) }

/-- Modelled from the spec: `getArrayPtr (rownr)` of the base class, the slot of
a row: `none` for a row outside the slots, `some none` for a null slot. -/
def getArrayPtr (c : StManColumnIndArrayAipsIO) (rownr : Nat) :
    Option (Option StIndArray) :=
  c.data[rownr]?

/-- Modelled from the spec: `putArrayPtr (rownr, ptr)` of the base class. -/
def putArrayPtr (c : StManColumnIndArrayAipsIO) (rownr : Nat) (ptr : StIndArray) :
    StManColumnIndArrayAipsIO :=
  { c with data := c.data.set rownr (some ptr) }

/-- Modelled from the spec: `StManColumnAipsIO::addRow (nrnew, nrold)` of the
base class: the slots are extended with null slots up to `nrnew` rows. -/
def baseAddRow (c : StManColumnIndArrayAipsIO) (nrnew _nrold : Nat) :
    StManColumnIndArrayAipsIO :=
  { c with data := c.data ++ List.replicate (nrnew - c.data.length) none }

/-- Modelled from the spec: `StManColumnAipsIO::remove (rownr)` of the base
class: the slot of the row is taken out. -/
def baseRemove (c : StManColumnIndArrayAipsIO) (rownr : Nat) : StManColumnIndArrayAipsIO :=
  { c with data := c.data.eraseIdx rownr }

/-- Modelled from the spec: `staioPtr_p->openArrayFile (opt)`: the shared
table-level array file, opened on the first call; the result is the pointer to
it (its name, the storage manager's file name followed by the letter i). -/
def openArrayFile (c : StManColumnIndArrayAipsIO) (opt : OpenOption) :
    Except Exception (String × StManColumnIndArrayAipsIO) :=
  match c.stman.iosfile_p with
  | some n => Except.ok (n, c)
  | none =>
    match StManArrayFile.new (c.stman.fileName ++ "i") opt c.files with
    | Except.error e => Except.error e
    | Except.ok files =>
      Except.ok (c.stman.fileName ++ "i",
        { c with stman := { c.stman with iosfile_p := some (c.stman.fileName ++ "i") }
                 files := files })

/-- `StManColumnIndArrayAipsIO::openFile (opt)`. -/
def openFile (c : StManColumnIndArrayAipsIO) (opt : OpenOption) : Outcome Unit :=
  if c.version_p > 1 then
    match c.openArrayFile opt with
    | Except.error e => Outcome.throw e c
    | Except.ok (ptr, c1) => Outcome.ok () { c1 with iosfile_p := some ptr }
  else
    match c.iosfile_p with
    | none =>
      let strc := sprintf_i c.seqnr_p
      if 8 < strc.length + 1 then Outcome.undefined
      else
        match StManArrayFile.new (c.stman.fileName ++ strc) opt c.files with
        | Except.error e => Outcome.throw e c
        | Except.ok files =>
          Outcome.ok () { c with iosfile_p := some (c.stman.fileName ++ strc), files := files }
    | some _ =>
      match c.file with
      | none => Outcome.undefined
      | some f => Outcome.ok () (c.setFile f.resync)

/-- `StManColumnIndArrayAipsIO::reopenRW ()`. -/
def reopenRW (c : StManColumnIndArrayAipsIO) : Outcome Unit :=
  match c.file with
  | none => Outcome.undefined
  | some f => Outcome.ok () (c.setFile f.reopenRW)

/-- `StManColumnIndArrayAipsIO::setShapeColumn (shape)`. -/
def setShapeColumn (c : StManColumnIndArrayAipsIO) (shape : IPosition) : Outcome Unit :=
  Outcome.ok () { c with fixedShape_p := shape, shapeIsFixed_p := true }

/-- `StManColumnIndArrayAipsIO::setShape (rownr, shape)`: the descriptor of the
row, or a new one `StIndArray (0)` when the slot is null, gets the shape; when
`StIndArray::setShape` reports a change the pointer is put in the slot. A
descriptor already in the slot is changed in place. -/
def setShape (c : StManColumnIndArrayAipsIO) (rownr : Nat) (shape : IPosition) :
    Outcome Unit :=
  match c.getArrayPtr rownr with
  | none => Outcome.undefined
  | some slot =>
    let ptr := match slot with
      | none => StIndArray.new 0
      | some p => p
    match c.file with
    | none => Outcome.undefined
    | some f =>
      let r := ptr.setShape f c.dtype shape
      if r.1 = true then Outcome.ok () ((c.setFile r.2.2).putArrayPtr rownr r.2.1)
      else
        match slot with
        | none => Outcome.ok () (c.setFile r.2.2)
        | some _ => Outcome.ok () ((c.setFile r.2.2).putArrayPtr rownr r.2.1)

/-- One turn of the loop of `addRow`: `setShape (nrold, fixedShape_p)`, made
when the turns before have returned. -/
def addRowStep (o : Outcome Unit) (nrold : Nat) : Outcome Unit :=
  match o with
  | Outcome.ok _ c => c.setShape nrold c.fixedShape_p
  | Outcome.throw e c => Outcome.throw e c
  | Outcome.undefined => Outcome.undefined

/-- `StManColumnIndArrayAipsIO::addRow (nrnew, nrold)`: the base class extends
the slots; for a fixed shape, `setShape (nrold, fixedShape_p)` is called for
`nrold`, `nrold + 1`, ... below `nrnew`. -/
def addRow (c : StManColumnIndArrayAipsIO) (nrnew nrold : Nat) : Outcome Unit :=
  let c1 := c.baseAddRow nrnew nrold
  if c1.shapeIsFixed_p = true then
    (List.range' nrold (nrnew - nrold)).foldl addRowStep (Outcome.ok () c1)
  else Outcome.ok () c1

/-- `StManColumnIndArrayAipsIO::doCreate (nrrow)`. -/
def doCreate (c : StManColumnIndArrayAipsIO) (nrrow : Nat) : Outcome Unit :=
  match c.openFile OpenOption.New with
  | Outcome.ok _ c1 => c1.addRow nrrow 0
  | Outcome.throw e c1 => Outcome.throw e c1
  | Outcome.undefined => Outcome.undefined

/-- `StManColumnIndArrayAipsIO::getShape (rownr)`: the descriptor of the row, its
shape read from the file if not read yet; the error `DataManInvOper` when the
slot is null. The result stands for the pointer returned; the descriptor is
changed in place, so the slot holds the changed one. -/
def getShape (c : StManColumnIndArrayAipsIO) (rownr : Nat) : Outcome StIndArray :=
  match c.getArrayPtr rownr with
  | none => Outcome.undefined
  | some none =>
    Outcome.throw
      (Exception.DataManInvOper
        ("ASM: no array in row " ++ toString rownr ++ " of " ++ c.stman.fileName)) c
  | some (some ptr) =>
    match c.file with
    | none => Outcome.undefined
    | some f =>
      match ptr.getShape f with
      | none => Outcome.undefined
      | some (ptr1, f1) => Outcome.ok ptr1 ((c.setFile f1).putArrayPtr rownr ptr1)

/-- `StManColumnIndArrayAipsIO::isShapeDefined (rownr)`. -/
def isShapeDefined (c : StManColumnIndArrayAipsIO) (rownr : Nat) : Outcome Bool :=
  match c.getArrayPtr rownr with
  | none => Outcome.undefined
  | some none => Outcome.ok false c
  | some (some _) => Outcome.ok true c

/-- `StManColumnIndArrayAipsIO::ndim (rownr)`. -/
def ndim (c : StManColumnIndArrayAipsIO) (rownr : Nat) : Outcome Nat :=
  match c.getShape rownr with
  | Outcome.ok sia c1 => Outcome.ok sia.shape.length c1
  | Outcome.throw e c1 => Outcome.throw e c1
  | Outcome.undefined => Outcome.undefined

/-- `StManColumnIndArrayAipsIO::shape (rownr)`. -/
def shape (c : StManColumnIndArrayAipsIO) (rownr : Nat) : Outcome IPosition :=
  match c.getShape rownr with
  | Outcome.ok sia c1 => Outcome.ok sia.shape c1
  | Outcome.throw e c1 => Outcome.throw e c1
  | Outcome.undefined => Outcome.undefined

/-- `StManColumnIndArrayAipsIO::canChangeShape ()`. -/
def canChangeShape (c : StManColumnIndArrayAipsIO) : Bool :=
  if c.shapeIsFixed_p = true then false else true

/-- The state after `stmanPtr_p->setHasPut ()`. -/
def setHasPut (c : StManColumnIndArrayAipsIO) : StManColumnIndArrayAipsIO :=
  { c with stman := { c.stman with hasPut := true } }

/-- `StManColumnIndArrayAipsIO::getArrayV (rownr, arr)`; the result is the array
put in `arr`. -/
def getArrayV (c : StManColumnIndArrayAipsIO) (rownr : Nat) : Outcome ArrayBase :=
  match c.getShape rownr with
  | Outcome.ok sia c1 =>
    match c1.file with
    | none => Outcome.undefined
    | some f =>
      match sia.getArrayV f c1.dtype with
      | none => Outcome.undefined
      | some (arr, f1) => Outcome.ok arr (c1.setFile f1)
  | Outcome.throw e c1 => Outcome.throw e c1
  | Outcome.undefined => Outcome.undefined

/-- `StManColumnIndArrayAipsIO::putArrayV (rownr, arr)`. -/
def putArrayV (c : StManColumnIndArrayAipsIO) (rownr : Nat) (arr : ArrayBase) :
    Outcome Unit :=
  match c.getShape rownr with
  | Outcome.ok sia c1 =>
    match c1.file with
    | none => Outcome.undefined
    | some f =>
      match sia.putArrayV f arr c1.dtype with
      | none => Outcome.undefined
      | some f1 => Outcome.ok () (c1.setFile f1).setHasPut
  | Outcome.throw e c1 => Outcome.throw e c1
  | Outcome.undefined => Outcome.undefined

/-- `StManColumnIndArrayAipsIO::getSliceV (rownr, ns, arr)`; the result is the
array put in `arr`. -/
def getSliceV (c : StManColumnIndArrayAipsIO) (rownr : Nat) (ns : Slicer) :
    Outcome ArrayBase :=
  match c.getShape rownr with
  | Outcome.ok sia c1 =>
    match c1.file with
    | none => Outcome.undefined
    | some f =>
      match sia.getSliceV f ns c1.dtype with
      | none => Outcome.undefined
      | some (arr, f1) => Outcome.ok arr (c1.setFile f1)
  | Outcome.throw e c1 => Outcome.throw e c1
  | Outcome.undefined => Outcome.undefined

/-- `StManColumnIndArrayAipsIO::putSliceV (rownr, ns, arr)`. -/
def putSliceV (c : StManColumnIndArrayAipsIO) (rownr : Nat) (ns : Slicer)
    (arr : ArrayBase) : Outcome Unit :=
  match c.getShape rownr with
  | Outcome.ok sia c1 =>
    match c1.file with
    | none => Outcome.undefined
    | some f =>
      match sia.putSliceV f ns arr c1.dtype with
      | none => Outcome.undefined
      | some f1 => Outcome.ok () (c1.setFile f1).setHasPut
  | Outcome.throw e c1 => Outcome.throw e c1
  | Outcome.undefined => Outcome.undefined

/-- `StManColumnIndArrayAipsIO::deleteArray (rownr)`: the descriptor the slot
points to is deleted; the slot itself is left as it is. -/
def deleteArray (c : StManColumnIndArrayAipsIO) (rownr : Nat) : Outcome Unit :=
  match c.getArrayPtr rownr with
  | none => Outcome.undefined
  | some _ => Outcome.ok () c

/-- `StManColumnIndArrayAipsIO::remove (rownr)`. -/
def remove (c : StManColumnIndArrayAipsIO) (rownr : Nat) : Outcome Unit :=
  match c.deleteArray rownr with
  | Outcome.ok _ c1 => Outcome.ok () (c1.baseRemove rownr)
  | Outcome.throw e c1 => Outcome.throw e c1
  | Outcome.undefined => Outcome.undefined

/-- `StManColumnIndArrayAipsIO::ok ()`: the answer of the base class, which has
nothing to check in this model. -/
def ok (_c : StManColumnIndArrayAipsIO) : Bool := true

/-- Modelled from the spec: `StManColumnAipsIO::putFile (nrval, ios)` of the
base class: the payload of the base column, here the per-row offset entries
written by `putData`. -/
def basePutFile (c : StManColumnIndArrayAipsIO) (nrval : Nat) (ios : AipsIO) :
    Option AipsIO :=
  putData c.data nrval ios

/-- Modelled from the spec: `StManColumnAipsIO::getFile (nrval, ios)` of the
base class: the slots are replaced by `nrval` slots read by `getData`. -/
def baseGetFile (_c : StManColumnIndArrayAipsIO) (nrval : Nat) (ios : AipsIO) :
    GetResult :=
  getData (List.replicate nrval none) 0 nrval ios

/-- `StManColumnIndArrayAipsIO::putFile (nrval, ios)`; the result is the stream
after the call. -/
def putFile (c : StManColumnIndArrayAipsIO) (nrval : Nat) (ios : AipsIO) :
    Outcome AipsIO :=
  let ios1 := putstart "StManColumnIndArrayAipsIO" c.version_p ios
  let ios2 := putInt c.dtype ios1
  let ios3 := putUInt c.seqnr_p ios2
  match c.basePutFile nrval ios3 with
  | none => Outcome.undefined
  | some ios4 =>
    let ios5 := putend ios4
    match c.file with
    | none => Outcome.undefined
    | some f => Outcome.ok ios5 (c.setFile f.flush)

/-- `StManColumnIndArrayAipsIO::getFile (nrval, ios)`; the result is the stream
after the call. -/
def getFile (c : StManColumnIndArrayAipsIO) (nrval : Nat) (ios : AipsIO) :
    Outcome AipsIO :=
  match getstart "StManColumnIndArrayAipsIO" ios with
  | Except.error e => Outcome.throw e c
  | Except.ok (version, ios1) =>
    let c1 := { c with version_p := version }
    match getInt ios1 with
    | none => Outcome.throw (Exception.AipsError "AipsIO: read beyond end of object") c1
    | some (_, ios2) =>
      match getUInt ios2 with
      | none => Outcome.throw (Exception.AipsError "AipsIO: read beyond end of object") c1
      | some (seqnr, ios3) =>
        let c2 := { c1 with seqnr_p := seqnr }
        match c2.openFile c2.stman.fileOption with
        | Outcome.undefined => Outcome.undefined
        | Outcome.throw e c3 => Outcome.throw e c3
        | Outcome.ok _ c3 =>
          match c3.baseGetFile nrval ios3 with
          | GetResult.outside => Outcome.undefined
          | GetResult.eof dp =>
            Outcome.throw (Exception.AipsError "AipsIO: read beyond end of object")
              { c3 with data := dp }
          | GetResult.ok dp ios4 =>
            match getend ios4 with
            | Except.error e => Outcome.throw e { c3 with data := dp }
            | Except.ok ios5 => Outcome.ok ios5 { c3 with data := dp }

end StManColumnIndArrayAipsIO

/-! ## Sequences of calls -/

/-- The state a call leaves behind: the one reached on return or at the error;
`none` when the behaviour of the call is undefined. -/
def Outcome.state {α : Type} : Outcome α → Option StManColumnIndArrayAipsIO
  | Outcome.ok _ c => some c
  | Outcome.throw _ c => some c
  | Outcome.undefined => none

/-- A call of one of the member functions of the column, with its arguments. -/
inductive Op where
  | doCreate (nrrow : Nat)
  | openFile (opt : OpenOption)
  | reopenRW
  | setShapeColumn (shape : IPosition)
  | addRow (nrnew nrold : Nat)
  | setShape (rownr : Nat) (shape : IPosition)
  | getShape (rownr : Nat)
  | isShapeDefined (rownr : Nat)
  | ndim (rownr : Nat)
  | shape (rownr : Nat)
  | canChangeShape
  | getArrayV (rownr : Nat)
  | putArrayV (rownr : Nat) (arr : ArrayBase)
  | getSliceV (rownr : Nat) (ns : Slicer)
  | putSliceV (rownr : Nat) (ns : Slicer) (arr : ArrayBase)
  | remove (rownr : Nat)
  | ok
  | putFile (nrval : Nat) (ios : AipsIO)
  | getFile (nrval : Nat) (ios : AipsIO)
  deriving DecidableEq, Repr

/-- The state after the call `op` made in state `c`, whether the call returns or
raises an error. -/
def Op.call (op : Op) (c : StManColumnIndArrayAipsIO) : Option StManColumnIndArrayAipsIO :=
  match op with
  | Op.doCreate nrrow => (c.doCreate nrrow).state
  | Op.openFile opt => (c.openFile opt).state
  | Op.reopenRW => c.reopenRW.state
  | Op.setShapeColumn sh => (c.setShapeColumn sh).state
  | Op.addRow nrnew nrold => (c.addRow nrnew nrold).state
  | Op.setShape rownr sh => (c.setShape rownr sh).state
  | Op.getShape rownr => (c.getShape rownr).state
  | Op.isShapeDefined rownr => (c.isShapeDefined rownr).state
  | Op.ndim rownr => (c.ndim rownr).state
  | Op.shape rownr => (c.shape rownr).state
  | Op.canChangeShape => some c
  | Op.getArrayV rownr => (c.getArrayV rownr).state
  | Op.putArrayV rownr arr => (c.putArrayV rownr arr).state
  | Op.getSliceV rownr ns => (c.getSliceV rownr ns).state
  | Op.putSliceV rownr ns arr => (c.putSliceV rownr ns arr).state
  | Op.remove rownr => (c.remove rownr).state
  | Op.ok => some c
  | Op.putFile nrval ios => (c.putFile nrval ios).state
  | Op.getFile nrval ios => (c.getFile nrval ios).state

/-- The state after a sequence of calls, made one after the other. -/
def run : List Op → StManColumnIndArrayAipsIO → Option StManColumnIndArrayAipsIO
  | [], c => some c
  | op :: ops, c =>
    match op.call c with
    | none => none
    | some c1 => run ops c1

/-! ## Example states -/

/-- A storage manager with the file `table.f0`, no column made yet, no array
file open. -/
def exampleStMan : StManAipsIO :=
  { fileName := "table.f0", fileOption := OpenOption.Old, uniqnr := 0, hasPut := false,
    iosfile_p := none }

/-- A newly constructed column of that storage manager, no array file existing. -/
def exampleNew : StManColumnIndArrayAipsIO :=
  StManColumnIndArrayAipsIO.new exampleStMan 0 []

/-- A column of two rows, the first without an array and the second holding an
array of shape `[3]`: the state reached from `exampleNew` by `doCreate (0)`,
`addRow (2, 0)` and `setShape (1, [3])`. -/
def exampleColumn : StManColumnIndArrayAipsIO :=
  { dtype := 0
    data := [none, some { fileOffset := 16, shapeKnown := true, shape := [3] }]
    seqnr_p := 0
    shapeIsFixed_p := false
    fixedShape_p := []
    version_p := 2
    iosfile_p := some "table.f0i"
    stman := { fileName := "table.f0", fileOption := OpenOption.Old, uniqnr := 1,
               hasPut := false, iosfile_p := some "table.f0i" }
    files := [{ name := "table.f0i", writable := true, leng := 52,
                records := [{ offset := 16, shape := [3], data := [0, 0, 0] }],
                accesses := [FileAccess.putShape 16] }] }

/-- The column `exampleColumn` with its shape fixed to `[3]`. -/
def exampleFixed : StManColumnIndArrayAipsIO :=
  { exampleColumn with shapeIsFixed_p := true, fixedShape_p := [3] }

/-- The stream of a column stored with version 1: the header, the data-type
code 0, the sequence number 0, no rows, the end marker. -/
def exampleStreamV1 : AipsIO :=
  putend (putUInt 0 (putInt 0 (putstart "StManColumnIndArrayAipsIO" 1 [])))

/-- A newly constructed column of `exampleStMan`, the array file `table.f0i0`
of a column stored with version 1 and sequence number 0 existing. -/
def exampleAttach : StManColumnIndArrayAipsIO :=
  StManColumnIndArrayAipsIO.new exampleStMan 0 [StManArrayFile.create "table.f0i0"]

/-- The column `exampleAttach` after `getFile (0, exampleStreamV1)`: version 1,
bound to its own array file, which is attached read-only. -/
def exampleLegacy : StManColumnIndArrayAipsIO :=
  { exampleAttach with
    version_p := 1
    iosfile_p := some "table.f0i0"
    files := [{ StManArrayFile.create "table.f0i0" with writable := false }] }

/-- A column of version 1 with the sequence number 1000000 and no array file
bound, as `getFile` leaves it before it calls `openFile`. -/
def exampleOverflow : StManColumnIndArrayAipsIO :=
  { exampleAttach with version_p := 1, seqnr_p := 1000000 }

/-- Whether an access reads a shape or an array from the file. -/
def FileAccess.isRead : FileAccess → Bool
  | FileAccess.getShape _ => true
  | FileAccess.getArray _ => true
  | _ => false

/-- Whether an access writes a shape or an array to the file. -/
def FileAccess.isWrite : FileAccess → Bool
  | FileAccess.putShape _ => true
  | FileAccess.putArray _ => true
  | _ => false

/-- An array file holding two arrays, of shapes `[3]` and `[2, 2]`, of which
nothing has been read. -/
def exampleLoadedFile : StManArrayFile :=
  { name := "table.f0i", writable := false, leng := 100,
    records := [{ offset := 16, shape := [3], data := [1, 2, 3] },
                { offset := 52, shape := [2, 2], data := [4, 5, 6, 7] }],
    accesses := [] }

/-- A column of two rows as `getFile` leaves it: each descriptor knows only its
offset; the arrays are in the bound file `exampleLoadedFile`. -/
def exampleLoaded : StManColumnIndArrayAipsIO :=
  { exampleColumn with
    data := [some (StIndArray.new 16), some (StIndArray.new 52)]
    files := [exampleLoadedFile] }

/-- The array file of `exampleColumn`. -/
def exampleFile : StManArrayFile :=
  { name := "table.f0i", writable := true, leng := 52,
    records := [{ offset := 16, shape := [3], data := [0, 0, 0] }],
    accesses := [FileAccess.putShape 16] }

/-- A newly constructed column of `exampleStMan`, the shared array file
`exampleFile` existing: the column that reads what `exampleColumn` wrote. -/
def exampleReader : StManColumnIndArrayAipsIO :=
  StManColumnIndArrayAipsIO.new exampleStMan 0 [exampleFile]

/-! ## Tables, clauses and command types -/

/-- Modelled from the spec: a table as the query handler passes it around, told
by its name (class `Table` is not among the sources embedded here). -/
structure Table where
  name : String
  deriving DecidableEq, Repr

/-- Modelled from the spec: the clauses of a compound statement that follow its
table list, in the fixed grammar order. -/
inductive TaQLClause where
  | whereClause
  | groupClause
  | havingClause
  | sortClause
  | limitClause
  | givingClause
  deriving DecidableEq, Repr

/-- Modelled from the spec: the command type of a query context
(`TableParseQuery::CommandType`). -/
inductive CommandType where
  | PSELECT | PUPDATE | PINSERT | PDELETE | PCOUNT | PCALC | PCRETAB | PALTTAB
  deriving DecidableEq, Repr

/-- The column `exampleColumn` with a descriptor holding the offset 0 in its
first row. -/
def exampleZero : StManColumnIndArrayAipsIO :=
  { exampleColumn with data := [some (StIndArray.new 0), some (StIndArray.new 16)] }

/-! ## The value result of a node (`TaQLNodeHRValue`) -/

/-- Modelled from the spec: a `Record`, told by its fields; a default-constructed
one has none. -/
structure Record where
  fields : List (String × Int)
  deriving DecidableEq, Repr

/-- Modelled from the spec: a `ValueHolder`, the generic typed value; a
default-constructed one holds nothing. -/
structure ValueHolder where
  value : Option Int
  deriving DecidableEq, Repr

/-- Modelled from the spec: a `TableExprNode`, the handle of an expression; a
default-constructed one refers to none. -/
structure TableExprNode where
  node : Option String
  deriving DecidableEq, Repr

/-- Modelled from the spec: a `TableExprNodeSetElem`, the element of an
expression set: a single value or a range. -/
structure TableExprNodeSetElem where
  start : TableExprNode
  finish : TableExprNode
  deriving DecidableEq, Repr

/-- Modelled from the spec: a `TableExprNodeSet`, an expression set, told by its
elements. -/
structure TableExprNodeSet where
  elems : List TableExprNodeSetElem
  deriving DecidableEq, Repr

/-- The class `TaQLNodeHRValue` with its twelve data members. A pointer is
`none` when it is null and otherwise stands for the object it points to; a
`Vector<String>` is the list of its strings. -/
structure TaQLNodeHRValue where
  itsInt : Int
  itsString : String
  itsAlias : String
  itsNameMask : String
  itsDtype : String
  itsRecord : Record
  itsVH : ValueHolder
  itsTable : Table
  itsExpr : TableExprNode
  itsElem : Option TableExprNodeSetElem
  itsSet : Option TableExprNodeSet
  itsNames : Option (List String)
  deriving DecidableEq, Repr

namespace TaQLNodeHRValue

/-- The constructor `TaQLNodeHRValue ()`: `itsInt(-1), itsElem(0), itsSet(0),
itsNames(0)`, the other members default-constructed. -/
def new : TaQLNodeHRValue :=
  { itsInt := -1
    itsString := ""
    itsAlias := ""
    itsNameMask := ""
    itsDtype := ""
    itsRecord := { fields := [] }
    itsVH := { value := none }
    itsTable := { name := "" }
    itsExpr := { node := none }
    itsElem := none
    itsSet := none
    itsNames := none }

/-- The constructor `TaQLNodeHRValue (expr)`: `itsInt(-1), itsExpr(expr),
itsElem(0), itsSet(0), itsNames(0)`. -/
def newExpr (expr : TableExprNode) : TaQLNodeHRValue :=
  { itsInt := -1
    itsString := ""
    itsAlias := ""
    itsNameMask := ""
    itsDtype := ""
    itsRecord := { fields := [] }
    itsVH := { value := none }
    itsTable := { name := "" }
    itsExpr := expr
    itsElem := none
    itsSet := none
    itsNames := none }

/-- `getInt ()`. -/
def getInt (v : TaQLNodeHRValue) : Int := v.itsInt

/-- `getString ()`. -/
def getString (v : TaQLNodeHRValue) : String := v.itsString

/-- `getAlias ()`. -/
def getAlias (v : TaQLNodeHRValue) : String := v.itsAlias

/-- `getNameMask ()`. -/
def getNameMask (v : TaQLNodeHRValue) : String := v.itsNameMask

/-- `getDtype ()`. -/
def getDtype (v : TaQLNodeHRValue) : String := v.itsDtype

/-- `getRecord ()`. -/
def getRecord (v : TaQLNodeHRValue) : Record := v.itsRecord

/-- `getValueHolder ()`. -/
def getValueHolder (v : TaQLNodeHRValue) : ValueHolder := v.itsVH

/-- `getTable ()`. -/
def getTable (v : TaQLNodeHRValue) : Table := v.itsTable

/-- `getExpr ()`. -/
def getExpr (v : TaQLNodeHRValue) : TableExprNode := v.itsExpr

/-- `getElem ()`: the pointer `itsElem`. -/
def getElem (v : TaQLNodeHRValue) : Option TableExprNodeSetElem := v.itsElem

/-- `getExprSet ()`: `return *itsSet`, the set pointed to; `none` stands for the
dereference of a null pointer, where the result is not defined. -/
def getExprSet (v : TaQLNodeHRValue) : Option TableExprNodeSet := v.itsSet

/-- `getNames ()`: the pointer `itsNames`. -/
def getNames (v : TaQLNodeHRValue) : Option (List String) := v.itsNames

/-- `setInt (ival)`. -/
def setInt (v : TaQLNodeHRValue) (ival : Int) : TaQLNodeHRValue := { v with itsInt := ival }

/-- `setString (str)`. -/
def setString (v : TaQLNodeHRValue) (str : String) : TaQLNodeHRValue :=
  { v with itsString := str }

/-- `setAlias (alias)`. -/
def setAlias (v : TaQLNodeHRValue) (aliasName : String) : TaQLNodeHRValue :=
  { v with itsAlias := aliasName }

/-- `setNameMask (nameMask)`. -/
def setNameMask (v : TaQLNodeHRValue) (nameMask : String) : TaQLNodeHRValue :=
  { v with itsNameMask := nameMask }

/-- `setDtype (dtype)`. -/
def setDtype (v : TaQLNodeHRValue) (dtype : String) : TaQLNodeHRValue :=
  { v with itsDtype := dtype }

/-- `setRecord (record)`. -/
def setRecord (v : TaQLNodeHRValue) (record : Record) : TaQLNodeHRValue :=
  { v with itsRecord := record }

/-- `setValueHolder (vh)`. -/
def setValueHolder (v : TaQLNodeHRValue) (vh : ValueHolder) : TaQLNodeHRValue :=
  { v with itsVH := vh }

/-- `setTable (table)`. -/
def setTable (v : TaQLNodeHRValue) (table : Table) : TaQLNodeHRValue :=
  { v with itsTable := table }

/-- `setExpr (expr)`. -/
def setExpr (v : TaQLNodeHRValue) (expr : TableExprNode) : TaQLNodeHRValue :=
  { v with itsExpr := expr }

/-- `setElem (elem)`. -/
def setElem (v : TaQLNodeHRValue) (elem : Option TableExprNodeSetElem) : TaQLNodeHRValue :=
  { v with itsElem := elem }

/-- `setExprSet (set)`. -/
def setExprSet (v : TaQLNodeHRValue) (set : Option TableExprNodeSet) : TaQLNodeHRValue :=
  { v with itsSet := set }

/-- `setNames (names)`. -/
def setNames (v : TaQLNodeHRValue) (names : Option (List String)) : TaQLNodeHRValue :=
  { v with itsNames := names }

end TaQLNodeHRValue

/-- A call of one of the twelve setters of `TaQLNodeHRValue`, with its
argument. -/
inductive SetCall where
  | setInt (ival : Int)
  | setString (str : String)
  | setAlias (str : String)
  | setNameMask (str : String)
  | setDtype (str : String)
  | setRecord (record : Record)
  | setValueHolder (vh : ValueHolder)
  | setTable (table : Table)
  | setExpr (expr : TableExprNode)
  | setElem (elem : Option TableExprNodeSetElem)
  | setExprSet (set : Option TableExprNodeSet)
  | setNames (names : Option (List String))
  deriving DecidableEq, Repr

/-- The value after a call of a setter. -/
def SetCall.call (s : SetCall) (v : TaQLNodeHRValue) : TaQLNodeHRValue :=
  match s with
  | SetCall.setInt x => v.setInt x
  | SetCall.setString x => v.setString x
  | SetCall.setAlias x => v.setAlias x
  | SetCall.setNameMask x => v.setNameMask x
  | SetCall.setDtype x => v.setDtype x
  | SetCall.setRecord x => v.setRecord x
  | SetCall.setValueHolder x => v.setValueHolder x
  | SetCall.setTable x => v.setTable x
  | SetCall.setExpr x => v.setExpr x
  | SetCall.setElem x => v.setElem x
  | SetCall.setExprSet x => v.setExprSet x
  | SetCall.setNames x => v.setNames x

/-- The value after a sequence of calls of setters, made in the order given. -/
def setCalls : List SetCall → TaQLNodeHRValue → TaQLNodeHRValue
  | [], v => v
  | s :: calls, v => setCalls calls (s.call v)

/-- The argument of the most recent call, in a sequence of calls, that the
selection picks; `none` when it picks none of them. -/
def lastArg {α : Type} (pick : SetCall → Option α) (calls : List SetCall) : Option α :=
  (calls.filterMap pick).getLast?

namespace SetCall

/-- The argument of a call of `setInt`. -/
def int? : SetCall → Option Int
  | setInt x => some x
  | _ => none

/-- The argument of a call of `setString`. -/
def string? : SetCall → Option String
  | setString x => some x
  | _ => none

/-- The argument of a call of `setAlias`. -/
def alias? : SetCall → Option String
  | setAlias x => some x
  | _ => none

/-- The argument of a call of `setNameMask`. -/
def nameMask? : SetCall → Option String
  | setNameMask x => some x
  | _ => none

/-- The argument of a call of `setDtype`. -/
def dtype? : SetCall → Option String
  | setDtype x => some x
  | _ => none

/-- The argument of a call of `setRecord`. -/
def record? : SetCall → Option Record
  | setRecord x => some x
  | _ => none

/-- The argument of a call of `setValueHolder`. -/
def valueHolder? : SetCall → Option ValueHolder
  | setValueHolder x => some x
  | _ => none

/-- The argument of a call of `setTable`. -/
def table? : SetCall → Option Table
  | setTable x => some x
  | _ => none

/-- The argument of a call of `setExpr`. -/
def expr? : SetCall → Option TableExprNode
  | setExpr x => some x
  | _ => none

/-- The argument of a call of `setElem`. -/
def elem? : SetCall → Option (Option TableExprNodeSetElem)
  | setElem x => some x
  | _ => none

/-- The argument of a call of `setExprSet`. -/
def exprSet? : SetCall → Option (Option TableExprNodeSet)
  | setExprSet x => some x
  | _ => none

/-- The argument of a call of `setNames`. -/
def names? : SetCall → Option (Option (List String))
  | setNames x => some x
  | _ => none

end SetCall

/-! ## The query handler (`TaQLNodeHandler`) -/

mutual

/-- Modelled from the spec: the node of a table reference in a table list: a
table name; the number `k` of a numbered placeholder `$k` for a temporary table;
a derived table, which is a nested SELECT; or a parenthesized nested table
expression, whose tables are concatenated. -/
inductive TaQLTableNode where
  | name (s : String)
  | number (k : Nat)
  | select (query : TaQLStatement)
  | concat (tables : List TaQLTableNode)

/-- Modelled from the spec: the node of a compound statement: its command type,
its table list and the clauses that follow, in grammar order. -/
inductive TaQLStatement where
  | mk (command : CommandType) (tables : List TaQLTableNode) (clauses : List TaQLClauseNode)

/-- Modelled from the spec: the node of a clause after the table list: its kind,
and the nested SELECT its expression holds, if it holds one (as with EXISTS). -/
inductive TaQLClauseNode where
  | expr (kind : TaQLClause)
  | subquery (kind : TaQLClause) (query : TaQLStatement)

end

/-- Modelled from the spec: a query context (`TableParseQuery`): the command
type it was made with, the from-list and the outcomes of the clauses visited. -/
structure TableParseQuery where
  commandType : CommandType
  fromList : List Table
  clauses : List TaQLClause
  deriving DecidableEq, Repr

/-- Modelled from the spec: the table that the execution of a context gives, an
in-memory result told by the tables it was made from. -/
def TableParseQuery.execute (q : TableParseQuery) : Table :=
  { name := "select(" ++ String.intercalate "," (q.fromList.map Table.name) ++ ")" }

/-- Modelled from the spec: what the handler has carried out, in the order it
happened: a table opened by its name through the table access layer; a synthetic
concatenated table made; a clause after the table list visited and its outcome
written into the top context; a context executed, which is where its tables are
read and written. -/
inductive TaQLEvent where
  | openTable (name : String)
  | concatTable (tables : List Table)
  | clause (cl : TaQLClause)
  | execute (q : TableParseQuery)
  deriving DecidableEq, Repr

/-- The handler `TaQLNodeHandler`: the stack of query contexts `itsStack` (the
top first) and the temporary tables `itsTempTables` referred to by `$i`. The
other two fields are not members of the class: `tableNames` are the names of the
tables that the table access layer can open, and `done` records what the
handler has carried out. -/
structure TaQLNodeHandler where
  itsStack : List TableParseQuery
  itsTempTables : List Table
  tableNames : List String
  done : List TaQLEvent
  deriving DecidableEq, Repr

namespace TaQLNodeHandler

/-- Modelled from the spec: `pushStack (commandType)`: a new context of the
command type is pushed. -/
def pushStack (h : TaQLNodeHandler) (commandType : CommandType) : TaQLNodeHandler :=
  { h with
    itsStack := { commandType := commandType, fromList := [], clauses := [] } :: h.itsStack }

/-- Modelled from the spec: `topStack ()`: the top of the stack; `none` when
the stack is empty. -/
def topStack (h : TaQLNodeHandler) : Option TableParseQuery := h.itsStack.head?

/-- Modelled from the spec: `popStack ()`: the top of the stack is popped. -/
def popStack (h : TaQLNodeHandler) : TaQLNodeHandler :=
  { h with itsStack := h.itsStack.tail }

/-- Modelled from the spec: the error path of a statement: every context pushed
since the statement began is popped, which leaves the stack at the depth it had
before the statement. -/
def unwindStack (h : TaQLNodeHandler) (depth : Nat) : TaQLNodeHandler :=
  { h with itsStack := h.itsStack.drop (h.itsStack.length - depth) }

/-- Modelled from the spec: an outcome is written into the top context. -/
def updateTop (h : TaQLNodeHandler) (f : TableParseQuery → TableParseQuery) :
    TaQLNodeHandler :=
  match h.itsStack with
  | [] => h
  | q :: stack => { h with itsStack := f q :: stack }

/-- The handler having carried out one thing more. -/
def did (h : TaQLNodeHandler) (event : TaQLEvent) : TaQLNodeHandler :=
  { h with done := h.done ++ [event] }

/-- Modelled from the spec: `handleTableName (hrval, node)`: the table name or
the temporary table number of the node is put in the value result; a node of
another kind holds neither. -/
def handleTableName (_h : TaQLNodeHandler) (hrval : TaQLNodeHRValue) (node : TaQLTableNode) :
    TaQLNodeHRValue :=
  match node with
  | TaQLTableNode.name s => hrval.setString s
  | TaQLTableNode.number k => hrval.setInt k
  | _ => hrval

/-- Modelled from the spec: the table that a value result of a table reference
stands for. A number (not negative) is looked up directly in the temporary
tables, a number out of range being an error; with no number and no name the
table held by the value result is the one; a name is opened through the table
access layer, a name that is not the name of a table being an error. -/
def makeTable (h : TaQLNodeHandler) (hrval : TaQLNodeHRValue) :
    Except Exception Table × TaQLNodeHandler :=
  if 0 ≤ hrval.getInt then
    match h.itsTempTables[hrval.getInt.toNat]? with
    | some t => (Except.ok t, h)
    | none =>
      (Except.error
        (Exception.AipsError
          ("Invalid temporary table number $" ++ toString hrval.getInt)), h)
  else if hrval.getString = "" then (Except.ok hrval.getTable, h)
  else if hrval.getString ∈ h.tableNames then
    (Except.ok { name := hrval.getString }, h.did (TaQLEvent.openTable hrval.getString))
  else
    (Except.error (Exception.AipsError ("Table " ++ hrval.getString ++ " does not exist")), h)

/-- Modelled from the spec: the single table made of the tables of a nested
table expression. -/
def concatenation (tables : List Table) : Table :=
  { name := "[" ++ String.intercalate "," (tables.map Table.name) ++ "]" }

mutual

/-- Modelled from the spec: `visitTableNode (node)`: the value result of a table
reference. For a name or a number it holds that name or number; a derived table
is visited as a statement of its own, on a context newly pushed, and executed,
and a nested table expression is made into one concatenated table; the value
result then holds that table. -/
def visitTableNode (h : TaQLNodeHandler) :
    TaQLTableNode → Except Exception TaQLNodeHRValue × TaQLNodeHandler
  | TaQLTableNode.name s =>
    (Except.ok (h.handleTableName TaQLNodeHRValue.new (TaQLTableNode.name s)), h)
  | TaQLTableNode.number k =>
    (Except.ok (h.handleTableName TaQLNodeHRValue.new (TaQLTableNode.number k)), h)
  | TaQLTableNode.select query =>
    match handleSelect h true query with
    | (Except.error e, h1) => (Except.error e, h1)
    | (Except.ok t, h1) => (Except.ok (TaQLNodeHRValue.new.setTable t), h1)
  | TaQLTableNode.concat tables =>
    match makeConcatTable h [] tables with
    | (Except.error e, h1) => (Except.error e, h1)
    | (Except.ok t, h1) => (Except.ok (TaQLNodeHRValue.new.setTable t), h1)

/-- Modelled from the spec: `makeConcatTable (node)`: the table references of a
nested table expression are resolved in turn (the tables `found` so far) and
made into one synthetic concatenated table; the first error ends it. -/
def makeConcatTable (h : TaQLNodeHandler) (found : List Table) :
    List TaQLTableNode → Except Exception Table × TaQLNodeHandler
  | [] => (Except.ok (concatenation found), h.did (TaQLEvent.concatTable found))
  | node :: nodes =>
    match visitTableNode h node with
    | (Except.error e, h1) => (Except.error e, h1)
    | (Except.ok hrval, h1) =>
      match h1.makeTable hrval with
      | (Except.error e, h2) => (Except.error e, h2)
      | (Except.ok t, h2) => makeConcatTable h2 (found ++ [t]) nodes

/-- Modelled from the spec: `handleTables (nodes)`: the table references of a
table list are visited in turn, each resolved and added to the from-list of the
top context; the first error ends it. -/
def handleTables (h : TaQLNodeHandler) :
    List TaQLTableNode → Except Exception Unit × TaQLNodeHandler
  | [] => (Except.ok (), h)
  | node :: nodes =>
    match visitTableNode h node with
    | (Except.error e, h1) => (Except.error e, h1)
    | (Except.ok hrval, h1) =>
      match h1.makeTable hrval with
      | (Except.error e, h2) => (Except.error e, h2)
      | (Except.ok t, h2) =>
        handleTables (h2.updateTop (fun q => { q with fromList := q.fromList ++ [t] })) nodes

/-- Modelled from the spec: `handleSelect (node, doExec)`, the visit of a
compound statement: a context of its command type is pushed; the table list is
visited first, then the other clauses in grammar order; then the context is
executed, unless `doExec` is false, and popped, the result being the table the
execution gives. An error pops every context pushed since the statement began
and nothing more is done. -/
def handleSelect (h : TaQLNodeHandler) (doExec : Bool) :
    TaQLStatement → Except Exception Table × TaQLNodeHandler
  | TaQLStatement.mk command tables clauses =>
    match handleTables (h.pushStack command) tables with
    | (Except.error e, h1) => (Except.error e, h1.unwindStack h.itsStack.length)
    | (Except.ok _, h1) =>
      match handleClauses h1 clauses with
      | (Except.error e, h2) => (Except.error e, h2.unwindStack h.itsStack.length)
      | (Except.ok _, h2) =>
        let q := h2.topStack.getD { commandType := command, fromList := [], clauses := [] }
        (Except.ok q.execute,
          (if doExec = true then h2.did (TaQLEvent.execute q) else h2).popStack)

/-- Modelled from the spec: the visit of one clause after the table list: a
nested SELECT in its expression is visited first, on a context newly pushed, and
not executed (the case of EXISTS); then the outcome of the clause is written into
the top context. -/
def handleClause (h : TaQLNodeHandler) :
    TaQLClauseNode → Except Exception Unit × TaQLNodeHandler
  | TaQLClauseNode.expr kind =>
    (Except.ok (),
      (h.updateTop (fun q => { q with clauses := q.clauses ++ [kind] })).did
        (TaQLEvent.clause kind))
  | TaQLClauseNode.subquery kind query =>
    match handleSelect h false query with
    | (Except.error e, h1) => (Except.error e, h1)
    | (Except.ok _, h1) =>
      (Except.ok (),
        (h1.updateTop (fun q => { q with clauses := q.clauses ++ [kind] })).did
          (TaQLEvent.clause kind))

/-- Modelled from the spec: the clauses after the table list are visited in
turn; the first error ends it. -/
def handleClauses (h : TaQLNodeHandler) :
    List TaQLClauseNode → Except Exception Unit × TaQLNodeHandler
  | [] => (Except.ok (), h)
  | node :: nodes =>
    match handleClause h node with
    | (Except.error e, h1) => (Except.error e, h1)
    | (Except.ok _, h1) => handleClauses h1 nodes

end

end TaQLNodeHandler

theorem getUInt_uIntBytes (v : Nat) (rest : AipsIO) :
    getUInt (uIntBytes v ++ rest) = some (v % 4294967296, rest) := by
  simp only [uIntBytes, byteOf, List.cons_append, List.nil_append, getUInt, Option.some.injEq,
    Prod.mk.injEq, and_true]
  omega

theorem getInt64_int64Bytes (v : Int) (hlo : -9223372036854775808 ≤ v)
    (hhi : v < 9223372036854775808) (rest : AipsIO) :
    getInt64 (int64Bytes v ++ rest) = some (v, rest) := by
  simp only [int64Bytes, byteOf, List.cons_append, List.nil_append, getInt64, Option.some.injEq,
    Prod.mk.injEq, and_true]
  generalize hu : Int.toNat (v % 18446744073709551616) = u
  have h1 : (u : Int) = v % 18446744073709551616 := by
    rw [← hu]; exact Int.toNat_of_nonneg (Int.emod_nonneg _ (by decide))
  split <;> omega

theorem getDataOffset_word (v : Nat) (hv : v < 4294967296) (hs : v ≠ 2147483649)
    (rest : AipsIO) : getDataOffset (uIntBytes v ++ rest) = some ((v : Int), rest) := by
  simp only [getDataOffset, getUInt_uIntBytes, Nat.mod_eq_of_lt hv, if_neg hs]

theorem getDataOffset_escape (v : Int) (hlo : -9223372036854775808 ≤ v)
    (hhi : v < 9223372036854775808) (rest : AipsIO) :
    getDataOffset (uIntBytes 2147483649 ++ (int64Bytes v ++ rest)) = some (v, rest) := by
  simp only [getDataOffset, getUInt_uIntBytes]
  exact getInt64_int64Bytes v hlo hhi rest

theorem putDataEntry_append (dpa : Option StIndArray) (ios : AipsIO) :
    putDataEntry dpa ios = ios ++ putDataEntry dpa [] := by
  cases dpa with
  | none => simp [putDataEntry, putUInt]
  | some d =>
    simp only [putDataEntry, putUInt, putInt64]
    split <;> simp

theorem putDataEntry_word (d : StIndArray) (h : d.fileOffset ≤ 2147483648) :
    putDataEntry (some d) [] = uIntBytes (Int.toNat (d.fileOffset % 4294967296)) := by
  simp [putDataEntry, putUInt, h]

theorem putDataEntry_escape (d : StIndArray) (h : 2147483648 < d.fileOffset) :
    putDataEntry (some d) [] = uIntBytes 2147483649 ++ int64Bytes d.fileOffset := by
  simp [putDataEntry, putUInt, putInt64, not_le.mpr h]

theorem getData_one (dp : List (Option StIndArray)) (inx : Nat) (h : inx < dp.length)
    (ios rest : AipsIO) (offset : Int) (hget : getDataOffset ios = some (offset, rest)) :
    getData dp inx 1 ios = GetResult.ok (dp.set inx (getDataSlot offset)) rest := by
  simp [getData, getDataLoop, hget, h]

/-! ## Claims about the offset encoding -/

/-- C1. Offset round trip: for every offset `O` with `0 <= O < 2^63` held by a
non-null descriptor, `putData` appends words from which `getData` recovers
exactly `O` (its `offset` variable, and the offset of the descriptor it stores;
offset 0 is stored as a null slot), consuming exactly those words. -/
theorem offset_round_trip (d : StIndArray) (h0 : 0 ≤ d.fileOffset)
    (h1 : d.fileOffset < 9223372036854775808) (ios rest : AipsIO) :
    putData [some d] 1 ios = some (ios ++ putDataEntry (some d) []) ∧
    getDataOffset (putDataEntry (some d) [] ++ rest) = some (d.fileOffset, rest) ∧
    getData [none] 0 1 (putDataEntry (some d) [] ++ rest) =
      GetResult.ok [if d.fileOffset = 0 then none else some (StIndArray.new d.fileOffset)]
        rest := by
  have hoff : getDataOffset (putDataEntry (some d) [] ++ rest) = some (d.fileOffset, rest) := by
    by_cases h : d.fileOffset ≤ 2147483648
    · rw [putDataEntry_word d h]
      have hv : ((Int.toNat (d.fileOffset % 4294967296) : Nat) : Int) = d.fileOffset := by
        rw [Int.toNat_of_nonneg (Int.emod_nonneg _ (by decide))]
        omega
      rw [getDataOffset_word _ (by omega) (by omega), hv]
    · rw [putDataEntry_escape d (by omega), List.append_assoc]
      exact getDataOffset_escape _ (by omega) h1 rest
  refine ⟨?_, hoff, ?_⟩
  · rw [putData, putData, putDataEntry_append]
  · rw [getData_one [none] 0 (by simp) _ rest _ hoff]
    rfl

/-- Witness of C1 at the two boundary offsets: `2^31`, written on the 4-byte
path, and `2^31 + 1`, written on the escape path. -/
theorem offset_round_trip_witness :
    (getDataOffset (putDataEntry (some (StIndArray.new 2147483648)) [] ++ []) =
        some (2147483648, []) ∧
      putDataEntry (some (StIndArray.new 2147483648)) [] = uIntBytes 2147483648) ∧
    (getDataOffset (putDataEntry (some (StIndArray.new 2147483649)) [] ++ []) =
        some (2147483649, []) ∧
      putDataEntry (some (StIndArray.new 2147483649)) [] =
        uIntBytes 2147483649 ++ int64Bytes 2147483649) :=
  ⟨⟨(offset_round_trip (StIndArray.new 2147483648) (by decide) (by decide) [] []).2.1,
      by decide⟩,
    ⟨(offset_round_trip (StIndArray.new 2147483649) (by decide) (by decide) [] []).2.1,
      by decide⟩⟩

/-- C2. Encoding format: a non-null descriptor whose offset `O` is at most `2^31`
is written as exactly the 4 bytes of the unsigned word `O`; one whose offset is
above `2^31` is written as exactly the 4 bytes of the word `2^31 + 1` followed by
the 8 bytes of `O`; each of the two forms is produced in its own case only, so
the escape path is taken exactly when `O > 2^31`. -/
theorem encoding_format (d : StIndArray) (h0 : 0 ≤ d.fileOffset)
    (h1 : d.fileOffset < 9223372036854775808) (ios : AipsIO) :
    (d.fileOffset ≤ 2147483648 →
      putData [some d] 1 ios = some (ios ++ uIntBytes (Int.toNat d.fileOffset)) ∧
      getUInt (uIntBytes (Int.toNat d.fileOffset)) = some (Int.toNat d.fileOffset, [])) ∧
    (2147483648 < d.fileOffset →
      putData [some d] 1 ios =
        some (ios ++ (uIntBytes 2147483649 ++ int64Bytes d.fileOffset)) ∧
      getUInt (uIntBytes 2147483649) = some (2147483649, []) ∧
      getInt64 (int64Bytes d.fileOffset) = some (d.fileOffset, [])) ∧
    (putData [some d] 1 ios = some (ios ++ uIntBytes (Int.toNat d.fileOffset)) ↔
      d.fileOffset ≤ 2147483648) ∧
    (putData [some d] 1 ios =
        some (ios ++ (uIntBytes 2147483649 ++ int64Bytes d.fileOffset)) ↔
      2147483648 < d.fileOffset) := by
  have hput : putData [some d] 1 ios = some (ios ++ putDataEntry (some d) []) := by
    rw [putData, putData, putDataEntry_append]
  have hsmall : d.fileOffset ≤ 2147483648 →
      putDataEntry (some d) [] = uIntBytes (Int.toNat d.fileOffset) := by
    intro h
    rw [putDataEntry_word d h, Int.emod_eq_of_lt h0 (by omega)]
  have hlen4 : ∀ v, (uIntBytes v).length = 4 := fun _ => rfl
  have hlen12 : ∀ v, (uIntBytes 2147483649 ++ int64Bytes v).length = 12 := fun _ => rfl
  refine ⟨?_, ?_, ?_, ?_⟩
  · intro h
    refine ⟨by rw [hput, hsmall h], ?_⟩
    have := getUInt_uIntBytes (Int.toNat d.fileOffset) []
    rw [List.append_nil, Nat.mod_eq_of_lt (by omega)] at this
    exact this
  · intro h
    refine ⟨by rw [hput, putDataEntry_escape d h], by decide, ?_⟩
    have := getInt64_int64Bytes d.fileOffset (by omega) h1 []
    rwa [List.append_nil] at this
  · constructor
    · intro h
      by_contra hgt
      rw [hput, putDataEntry_escape d (by omega)] at h
      have := congrArg List.length (List.append_cancel_left (Option.some.inj h))
      rw [hlen4, hlen12] at this
      omega
    · intro h
      rw [hput, hsmall h]
  · constructor
    · intro h
      by_contra hle
      rw [hput, hsmall (by omega)] at h
      have := congrArg List.length (List.append_cancel_left (Option.some.inj h))
      rw [hlen4, hlen12] at this
      omega
    · intro h
      rw [hput, putDataEntry_escape d h]

/-- Witness of C2 at the offset `2^31 + 1`, the first one on the escape path. -/
theorem encoding_format_witness :
    putData [some (StIndArray.new 2147483649)] 1 [] =
      some ([] ++ (uIntBytes 2147483649 ++ int64Bytes 2147483649)) ∧
    getUInt (uIntBytes 2147483649) = some (2147483649, []) ∧
    getInt64 (int64Bytes 2147483649) = some (2147483649, []) :=
  (encoding_format (StIndArray.new 2147483649) (by decide) (by decide) []).2.1 (by decide)

/-- C3. Null slot and zero: `putData` writes a null slot as the 4 bytes of the
word 0; `getData` turns those 4 bytes into a null slot whatever the slot held
before, keeping the other slots; so a null slot written by `putData` is read
back by `getData` as a null slot. -/
theorem null_slot_round_trip (dp : List (Option StIndArray)) (inx : Nat)
    (h : inx < dp.length) (ios rest : AipsIO) :
    putData [none] 1 ios = some (ios ++ uIntBytes 0) ∧
    getUInt (uIntBytes 0 ++ rest) = some (0, rest) ∧
    getData dp inx 1 (uIntBytes 0 ++ rest) = GetResult.ok (dp.set inx none) rest ∧
    (∀ w, putData [none] 1 [] = some w →
      getData dp inx 1 (w ++ rest) = GetResult.ok (dp.set inx none) rest) := by
  have hget : getData dp inx 1 (uIntBytes 0 ++ rest) =
      GetResult.ok (dp.set inx none) rest := by
    rw [getData_one dp inx h _ rest 0 (getDataOffset_word 0 (by decide) (by decide) rest)]
    rfl
  refine ⟨rfl, getUInt_uIntBytes 0 rest, hget, ?_⟩
  intro w hw
  have : w = uIntBytes 0 := (Option.some.inj hw).symm
  rw [this, hget]

/-- Witness of C3: a block of two slots holding descriptors, the second one
overwritten by the null entry. -/
theorem null_slot_round_trip_witness :
    getData [some (StIndArray.new 16), some (StIndArray.new 40)] 1 1 (uIntBytes 0 ++ []) =
      GetResult.ok [some (StIndArray.new 16), none] [] :=
  (null_slot_round_trip [some (StIndArray.new 16), some (StIndArray.new 40)] 1
    (by decide) [] []).2.2.1

/-- C4. Decode read width: on every input stream `getData` first reads one
4-byte unsigned word `w` (and fails when the stream does not start with 4
bytes); when `w = 2^31 + 1` it reads the next 8 bytes and takes their value as
the offset; for every other `w` the offset is `w` and the stream is left right
after the 4 bytes. Each entry of the loop is read this way. -/
theorem decode_read_width (ios : AipsIO) :
    (getUInt ios = none → getDataOffset ios = none) ∧
    (∀ w ios1, getUInt ios = some (w, ios1) →
      (w = 2147483649 → getDataOffset ios = getInt64 ios1 ∧
        ∀ offset ios2, getDataOffset ios = some (offset, ios2) →
          ios1.length = ios2.length + 8 ∧ ios.length = ios2.length + 12) ∧
      (w ≠ 2147483649 → getDataOffset ios = some ((w : Int), ios1) ∧
        ios.length = ios1.length + 4)) ∧
    (∀ dp inx nrval, getData dp inx (nrval + 1) ios =
      match getDataOffset ios with
      | none => GetResult.eof dp
      | some (offset, ios1) =>
        if inx < dp.length then getData (dp.set inx (getDataSlot offset)) (inx + 1) nrval ios1
        else GetResult.outside) := by
  refine ⟨?_, ?_, ?_⟩
  · intro h
    simp [getDataOffset, h]
  · intro w ios1 hw
    have hlen : ios.length = ios1.length + 4 := by
      match ios, hw with
      | Item.byte _ :: Item.byte _ :: Item.byte _ :: Item.byte _ :: r, hw =>
        simp only [getUInt, Option.some.injEq, Prod.mk.injEq] at hw
        rw [← hw.2]
        simp
    refine ⟨?_, ?_⟩
    · intro hs
      have hoff : getDataOffset ios = getInt64 ios1 := by
        simp [getDataOffset, hw, hs]
      refine ⟨hoff, ?_⟩
      intro offset ios2 h2
      rw [hoff] at h2
      have : ios1.length = ios2.length + 8 := by
        match ios1, h2 with
        | Item.byte _ :: Item.byte _ :: Item.byte _ :: Item.byte _ :: Item.byte _ ::
            Item.byte _ :: Item.byte _ :: Item.byte _ :: r, h2 =>
          simp only [getInt64, Option.some.injEq, Prod.mk.injEq] at h2
          rw [← h2.2]
          simp
      omega
    · intro hs
      exact ⟨by simp [getDataOffset, hw, hs], hlen⟩
  · intro dp inx nrval
    rw [getData, getDataLoop]
    rfl

/-- Witness of C4 on two streams: one starting with the word `2^31 + 1`, where
the 8 bytes after it are read, and one starting with the word 7, where nothing
more is read. -/
theorem decode_read_width_witness :
    (getDataOffset (uIntBytes 2147483649 ++ (int64Bytes 5000000000 ++ uIntBytes 7)) =
        getInt64 (int64Bytes 5000000000 ++ uIntBytes 7) ∧
      getInt64 (int64Bytes 5000000000 ++ uIntBytes 7) = some (5000000000, uIntBytes 7)) ∧
    getDataOffset (uIntBytes 7 ++ uIntBytes 9) = some (7, uIntBytes 9) :=
  ⟨⟨(((decode_read_width
        (uIntBytes 2147483649 ++ (int64Bytes 5000000000 ++ uIntBytes 7))).2.1
        2147483649 (int64Bytes 5000000000 ++ uIntBytes 7) (by decide)).1 rfl).1,
      by decide⟩,
    (((decode_read_width (uIntBytes 7 ++ uIntBytes 9)).2.1 7 (uIntBytes 9) (by decide)).2
      (by decide)).1⟩

/-! ## Claims about rows without an array -/

/-- C5. Undefined-row read fails: for a row whose slot is null each of
`getShape`, `shape`, `ndim`, `getArrayV`, `getSliceV`, `putArrayV` and
`putSliceV` raises `DataManInvOper` with the message "ASM: no array in row",
the row number, " of ", the file name of the storage manager; for a row whose
slot holds a descriptor none of them raises that error. -/
theorem undefined_row_fails (c : StManColumnIndArrayAipsIO) (rownr : Nat) (ns : Slicer)
    (arr : ArrayBase) :
    (c.getArrayPtr rownr = some none →
      c.getShape rownr = Outcome.throw (Exception.DataManInvOper
        ("ASM: no array in row " ++ toString rownr ++ " of " ++ c.stman.fileName)) c ∧
      c.shape rownr = Outcome.throw (Exception.DataManInvOper
        ("ASM: no array in row " ++ toString rownr ++ " of " ++ c.stman.fileName)) c ∧
      c.ndim rownr = Outcome.throw (Exception.DataManInvOper
        ("ASM: no array in row " ++ toString rownr ++ " of " ++ c.stman.fileName)) c ∧
      c.getArrayV rownr = Outcome.throw (Exception.DataManInvOper
        ("ASM: no array in row " ++ toString rownr ++ " of " ++ c.stman.fileName)) c ∧
      c.getSliceV rownr ns = Outcome.throw (Exception.DataManInvOper
        ("ASM: no array in row " ++ toString rownr ++ " of " ++ c.stman.fileName)) c ∧
      c.putArrayV rownr arr = Outcome.throw (Exception.DataManInvOper
        ("ASM: no array in row " ++ toString rownr ++ " of " ++ c.stman.fileName)) c ∧
      c.putSliceV rownr ns arr = Outcome.throw (Exception.DataManInvOper
        ("ASM: no array in row " ++ toString rownr ++ " of " ++ c.stman.fileName)) c) ∧
    (∀ ptr, c.getArrayPtr rownr = some (some ptr) → ∀ msg c1,
      c.getShape rownr ≠ Outcome.throw (Exception.DataManInvOper msg) c1 ∧
      c.shape rownr ≠ Outcome.throw (Exception.DataManInvOper msg) c1 ∧
      c.ndim rownr ≠ Outcome.throw (Exception.DataManInvOper msg) c1 ∧
      c.getArrayV rownr ≠ Outcome.throw (Exception.DataManInvOper msg) c1 ∧
      c.getSliceV rownr ns ≠ Outcome.throw (Exception.DataManInvOper msg) c1 ∧
      c.putArrayV rownr arr ≠ Outcome.throw (Exception.DataManInvOper msg) c1 ∧
      c.putSliceV rownr ns arr ≠ Outcome.throw (Exception.DataManInvOper msg) c1) := by
  constructor
  · intro h
    have hs : c.getShape rownr = Outcome.throw (Exception.DataManInvOper
        ("ASM: no array in row " ++ toString rownr ++ " of " ++ c.stman.fileName)) c := by
      simp only [ StManColumnIndArrayAipsIO.getShape, h]
    simp only [ StManColumnIndArrayAipsIO.shape, StManColumnIndArrayAipsIO.ndim,
      StManColumnIndArrayAipsIO.getArrayV, StManColumnIndArrayAipsIO.getSliceV,
      StManColumnIndArrayAipsIO.putArrayV, StManColumnIndArrayAipsIO.putSliceV, hs, and_self]
  · intro ptr h msg c1
    have hs : ∀ e c2, c.getShape rownr ≠ Outcome.throw e c2 := by
      intro e c2
      simp only [ StManColumnIndArrayAipsIO.getShape, h]
      split
      · simp
      · split <;> simp
    refine ⟨hs _ _, ?_, ?_, ?_, ?_, ?_, ?_⟩
    · simp only [ StManColumnIndArrayAipsIO.shape]
      split <;> simp_all
    · simp only [ StManColumnIndArrayAipsIO.ndim]
      split <;> simp_all
    · simp only [ StManColumnIndArrayAipsIO.getArrayV]
      split
      · split
        · simp
        · split <;> simp
      · simp_all
      · simp
    · simp only [ StManColumnIndArrayAipsIO.getSliceV]
      split
      · split
        · simp
        · split <;> simp
      · simp_all
      · simp
    · simp only [ StManColumnIndArrayAipsIO.putArrayV]
      split
      · split
        · simp
        · split <;> simp
      · simp_all
      · simp
    · simp only [ StManColumnIndArrayAipsIO.putSliceV]
      split
      · split
        · simp
        · split <;> simp
      · simp_all
      · simp

theorem exampleColumn_reached :
    run [Op.doCreate 0, Op.addRow 2 0, Op.setShape 1 [3]] exampleNew = some exampleColumn := by
  decide

/-- Witness of C5 on the two rows of `exampleColumn`. -/
theorem undefined_row_fails_witness :
    (exampleColumn.getArrayPtr 0 = some none ∧
      exampleColumn.getShape 0 = Outcome.throw
        (Exception.DataManInvOper "ASM: no array in row 0 of table.f0") exampleColumn) ∧
    (exampleColumn.getArrayPtr 1 =
        some (some { fileOffset := 16, shapeKnown := true, shape := [3] }) ∧
      exampleColumn.getShape 1 ≠ Outcome.throw
        (Exception.DataManInvOper "ASM: no array in row 1 of table.f0") exampleColumn) :=
  ⟨⟨by decide,
      ((undefined_row_fails exampleColumn 0 ⟨[], []⟩ ⟨[], []⟩).1 (by decide)).1⟩,
    ⟨by decide,
      ((undefined_row_fails exampleColumn 1 ⟨[], []⟩ ⟨[], []⟩).2
        { fileOffset := 16, shapeKnown := true, shape := [3] } (by decide) _ _).1⟩⟩

/-- C6. Atomicity of the undefined-row failure: on a row whose slot is null each
of `getShape`, `shape`, `ndim`, `getArrayV`, `getSliceV`, `putArrayV` and
`putSliceV` ends by an error in the very state of before the call: the slots of
all rows, the array files and the has-put flag of the storage manager are
unchanged. -/
theorem undefined_row_failure_atomic (c : StManColumnIndArrayAipsIO) (rownr : Nat)
    (ns : Slicer) (arr : ArrayBase) (h : c.getArrayPtr rownr = some none) :
    (∃ e, c.getShape rownr = Outcome.throw e c) ∧
    (∃ e, c.shape rownr = Outcome.throw e c) ∧
    (∃ e, c.ndim rownr = Outcome.throw e c) ∧
    (∃ e, c.getArrayV rownr = Outcome.throw e c) ∧
    (∃ e, c.getSliceV rownr ns = Outcome.throw e c) ∧
    (∃ e, c.putArrayV rownr arr = Outcome.throw e c) ∧
    (∃ e, c.putSliceV rownr ns arr = Outcome.throw e c) ∧
    (∀ (o : Option StManColumnIndArrayAipsIO),
      o ∈ [(c.getShape rownr).state, (c.shape rownr).state, (c.ndim rownr).state,
        (c.getArrayV rownr).state, (c.getSliceV rownr ns).state,
        (c.putArrayV rownr arr).state, (c.putSliceV rownr ns arr).state] →
      ∃ c1, o = some c1 ∧ c1.data = c.data ∧ c1.files = c.files ∧
        c1.stman.hasPut = c.stman.hasPut) := by
  have hs : c.getShape rownr = Outcome.throw (Exception.DataManInvOper
      ("ASM: no array in row " ++ toString rownr ++ " of " ++ c.stman.fileName)) c := by
    simp only [ StManColumnIndArrayAipsIO.getShape, h]
  generalize Exception.DataManInvOper
    ("ASM: no array in row " ++ toString rownr ++ " of " ++ c.stman.fileName) = e at hs
  refine ⟨⟨e, hs⟩, ⟨e, ?_⟩, ⟨e, ?_⟩, ⟨e, ?_⟩, ⟨e, ?_⟩, ⟨e, ?_⟩, ⟨e, ?_⟩, ?_⟩
  · simp only [ StManColumnIndArrayAipsIO.shape, hs]
  · simp only [ StManColumnIndArrayAipsIO.ndim, hs]
  · simp only [ StManColumnIndArrayAipsIO.getArrayV, hs]
  · simp only [ StManColumnIndArrayAipsIO.getSliceV, hs]
  · simp only [ StManColumnIndArrayAipsIO.putArrayV, hs]
  · simp only [ StManColumnIndArrayAipsIO.putSliceV, hs]
  · intro o ho
    refine ⟨c, ?_, rfl, rfl, rfl⟩
    simp only [ StManColumnIndArrayAipsIO.shape, StManColumnIndArrayAipsIO.ndim,
      StManColumnIndArrayAipsIO.getArrayV, StManColumnIndArrayAipsIO.getSliceV,
      StManColumnIndArrayAipsIO.putArrayV, StManColumnIndArrayAipsIO.putSliceV, hs,
      Outcome.state, List.mem_cons, List.mem_singleton, or_self, List.mem_nil_iff,
      or_false] at ho
    exact ho

/-- Witness of C6 on the first row of `exampleColumn`, which has no array. -/
theorem undefined_row_failure_atomic_witness :
    exampleColumn.getArrayPtr 0 = some none ∧
    ∃ e, exampleColumn.putArrayV 0 { shape := [1], data := [5] } =
      Outcome.throw e exampleColumn :=
  ⟨by decide,
    (undefined_row_failure_atomic exampleColumn 0 ⟨[], []⟩ { shape := [1], data := [5] }
      (by decide)).2.2.2.2.2.1⟩

/-- C7, the claim as stated fails: on the first row of `exampleColumn`, which has
no descriptor, `getShape` and `ndim` raise the error but `isShapeDefined` raises
nothing and returns `False`. -/
theorem isShapeDefined_fails_counterexample :
    exampleColumn.getArrayPtr 0 = some none ∧
    exampleColumn.getShape 0 = Outcome.throw
      (Exception.DataManInvOper "ASM: no array in row 0 of table.f0") exampleColumn ∧
    exampleColumn.ndim 0 = Outcome.throw
      (Exception.DataManInvOper "ASM: no array in row 0 of table.f0") exampleColumn ∧
    exampleColumn.isShapeDefined 0 = Outcome.ok false exampleColumn ∧
    ¬ ∃ e c1, exampleColumn.isShapeDefined 0 = Outcome.throw e c1 := by
  refine ⟨by decide, by decide, by decide, by decide, ?_⟩
  rintro ⟨e, c1, h⟩
  have h2 : exampleColumn.isShapeDefined 0 = Outcome.ok false exampleColumn := by decide
  rw [h2] at h
  cases h

/-- C7 as amended: on a row with no descriptor `isShapeDefined` does not fail: it
returns `False` and leaves the state as it was, whereas `getShape` and `ndim`
raise the error; on a row with a descriptor it returns `True`. -/
theorem isShapeDefined_null_row (c : StManColumnIndArrayAipsIO) (rownr : Nat) :
    (c.getArrayPtr rownr = some none →
      c.isShapeDefined rownr = Outcome.ok false c ∧
      c.getShape rownr = Outcome.throw (Exception.DataManInvOper
        ("ASM: no array in row " ++ toString rownr ++ " of " ++ c.stman.fileName)) c ∧
      c.ndim rownr = Outcome.throw (Exception.DataManInvOper
        ("ASM: no array in row " ++ toString rownr ++ " of " ++ c.stman.fileName)) c) ∧
    (∀ ptr, c.getArrayPtr rownr = some (some ptr) →
      c.isShapeDefined rownr = Outcome.ok true c) := by
  constructor
  · intro h
    simp only [ StManColumnIndArrayAipsIO.isShapeDefined, StManColumnIndArrayAipsIO.ndim,
      StManColumnIndArrayAipsIO.getShape, h, and_self]
  · intro ptr h
    simp only [ StManColumnIndArrayAipsIO.isShapeDefined, h]

/-- Witness of C7 as amended on the two rows of `exampleColumn`. -/
theorem isShapeDefined_null_row_witness :
    exampleColumn.isShapeDefined 0 = Outcome.ok false exampleColumn ∧
    exampleColumn.isShapeDefined 1 = Outcome.ok true exampleColumn :=
  ⟨((isShapeDefined_null_row exampleColumn 0).1 (by decide)).1,
    (isShapeDefined_null_row exampleColumn 1).2
      { fileOffset := 16, shapeKnown := true, shape := [3] } (by decide)⟩

/-! ## The array file of a state, and single calls of `setShape` and `getShape` -/

theorem find_map_replace (files : List StManArrayFile) (n : String) (f f1 : StManArrayFile)
    (h : files.find? (fun g => g.name = n) = some f) (h1 : f1.name = n) :
    (files.map (fun g => if g.name = f1.name then f1 else g)).find? (fun g => g.name = n) =
      some f1 := by
  subst h1
  induction files with
  | nil => simp at h
  | cons g gs ih =>
    by_cases hg : g.name = f1.name
    · simp [List.find?, hg]
    · have h2 : gs.find? (fun g => g.name = f1.name) = some f := by
        simpa [List.find?, hg] using h
      rw [List.map_cons, if_neg hg, List.find?_cons_of_neg _ (by simpa using hg)]
      exact ih h2

theorem file_name (c : StManColumnIndArrayAipsIO) (f : StManArrayFile)
    (h : c.file = some f) : c.iosfile_p = some f.name := by
  unfold StManColumnIndArrayAipsIO.file at h
  cases hp : c.iosfile_p with
  | none => simp [hp] at h
  | some n =>
    simp only [hp] at h
    have := List.find?_some h
    simp only [decide_eq_true_eq] at this
    rw [this]

theorem file_setFile (c : StManColumnIndArrayAipsIO) (f f1 : StManArrayFile)
    (h : c.file = some f) (h1 : f1.name = f.name) : (c.setFile f1).file = some f1 := by
  have hn := file_name c f h
  unfold StManColumnIndArrayAipsIO.file at h ⊢
  simp only [ StManColumnIndArrayAipsIO.setFile, hn] at h ⊢
  exact find_map_replace c.files f.name f f1 h h1

theorem setShape_name (d : StIndArray) (f : StManArrayFile) (t : Int) (s : IPosition) :
    (d.setShape f t s).2.2.name = f.name := by
  unfold StIndArray.setShape
  split <;> rfl

theorem setShape_known (d : StIndArray) (f : StManArrayFile) (t : Int) (s : IPosition) :
    (d.setShape f t s).2.1.shapeKnown = true ∧ (d.setShape f t s).2.1.shape = s := by
  unfold StIndArray.setShape
  split
  · next h => exact h
  · exact ⟨rfl, rfl⟩

/-- One call of `setShape` on a row inside the slots, the array file being
bound: it returns, the row holds a descriptor knowing the shape, the other slots
and the other data members are as before, and the array file is still bound. -/
theorem setShape_row (c : StManColumnIndArrayAipsIO) (rownr : Nat) (s : IPosition)
    (f : StManArrayFile) (hf : c.file = some f) (hr : rownr < c.data.length) :
    ∃ c1 d f1, c.setShape rownr s = Outcome.ok () c1 ∧ c1.file = some f1 ∧
      c1.data = c.data.set rownr (some d) ∧ d.shapeKnown = true ∧ d.shape = s ∧
      c1.shapeIsFixed_p = c.shapeIsFixed_p ∧ c1.fixedShape_p = c.fixedShape_p ∧
      c1.stman = c.stman := by
  have hslot : c.getArrayPtr rownr = some (c.data[rownr]) := by
    simp [ StManColumnIndArrayAipsIO.getArrayPtr, List.getElem?_eq_getElem hr]
  unfold StManColumnIndArrayAipsIO.setShape
  simp only [hslot, hf]
  generalize hptr : (match c.data[rownr] with
    | none => StIndArray.new 0
    | some p => p) = ptr
  have hk := setShape_known ptr f c.dtype s
  have hfile := file_setFile c f (ptr.setShape f c.dtype s).2.2 hf (setShape_name ptr f c.dtype s)
  by_cases hch : (ptr.setShape f c.dtype s).1 = true
  · simp only [hch, if_true]
    exact ⟨_, (ptr.setShape f c.dtype s).2.1, (ptr.setShape f c.dtype s).2.2, rfl, hfile, rfl, hk.1, hk.2,
      rfl, rfl, rfl⟩
  · simp only [hch, if_false]
    cases hd : c.data[rownr] with
    | none =>
      exfalso
      rw [hd] at hptr
      apply hch
      rw [← hptr]
      simp [StIndArray.setShape, StIndArray.new]
    | some p =>
      exact ⟨_, (ptr.setShape f c.dtype s).2.1, (ptr.setShape f c.dtype s).2.2, rfl, hfile, rfl, hk.1, hk.2,
        rfl, rfl, rfl⟩

/-- `getShape` on a row whose descriptor knows its shape returns that
descriptor without touching the file. -/
theorem getShape_known (c : StManColumnIndArrayAipsIO) (rownr : Nat) (d : StIndArray)
    (f : StManArrayFile) (hf : c.file = some f) (hd : c.getArrayPtr rownr = some (some d))
    (hk : d.shapeKnown = true) :
    c.getShape rownr = Outcome.ok d ((c.setFile f).putArrayPtr rownr d) := by
  simp [ StManColumnIndArrayAipsIO.getShape, hd, hf, StIndArray.getShape, hk]

/-- The loop of `addRow` over `k` rows from `nrold` on, all inside the slots and
the array file being bound: it returns, each of these rows holds a descriptor
knowing the fixed shape, and the other slots are as before. -/
theorem addRow_loop (k : Nat) : ∀ (nrold : Nat) (c : StManColumnIndArrayAipsIO)
    (f : StManArrayFile), c.file = some f → nrold + k ≤ c.data.length →
    ∃ c1 f1, (List.range' nrold k).foldl StManColumnIndArrayAipsIO.addRowStep
        (Outcome.ok () c) = Outcome.ok () c1 ∧
      c1.file = some f1 ∧ c1.data.length = c.data.length ∧
      c1.fixedShape_p = c.fixedShape_p ∧ c1.shapeIsFixed_p = c.shapeIsFixed_p ∧
      c1.stman = c.stman ∧
      (∀ r, r < nrold ∨ nrold + k ≤ r → c1.data[r]? = c.data[r]?) ∧
      (∀ r, nrold ≤ r → r < nrold + k →
        ∃ d, c1.data[r]? = some (some d) ∧ d.shapeKnown = true ∧
          d.shape = c.fixedShape_p) := by
  induction k with
  | zero =>
    intro nrold c f hf _
    exact ⟨c, f, rfl, hf, rfl, rfl, rfl, rfl, fun _ _ => rfl, fun r h1 h2 => by omega⟩
  | succ k ih =>
    intro nrold c f hf hlen
    obtain ⟨c2, d, f2, hset, hf2, hdata, hk, hs, hfix, hshape, hst⟩ :=
      setShape_row c nrold c.fixedShape_p f hf (by omega)
    have hlen2 : c2.data.length = c.data.length := by rw [hdata, List.length_set]
    obtain ⟨c1, f1, hfold, hf1, hl1, hsh1, hfx1, hst1, hother, hrows⟩ :=
      ih (nrold + 1) c2 f2 hf2 (by omega)
    refine ⟨c1, f1, ?_, hf1, by omega, by rw [hsh1, hshape], by rw [hfx1, hfix],
      by rw [hst1, hst], ?_, ?_⟩
    · rw [List.range'_succ, List.foldl_cons]
      simp only [ StManColumnIndArrayAipsIO.addRowStep, hset]
      exact hfold
    · intro r hr
      rw [hother r (by omega), hdata, List.getElem?_set_ne (by omega)]
    · intro r h1 h2
      by_cases hr : r = nrold
      · subst hr
        refine ⟨d, ?_, hk, hs⟩
        rw [hother r (by omega), hdata, List.getElem?_set_self (by omega)]
      · obtain ⟨d1, hd1, hk1, hs1⟩ := hrows r (by omega) (by omega)
        exact ⟨d1, hd1, hk1, by rw [hs1, hshape]⟩

/-- The shape queries on a row whose descriptor knows its shape. -/
theorem queries_known (c : StManColumnIndArrayAipsIO) (rownr : Nat) (d : StIndArray)
    (f : StManArrayFile) (hf : c.file = some f) (hd : c.data[rownr]? = some (some d))
    (hk : d.shapeKnown = true) :
    c.isShapeDefined rownr = Outcome.ok true c ∧
    c.shape rownr = Outcome.ok d.shape ((c.setFile f).putArrayPtr rownr d) ∧
    c.ndim rownr = Outcome.ok d.shape.length ((c.setFile f).putArrayPtr rownr d) := by
  have hg := getShape_known c rownr d f hf hd hk
  refine ⟨?_, ?_, ?_⟩
  · simp only [ StManColumnIndArrayAipsIO.isShapeDefined,
      StManColumnIndArrayAipsIO.getArrayPtr, hd]
  · simp only [ StManColumnIndArrayAipsIO.shape, hg]
  · simp only [ StManColumnIndArrayAipsIO.ndim, hg]

/-- `addRow` on a column with a fixed shape whose array file is bound. -/
theorem addRow_fixed (c : StManColumnIndArrayAipsIO) (f : StManArrayFile) (nrnew nrold : Nat)
    (hfix : c.shapeIsFixed_p = true) (hf : c.file = some f) :
    ∃ c1, c.addRow nrnew nrold = Outcome.ok () c1 ∧
      ∀ r, nrold ≤ r → r < nrnew →
        c1.isShapeDefined r = Outcome.ok true c1 ∧
        ∃ c2, c1.shape r = Outcome.ok c.fixedShape_p c2 := by
  have hlen : nrnew ≤ (c.baseAddRow nrnew nrold).data.length := by
    simp only [ StManColumnIndArrayAipsIO.baseAddRow, List.length_append, List.length_replicate]
    omega
  have hf0 : (c.baseAddRow nrnew nrold).file = some f := hf
  have hfix0 : (c.baseAddRow nrnew nrold).shapeIsFixed_p = true := hfix
  unfold StManColumnIndArrayAipsIO.addRow
  simp only [hfix0, if_true]
  by_cases hle : nrold ≤ nrnew
  · obtain ⟨c1, f1, hfold, hf1, -, hsh, -, -, -, hrows⟩ :=
      addRow_loop (nrnew - nrold) nrold (c.baseAddRow nrnew nrold) f hf0 (by omega)
    refine ⟨c1, hfold, ?_⟩
    intro r h1 h2
    obtain ⟨d, hd, hk, hs⟩ := hrows r h1 (by omega)
    have hq := queries_known c1 r d f1 hf1 hd hk
    refine ⟨hq.1, (c1.setFile f1).putArrayPtr r d, ?_⟩
    rw [hq.2.1, hs]
    rfl
  · have hk : nrnew - nrold = 0 := by omega
    rw [hk]
    exact ⟨_, rfl, fun r h1 h2 => by omega⟩

/-- `openFile (ByteIO::New)` on a newly constructed column binds an array
file, when the array file the storage manager may already have open exists. -/
theorem openFile_new (smptr : StManAipsIO) (dataType : Int) (files : List StManArrayFile)
    (s : IPosition) (fixed : Bool)
    (hw : ∀ nm, smptr.iosfile_p = some nm → ∃ g ∈ files, g.name = nm) :
    ∃ c1 f, ({ StManColumnIndArrayAipsIO.new smptr dataType files with
        fixedShape_p := s, shapeIsFixed_p := fixed }).openFile OpenOption.New =
        Outcome.ok () c1 ∧
      c1.file = some f ∧ c1.data = [] ∧ c1.shapeIsFixed_p = fixed ∧ c1.fixedShape_p = s := by
  cases hp : smptr.iosfile_p with
  | some nm =>
    obtain ⟨g, hg, hgn⟩ := hw nm hp
    have hsome : (files.find? (fun f => f.name = nm)).isSome = true := by
      rw [List.find?_isSome]
      exact ⟨g, hg, by simpa using hgn⟩
    obtain ⟨f, hfind⟩ := Option.isSome_iff_exists.mp hsome
    refine ⟨{ StManColumnIndArrayAipsIO.new smptr dataType files with
        fixedShape_p := s, shapeIsFixed_p := fixed, iosfile_p := some nm }, f, ?_, ?_,
      rfl, rfl, rfl⟩
    · simp only [ StManColumnIndArrayAipsIO.openFile, StManColumnIndArrayAipsIO.new,
        StManColumnIndArrayAipsIO.openArrayFile, hp]
      rfl
    · simpa [ StManColumnIndArrayAipsIO.file] using hfind
  | none =>
    refine ⟨{ StManColumnIndArrayAipsIO.new smptr dataType files with
        fixedShape_p := s, shapeIsFixed_p := fixed,
        iosfile_p := some (smptr.fileName ++ "i"),
        stman := { smptr with uniqnr := smptr.uniqnr + 1,
                              iosfile_p := some (smptr.fileName ++ "i") },
        files := files.filter (fun f => f.name ≠ smptr.fileName ++ "i") ++
          [StManArrayFile.create (smptr.fileName ++ "i")] },
      StManArrayFile.create (smptr.fileName ++ "i"), ?_, ?_, rfl, rfl, rfl⟩
    · simp only [ StManColumnIndArrayAipsIO.openFile, StManColumnIndArrayAipsIO.new,
        StManColumnIndArrayAipsIO.openArrayFile, hp, StManArrayFile.new]
      rfl
    · simp only [ StManColumnIndArrayAipsIO.file, List.find?_append, List.find?_filter]
      have hnone : List.find? (fun a => decide (a.name ≠ smptr.fileName ++ "i") &&
          decide (a.name = smptr.fileName ++ "i")) files = none := by
        rw [List.find?_eq_none]
        intro x _
        by_cases hx : x.name = smptr.fileName ++ "i" <;> simp [hx]
      simp [hnone, StManArrayFile.create]

/-! ## Claims about shapes -/

/-- C8. Fixed-shape invariant: `setShapeColumn (s)` makes the shape fixed; on a
column whose shape is fixed to `s` (its array file being bound), `addRow (nrnew,
nrold)` returns and every row from `nrold` up to `nrnew` then has a descriptor
and the shape `s`, no `setShape` being called from outside; and a newly
constructed column on which `setShapeColumn (s)` and then `doCreate (n)` are
called has a descriptor and the shape `s` in each of its `n` rows. -/
theorem fixed_shape_invariant (s : IPosition) :
    (∀ c : StManColumnIndArrayAipsIO, ∃ c0, c.setShapeColumn s = Outcome.ok () c0 ∧
      c0.shapeIsFixed_p = true ∧ c0.fixedShape_p = s ∧ c0.file = c.file) ∧
    (∀ (c : StManColumnIndArrayAipsIO) (f : StManArrayFile) (nrnew nrold : Nat),
      c.shapeIsFixed_p = true → c.fixedShape_p = s → c.file = some f →
      ∃ c1, c.addRow nrnew nrold = Outcome.ok () c1 ∧
        ∀ r, nrold ≤ r → r < nrnew →
          c1.isShapeDefined r = Outcome.ok true c1 ∧ ∃ c2, c1.shape r = Outcome.ok s c2) ∧
    (∀ (smptr : StManAipsIO) (dataType : Int) (files : List StManArrayFile) (n : Nat),
      (∀ nm, smptr.iosfile_p = some nm → ∃ g ∈ files, g.name = nm) →
      ∃ c0 c1, ( StManColumnIndArrayAipsIO.new smptr dataType files).setShapeColumn s =
          Outcome.ok () c0 ∧
        c0.doCreate n = Outcome.ok () c1 ∧
        ∀ r, r < n →
          c1.isShapeDefined r = Outcome.ok true c1 ∧
          ∃ c2, c1.shape r = Outcome.ok s c2) := by
  refine ⟨fun c => ⟨_, rfl, rfl, rfl, rfl⟩, ?_, ?_⟩
  · intro c f nrnew nrold hfix hs hf
    obtain ⟨c1, h1, h2⟩ := addRow_fixed c f nrnew nrold hfix hf
    exact ⟨c1, h1, fun r hr1 hr2 => by rw [← hs]; exact h2 r hr1 hr2⟩
  · intro smptr dataType files n hw
    obtain ⟨c1, f, hopen, hf, -, hfix, hsh⟩ := openFile_new smptr dataType files s true hw
    obtain ⟨c2, hadd, hrows⟩ := addRow_fixed c1 f n 0 hfix hf
    refine ⟨_, c2, rfl, ?_, ?_⟩
    · simp only [ StManColumnIndArrayAipsIO.doCreate, hopen]
      exact hadd
    · intro r hr
      have := hrows r (Nat.zero_le r) hr
      rw [hsh] at this
      exact this

/-- Witness of C8: two rows added to `exampleFixed`, and a new column of two
rows created with the fixed shape `[2, 3]`. -/
theorem fixed_shape_invariant_witness :
    (exampleFixed.shapeIsFixed_p = true ∧ exampleFixed.fixedShape_p = [3] ∧
      ∃ c1, exampleFixed.addRow 4 2 = Outcome.ok () c1 ∧
        ∀ r, 2 ≤ r → r < 4 →
          c1.isShapeDefined r = Outcome.ok true c1 ∧
          ∃ c2, c1.shape r = Outcome.ok [3] c2) ∧
    ∃ c0 c1, ( StManColumnIndArrayAipsIO.new exampleStMan 0 []).setShapeColumn [2, 3] =
        Outcome.ok () c0 ∧
      c0.doCreate 2 = Outcome.ok () c1 ∧
      ∀ r, r < 2 →
        c1.isShapeDefined r = Outcome.ok true c1 ∧
        ∃ c2, c1.shape r = Outcome.ok [2, 3] c2 :=
  ⟨⟨by decide, by decide,
      (fixed_shape_invariant [3]).2.1 exampleFixed
        { name := "table.f0i", writable := true, leng := 52,
          records := [{ offset := 16, shape := [3], data := [0, 0, 0] }],
          accesses := [FileAccess.putShape 16] }
        4 2 (by decide) (by decide) (by decide)⟩,
    (fixed_shape_invariant [2, 3]).2.2 exampleStMan 0 [] 2
      (fun nm h => by simp [exampleStMan] at h)⟩

/-- C9. Variable-shape `setShape` (Scenario 1): on a column without a fixed shape
the rows `addRow` adds have no descriptor; on any row inside the slots (the
array file being bound) `setShape (r, s)` returns, after which
`isShapeDefined (r)` is `True`, `shape (r)` is `s`, `ndim (r)` is the length of
`s`, and the slot of every other row is as before; and in the scenario, after
`addRow (3, 0)`, `setShape (0, [2,2])` and `putArrayV` of a 2x2 array in row 0 of
a newly created column, `shape (0)` is `[2,2]` and `shape (1)` raises the
error. -/
theorem variable_shape_setShape :
    (∀ (c : StManColumnIndArrayAipsIO) (nrnew nrold : Nat), c.shapeIsFixed_p = false →
      ∃ c1, c.addRow nrnew nrold = Outcome.ok () c1 ∧
        (∀ r, c.data.length ≤ r → r < nrnew →
          c1.getArrayPtr r = some none ∧ c1.isShapeDefined r = Outcome.ok false c1) ∧
        (∀ r, r < c.data.length → c1.getArrayPtr r = c.getArrayPtr r)) ∧
    (∀ (c : StManColumnIndArrayAipsIO) (r : Nat) (s : IPosition) (f : StManArrayFile),
      c.file = some f → r < c.data.length →
      ∃ c1, c.setShape r s = Outcome.ok () c1 ∧
        c1.isShapeDefined r = Outcome.ok true c1 ∧
        (∃ c2, c1.shape r = Outcome.ok s c2) ∧
        (∃ c2, c1.ndim r = Outcome.ok s.length c2) ∧
        (∀ r1, r1 ≠ r → c1.getArrayPtr r1 = c.getArrayPtr r1)) ∧
    (∃ c1 c2 c3 c4 c5, exampleNew.doCreate 0 = Outcome.ok () c1 ∧
      c1.addRow 3 0 = Outcome.ok () c2 ∧
      c2.setShape 0 [2, 2] = Outcome.ok () c3 ∧
      c3.putArrayV 0 { shape := [2, 2], data := [1, 2, 3, 4] } = Outcome.ok () c4 ∧
      c4.shape 0 = Outcome.ok [2, 2] c5 ∧
      c4.shape 1 = Outcome.throw
        (Exception.DataManInvOper "ASM: no array in row 1 of table.f0") c4) := by
  refine ⟨?_, ?_, ?_⟩
  · intro c nrnew nrold hvar
    refine ⟨c.baseAddRow nrnew nrold, ?_, ?_, ?_⟩
    · have : (c.baseAddRow nrnew nrold).shapeIsFixed_p = false := hvar
      simp [ StManColumnIndArrayAipsIO.addRow, this]
    · intro r h1 h2
      have hslot : (c.baseAddRow nrnew nrold).getArrayPtr r = some none := by
        simp only [ StManColumnIndArrayAipsIO.getArrayPtr,
          StManColumnIndArrayAipsIO.baseAddRow]
        rw [List.getElem?_append_right h1, List.getElem?_replicate_of_lt (by omega)]
      refine ⟨hslot, ?_⟩
      simp only [ StManColumnIndArrayAipsIO.isShapeDefined, hslot]
    · intro r hr
      simp only [ StManColumnIndArrayAipsIO.getArrayPtr,
        StManColumnIndArrayAipsIO.baseAddRow]
      rw [List.getElem?_append_left hr]
  · intro c r s f hf hr
    obtain ⟨c1, d, f1, hset, hf1, hdata, hk, hs, -, -, -⟩ := setShape_row c r s f hf hr
    have hd : c1.data[r]? = some (some d) := by
      rw [hdata, List.getElem?_set_self hr]
    have hq := queries_known c1 r d f1 hf1 hd hk
    refine ⟨c1, hset, hq.1, ⟨_, by rw [hq.2.1, hs]⟩, ⟨_, by rw [hq.2.2, hs]⟩, ?_⟩
    intro r1 hne
    simp only [ StManColumnIndArrayAipsIO.getArrayPtr, hdata]
    rw [List.getElem?_set_ne (Ne.symm hne)]
  · exact ⟨_, _, _, _, _, rfl, rfl, rfl, rfl, rfl, rfl⟩

/-- Witness of C9 on `exampleColumn`: two rows added, and the shape of its first
row set. -/
theorem variable_shape_setShape_witness :
    (∃ c1, exampleColumn.addRow 4 2 = Outcome.ok () c1 ∧
      (∀ r, exampleColumn.data.length ≤ r → r < 4 →
        c1.getArrayPtr r = some none ∧ c1.isShapeDefined r = Outcome.ok false c1) ∧
      (∀ r, r < exampleColumn.data.length → c1.getArrayPtr r = exampleColumn.getArrayPtr r)) ∧
    (∃ c1, exampleColumn.setShape 0 [2, 2] = Outcome.ok () c1 ∧
      c1.isShapeDefined 0 = Outcome.ok true c1 ∧
      (∃ c2, c1.shape 0 = Outcome.ok [2, 2] c2) ∧
      (∃ c2, c1.ndim 0 = Outcome.ok [2, 2].length c2) ∧
      (∀ r1, r1 ≠ 0 → c1.getArrayPtr r1 = exampleColumn.getArrayPtr r1)) :=
  ⟨variable_shape_setShape.1 exampleColumn 4 2 (by decide),
    variable_shape_setShape.2.1 exampleColumn 0 [2, 2]
      { name := "table.f0i", writable := true, leng := 52,
        records := [{ offset := 16, shape := [3], data := [0, 0, 0] }],
        accesses := [FileAccess.putShape 16] }
      (by decide) (by decide)⟩

/-! ## The fixed-shape flag along sequences of calls -/

theorem flag_setShape (c : StManColumnIndArrayAipsIO) (rownr : Nat) (s : IPosition) :
    ∀ c1, (c.setShape rownr s).state = some c1 → c1.shapeIsFixed_p = c.shapeIsFixed_p := by
  unfold StManColumnIndArrayAipsIO.setShape
  repeat' (first | split | dsimp only)
  all_goals intro c1 h
  all_goals simp only [Outcome.state, Option.some.injEq, reduceCtorEq] at h
  all_goals subst h
  all_goals rfl

theorem flag_getShape (c : StManColumnIndArrayAipsIO) (rownr : Nat) :
    ∀ c1, (c.getShape rownr).state = some c1 → c1.shapeIsFixed_p = c.shapeIsFixed_p := by
  unfold StManColumnIndArrayAipsIO.getShape
  repeat' (first | split | dsimp only)
  all_goals intro c1 h
  all_goals simp only [Outcome.state, Option.some.injEq, reduceCtorEq] at h
  all_goals subst h
  all_goals rfl

theorem flag_ndim (c : StManColumnIndArrayAipsIO) (rownr : Nat) :
    ∀ c1, (c.ndim rownr).state = some c1 → c1.shapeIsFixed_p = c.shapeIsFixed_p := by
  intro c1 h
  unfold StManColumnIndArrayAipsIO.ndim at h
  cases hg : c.getShape rownr with
  | undefined =>
    rw [hg] at h
    simp [Outcome.state] at h
  | throw e c2 =>
    rw [hg] at h
    have h2 := flag_getShape c rownr c2 (by rw [hg]; rfl)
    simp only [Outcome.state, Option.some.injEq] at h
    subst h
    exact h2
  | ok sia c2 =>
    rw [hg] at h
    have h2 := flag_getShape c rownr c2 (by rw [hg]; rfl)
    rw [← h2]
    revert h
    intro h
    simp only [Outcome.state, Option.some.injEq] at h
    subst h
    rfl

theorem flag_shape (c : StManColumnIndArrayAipsIO) (rownr : Nat) :
    ∀ c1, (c.shape rownr).state = some c1 → c1.shapeIsFixed_p = c.shapeIsFixed_p := by
  intro c1 h
  unfold StManColumnIndArrayAipsIO.shape at h
  cases hg : c.getShape rownr with
  | undefined =>
    rw [hg] at h
    simp [Outcome.state] at h
  | throw e c2 =>
    rw [hg] at h
    have h2 := flag_getShape c rownr c2 (by rw [hg]; rfl)
    simp only [Outcome.state, Option.some.injEq] at h
    subst h
    exact h2
  | ok sia c2 =>
    rw [hg] at h
    have h2 := flag_getShape c rownr c2 (by rw [hg]; rfl)
    rw [← h2]
    revert h
    intro h
    simp only [Outcome.state, Option.some.injEq] at h
    subst h
    rfl

theorem flag_getArrayV (c : StManColumnIndArrayAipsIO) (rownr : Nat) :
    ∀ c1, (c.getArrayV rownr).state = some c1 → c1.shapeIsFixed_p = c.shapeIsFixed_p := by
  intro c1 h
  unfold StManColumnIndArrayAipsIO.getArrayV at h
  cases hg : c.getShape rownr with
  | undefined =>
    rw [hg] at h
    simp [Outcome.state] at h
  | throw e c2 =>
    rw [hg] at h
    have h2 := flag_getShape c rownr c2 (by rw [hg]; rfl)
    simp only [Outcome.state, Option.some.injEq] at h
    subst h
    exact h2
  | ok sia c2 =>
    rw [hg] at h
    have h2 := flag_getShape c rownr c2 (by rw [hg]; rfl)
    rw [← h2]
    revert h
    dsimp only
    repeat' (first | split | dsimp only)
    all_goals intro h
    all_goals simp only [Outcome.state, Option.some.injEq, reduceCtorEq] at h
    all_goals subst h
    all_goals rfl

theorem flag_putArrayV (c : StManColumnIndArrayAipsIO) (rownr : Nat) (arr : ArrayBase) :
    ∀ c1, (c.putArrayV rownr arr).state = some c1 → c1.shapeIsFixed_p = c.shapeIsFixed_p := by
  intro c1 h
  unfold StManColumnIndArrayAipsIO.putArrayV at h
  cases hg : c.getShape rownr with
  | undefined =>
    rw [hg] at h
    simp [Outcome.state] at h
  | throw e c2 =>
    rw [hg] at h
    have h2 := flag_getShape c rownr c2 (by rw [hg]; rfl)
    simp only [Outcome.state, Option.some.injEq] at h
    subst h
    exact h2
  | ok sia c2 =>
    rw [hg] at h
    have h2 := flag_getShape c rownr c2 (by rw [hg]; rfl)
    rw [← h2]
    revert h
    dsimp only
    repeat' (first | split | dsimp only)
    all_goals intro h
    all_goals simp only [Outcome.state, Option.some.injEq, reduceCtorEq] at h
    all_goals subst h
    all_goals rfl

theorem flag_getSliceV (c : StManColumnIndArrayAipsIO) (rownr : Nat) (ns : Slicer) :
    ∀ c1, (c.getSliceV rownr ns).state = some c1 → c1.shapeIsFixed_p = c.shapeIsFixed_p := by
  intro c1 h
  unfold StManColumnIndArrayAipsIO.getSliceV at h
  cases hg : c.getShape rownr with
  | undefined =>
    rw [hg] at h
    simp [Outcome.state] at h
  | throw e c2 =>
    rw [hg] at h
    have h2 := flag_getShape c rownr c2 (by rw [hg]; rfl)
    simp only [Outcome.state, Option.some.injEq] at h
    subst h
    exact h2
  | ok sia c2 =>
    rw [hg] at h
    have h2 := flag_getShape c rownr c2 (by rw [hg]; rfl)
    rw [← h2]
    revert h
    dsimp only
    repeat' (first | split | dsimp only)
    all_goals intro h
    all_goals simp only [Outcome.state, Option.some.injEq, reduceCtorEq] at h
    all_goals subst h
    all_goals rfl

theorem flag_putSliceV (c : StManColumnIndArrayAipsIO) (rownr : Nat) (ns : Slicer) (arr : ArrayBase) :
    ∀ c1, (c.putSliceV rownr ns arr).state = some c1 → c1.shapeIsFixed_p = c.shapeIsFixed_p := by
  intro c1 h
  unfold StManColumnIndArrayAipsIO.putSliceV at h
  cases hg : c.getShape rownr with
  | undefined =>
    rw [hg] at h
    simp [Outcome.state] at h
  | throw e c2 =>
    rw [hg] at h
    have h2 := flag_getShape c rownr c2 (by rw [hg]; rfl)
    simp only [Outcome.state, Option.some.injEq] at h
    subst h
    exact h2
  | ok sia c2 =>
    rw [hg] at h
    have h2 := flag_getShape c rownr c2 (by rw [hg]; rfl)
    rw [← h2]
    revert h
    dsimp only
    repeat' (first | split | dsimp only)
    all_goals intro h
    all_goals simp only [Outcome.state, Option.some.injEq, reduceCtorEq] at h
    all_goals subst h
    all_goals rfl

theorem flag_isShapeDefined (c : StManColumnIndArrayAipsIO) (rownr : Nat) :
    ∀ c1, (c.isShapeDefined rownr).state = some c1 → c1.shapeIsFixed_p = c.shapeIsFixed_p := by
  unfold StManColumnIndArrayAipsIO.isShapeDefined
  repeat' (first | split | dsimp only)
  all_goals intro c1 h
  all_goals simp only [Outcome.state, Option.some.injEq, reduceCtorEq] at h
  all_goals subst h
  all_goals rfl

theorem flag_reopenRW (c : StManColumnIndArrayAipsIO) :
    ∀ c1, (c.reopenRW).state = some c1 → c1.shapeIsFixed_p = c.shapeIsFixed_p := by
  unfold StManColumnIndArrayAipsIO.reopenRW
  repeat' (first | split | dsimp only)
  all_goals intro c1 h
  all_goals simp only [Outcome.state, Option.some.injEq, reduceCtorEq] at h
  all_goals subst h
  all_goals rfl

theorem flag_putFile (c : StManColumnIndArrayAipsIO) (nrval : Nat) (ios : AipsIO) :
    ∀ c1, (c.putFile nrval ios).state = some c1 → c1.shapeIsFixed_p = c.shapeIsFixed_p := by
  unfold StManColumnIndArrayAipsIO.putFile
  repeat' (first | split | dsimp only)
  all_goals intro c1 h
  all_goals simp only [Outcome.state, Option.some.injEq, reduceCtorEq] at h
  all_goals subst h
  all_goals rfl

theorem flag_remove (c : StManColumnIndArrayAipsIO) (rownr : Nat) :
    ∀ c1, (c.remove rownr).state = some c1 → c1.shapeIsFixed_p = c.shapeIsFixed_p := by
  intro c1 h
  unfold StManColumnIndArrayAipsIO.remove StManColumnIndArrayAipsIO.deleteArray at h
  cases hp : c.getArrayPtr rownr with
  | none => simp [hp, Outcome.state] at h
  | some v =>
    simp only [hp, Outcome.state, Option.some.injEq] at h
    subst h
    rfl

theorem flag_openFile (c : StManColumnIndArrayAipsIO) (opt : OpenOption) :
    ∀ c1, (c.openFile opt).state = some c1 → c1.shapeIsFixed_p = c.shapeIsFixed_p := by
  unfold StManColumnIndArrayAipsIO.openFile
  split
  · cases ho : c.openArrayFile opt with
    | error e =>
      intro c1 h
      simp only [Outcome.state, Option.some.injEq] at h
      subst h
      rfl
    | ok r =>
      intro c1 h
      simp only [Outcome.state, Option.some.injEq] at h
      subst h
      unfold StManColumnIndArrayAipsIO.openArrayFile at ho
      revert ho
      repeat' (first | split | dsimp only)
      all_goals intro ho
      all_goals simp only [Except.ok.injEq, reduceCtorEq] at ho
      all_goals subst ho
      all_goals rfl
  · repeat' (first | split | dsimp only)
    all_goals intro c1 h
    all_goals simp only [Outcome.state, Option.some.injEq, reduceCtorEq] at h
    all_goals subst h
    all_goals rfl

theorem flag_addRow_loop (rows : List Nat) : ∀ (o : Outcome Unit) (b : Bool),
    (∀ c0, o.state = some c0 → c0.shapeIsFixed_p = b) →
    ∀ c1, (rows.foldl StManColumnIndArrayAipsIO.addRowStep o).state = some c1 →
      c1.shapeIsFixed_p = b := by
  induction rows with
  | nil => intro o b h c1 h1; exact h c1 h1
  | cons r rs ih =>
    intro o b h
    rw [List.foldl_cons]
    apply ih
    intro c0 h0
    cases o with
    | ok u c =>
      rw [flag_setShape c r c.fixedShape_p c0 h0]
      exact h c rfl
    | throw e c => exact h c0 h0
    | undefined => simp [ StManColumnIndArrayAipsIO.addRowStep, Outcome.state] at h0

theorem flag_addRow (c : StManColumnIndArrayAipsIO) (nrnew nrold : Nat) :
    ∀ c1, (c.addRow nrnew nrold).state = some c1 → c1.shapeIsFixed_p = c.shapeIsFixed_p := by
  unfold StManColumnIndArrayAipsIO.addRow
  dsimp only
  split
  · apply flag_addRow_loop
    intro c0 h0
    simp only [Outcome.state, Option.some.injEq] at h0
    subst h0
    rfl
  · intro c1 h
    simp only [Outcome.state, Option.some.injEq] at h
    subst h
    rfl

theorem flag_doCreate (c : StManColumnIndArrayAipsIO) (nrrow : Nat) :
    ∀ c1, (c.doCreate nrrow).state = some c1 → c1.shapeIsFixed_p = c.shapeIsFixed_p := by
  intro c1 h
  unfold StManColumnIndArrayAipsIO.doCreate at h
  cases ho : c.openFile OpenOption.New with
  | undefined =>
    rw [ho] at h
    simp [Outcome.state] at h
  | throw e c2 =>
    rw [ho] at h
    have h2 := flag_openFile c OpenOption.New c2 (by rw [ho]; rfl)
    simp only [Outcome.state, Option.some.injEq] at h
    subst h
    exact h2
  | ok u c2 =>
    rw [ho] at h
    have h2 := flag_openFile c OpenOption.New c2 (by rw [ho]; rfl)
    rw [← h2]
    exact flag_addRow c2 nrrow 0 c1 h

theorem flag_getFile (c : StManColumnIndArrayAipsIO) (nrval : Nat) (ios : AipsIO) :
    ∀ c1, (c.getFile nrval ios).state = some c1 → c1.shapeIsFixed_p = c.shapeIsFixed_p := by
  intro c1
  unfold StManColumnIndArrayAipsIO.getFile
  split
  · intro h
    simp only [Outcome.state, Option.some.injEq] at h
    subst h
    rfl
  · split
    · intro h
      simp only [Outcome.state, Option.some.injEq] at h
      subst h
      rfl
    · split
      · intro h
        simp only [Outcome.state, Option.some.injEq] at h
        subst h
        rfl
      · dsimp only
        split
        · intro h
          simp [Outcome.state] at h
        · rename_i e c3 ho
          intro h
          simp only [Outcome.state, Option.some.injEq] at h
          subst h
          have h3 := flag_openFile _ _ c3 (congrArg Outcome.state ho)
          exact h3
        · rename_i u c3 ho
          have h3 := flag_openFile _ _ c3 (congrArg Outcome.state ho)
          repeat' (first | split | dsimp only)
          all_goals intro h
          all_goals simp only [Outcome.state, Option.some.injEq, reduceCtorEq] at h
          all_goals subst h
          all_goals exact h3

/-- A call other than `setShapeColumn` leaves the fixed-shape flag as it was;
`setShapeColumn` sets it. -/
theorem flag_call (op : Op) (c c1 : StManColumnIndArrayAipsIO) (h : op.call c = some c1) :
    ((∃ s, op = Op.setShapeColumn s) → c1.shapeIsFixed_p = true) ∧
    ((∀ s, op ≠ Op.setShapeColumn s) → c1.shapeIsFixed_p = c.shapeIsFixed_p) := by
  cases op with
  | setShapeColumn s =>
    refine ⟨fun _ => ?_, fun hne => absurd rfl (hne s)⟩
    simp only [Op.call, StManColumnIndArrayAipsIO.setShapeColumn, Outcome.state,
      Option.some.injEq] at h
    subst h
    rfl
  | doCreate nrrow => exact ⟨fun ⟨s, hs⟩ => (by cases hs), fun _ => flag_doCreate c nrrow c1 h⟩
  | openFile opt => exact ⟨fun ⟨s, hs⟩ => (by cases hs), fun _ => flag_openFile c opt c1 h⟩
  | reopenRW => exact ⟨fun ⟨s, hs⟩ => (by cases hs), fun _ => flag_reopenRW c c1 h⟩
  | addRow nrnew nrold =>
    exact ⟨fun ⟨s, hs⟩ => (by cases hs), fun _ => flag_addRow c nrnew nrold c1 h⟩
  | setShape rownr sh =>
    exact ⟨fun ⟨s, hs⟩ => (by cases hs), fun _ => flag_setShape c rownr sh c1 h⟩
  | getShape rownr => exact ⟨fun ⟨s, hs⟩ => (by cases hs), fun _ => flag_getShape c rownr c1 h⟩
  | isShapeDefined rownr =>
    exact ⟨fun ⟨s, hs⟩ => (by cases hs), fun _ => flag_isShapeDefined c rownr c1 h⟩
  | ndim rownr => exact ⟨fun ⟨s, hs⟩ => (by cases hs), fun _ => flag_ndim c rownr c1 h⟩
  | shape rownr => exact ⟨fun ⟨s, hs⟩ => (by cases hs), fun _ => flag_shape c rownr c1 h⟩
  | canChangeShape =>
    refine ⟨fun ⟨s, hs⟩ => (by cases hs), fun _ => ?_⟩
    simp only [Op.call, Option.some.injEq] at h
    rw [h]
  | getArrayV rownr => exact ⟨fun ⟨s, hs⟩ => (by cases hs), fun _ => flag_getArrayV c rownr c1 h⟩
  | putArrayV rownr arr =>
    exact ⟨fun ⟨s, hs⟩ => (by cases hs), fun _ => flag_putArrayV c rownr arr c1 h⟩
  | getSliceV rownr ns =>
    exact ⟨fun ⟨s, hs⟩ => (by cases hs), fun _ => flag_getSliceV c rownr ns c1 h⟩
  | putSliceV rownr ns arr =>
    exact ⟨fun ⟨s, hs⟩ => (by cases hs), fun _ => flag_putSliceV c rownr ns arr c1 h⟩
  | remove rownr => exact ⟨fun ⟨s, hs⟩ => (by cases hs), fun _ => flag_remove c rownr c1 h⟩
  | ok =>
    refine ⟨fun ⟨s, hs⟩ => (by cases hs), fun _ => ?_⟩
    simp only [Op.call, Option.some.injEq] at h
    rw [h]
  | putFile nrval ios =>
    exact ⟨fun ⟨s, hs⟩ => (by cases hs), fun _ => flag_putFile c nrval ios c1 h⟩
  | getFile nrval ios =>
    exact ⟨fun ⟨s, hs⟩ => (by cases hs), fun _ => flag_getFile c nrval ios c1 h⟩

/-- Along a sequence of calls the flag, once set, stays set; it is set after any
sequence holding a `setShapeColumn`; and it is unchanged by a sequence holding
none. -/
theorem flag_run (ops : List Op) : ∀ (c c1 : StManColumnIndArrayAipsIO),
    run ops c = some c1 →
    (c.shapeIsFixed_p = true → c1.shapeIsFixed_p = true) ∧
    ((∃ s, Op.setShapeColumn s ∈ ops) → c1.shapeIsFixed_p = true) ∧
    ((∀ s, Op.setShapeColumn s ∉ ops) → c1.shapeIsFixed_p = c.shapeIsFixed_p) := by
  induction ops with
  | nil =>
    intro c c1 h
    simp only [run, Option.some.injEq] at h
    subst h
    exact ⟨id, fun ⟨s, hs⟩ => by simp at hs, fun _ => rfl⟩
  | cons op ops ih =>
    intro c c1 h
    cases hc : op.call c with
    | none => simp [run, hc] at h
    | some c2 =>
      simp only [run, hc] at h
      obtain ⟨ih1, ih2, ih3⟩ := ih c2 c1 h
      obtain ⟨hset, hkeep⟩ := flag_call op c c2 hc
      have hmono : c.shapeIsFixed_p = true → c2.shapeIsFixed_p = true := by
        intro hc0
        by_cases hop : ∃ s, op = Op.setShapeColumn s
        · exact hset hop
        · rw [hkeep (fun s hs => hop ⟨s, hs⟩)]
          exact hc0
      refine ⟨fun hc0 => ih1 (hmono hc0), ?_, ?_⟩
      · rintro ⟨s, hs⟩
        rcases List.mem_cons.mp hs with hhead | htail
        · exact ih1 (hset ⟨s, hhead.symm⟩)
        · exact ih2 ⟨s, htail⟩
      · intro hno
        rw [ih3 (fun s hs => hno s (List.mem_cons_of_mem _ hs)),
          hkeep (fun s hs => hno s (by rw [hs]; exact List.mem_cons_self _ _))]

/-- C10. `canChangeShape` returns `False` if and only if the column declared a
fixed shape: it is `True` for a newly constructed column and after every
sequence of calls holding no `setShapeColumn`; it is `False` after
`setShapeColumn` whatever calls follow; so in a state reached from a newly
constructed column it is `False` exactly when `setShapeColumn` was called. -/
theorem canChangeShape_iff_fixed :
    (∀ (smptr : StManAipsIO) (dataType : Int) (files : List StManArrayFile),
      ( StManColumnIndArrayAipsIO.new smptr dataType files).canChangeShape = true) ∧
    (∀ (c : StManColumnIndArrayAipsIO),
      c.canChangeShape = false ↔ c.shapeIsFixed_p = true) ∧
    (∀ (ops : List Op) (c c1 : StManColumnIndArrayAipsIO), run ops c = some c1 →
      (∀ s, Op.setShapeColumn s ∉ ops) → c1.canChangeShape = c.canChangeShape) ∧
    (∀ (ops : List Op) (c c0 c1 : StManColumnIndArrayAipsIO) (s : IPosition),
      c.setShapeColumn s = Outcome.ok () c0 → run ops c0 = some c1 →
      c1.canChangeShape = false) ∧
    (∀ (ops : List Op) (smptr : StManAipsIO) (dataType : Int) (files : List StManArrayFile)
      (c1 : StManColumnIndArrayAipsIO),
      run ops ( StManColumnIndArrayAipsIO.new smptr dataType files) = some c1 →
      (c1.canChangeShape = false ↔ ∃ s, Op.setShapeColumn s ∈ ops)) := by
  have hiff : ∀ (c : StManColumnIndArrayAipsIO),
      c.canChangeShape = false ↔ c.shapeIsFixed_p = true := by
    intro c
    unfold StManColumnIndArrayAipsIO.canChangeShape
    cases c.shapeIsFixed_p <;> simp
  refine ⟨fun _ _ _ => rfl, hiff, ?_, ?_, ?_⟩
  · intro ops c c1 hrun hno
    have h := (flag_run ops c c1 hrun).2.2 hno
    unfold StManColumnIndArrayAipsIO.canChangeShape
    rw [h]
  · intro ops c c0 c1 s hset hrun
    have h0 : c0.shapeIsFixed_p = true := by
      simp only [ StManColumnIndArrayAipsIO.setShapeColumn, Outcome.ok.injEq, true_and] at hset
      rw [← hset]
    exact (hiff c1).mpr ((flag_run ops c0 c1 hrun).1 h0)
  · intro ops smptr dataType files c1 hrun
    rw [hiff c1]
    constructor
    · intro hfix
      by_contra hno
      have h := (flag_run ops _ c1 hrun).2.2 (fun s hs => hno ⟨s, hs⟩)
      rw [hfix] at h
      cases h
    · intro hex
      exact (flag_run ops _ c1 hrun).2.1 hex

/-- Witness of C10: from a newly constructed column, a sequence of calls without
`setShapeColumn` and one with it. -/
theorem canChangeShape_iff_fixed_witness :
    (∃ c1, run [Op.doCreate 0, Op.addRow 2 0, Op.setShape 1 [3], Op.getShape 0] exampleNew =
        some c1 ∧ c1.canChangeShape = exampleNew.canChangeShape) ∧
    (∃ c1, run [Op.setShapeColumn [3], Op.doCreate 2, Op.remove 0]
        ( StManColumnIndArrayAipsIO.new exampleStMan 0 []) = some c1 ∧
      (c1.canChangeShape = false ↔
        ∃ s, Op.setShapeColumn s ∈ [Op.setShapeColumn [3], Op.doCreate 2, Op.remove 0])) :=
  ⟨⟨_, rfl, canChangeShape_iff_fixed.2.2.1
      [Op.doCreate 0, Op.addRow 2 0, Op.setShape 1 [3], Op.getShape 0] exampleNew _ rfl
      (by intro s hs; simp at hs)⟩,
    ⟨_, rfl, canChangeShape_iff_fixed.2.2.2.2 [Op.setShapeColumn [3], Op.doCreate 2, Op.remove 0]
      exampleStMan 0 [] _ rfl⟩⟩

/-! ## Further facts about single calls -/

/-- `getShape` on a row whose descriptor does not know its shape yet, the array
being in the file: the shape is read from the file, once. -/
theorem getShape_first (c : StManColumnIndArrayAipsIO) (rownr : Nat) (d : StIndArray)
    (f : StManArrayFile) (rec : ArrayRecord) (hf : c.file = some f)
    (hd : c.getArrayPtr rownr = some (some d)) (hk : d.shapeKnown = false)
    (hrec : f.find d.fileOffset = some rec) :
    c.getShape rownr =
      Outcome.ok { d with shapeKnown := true, shape := rec.shape }
        ((c.setFile { f with accesses := f.accesses ++ [FileAccess.getShape d.fileOffset] }).putArrayPtr
          rownr { d with shapeKnown := true, shape := rec.shape }) := by
  simp [ StManColumnIndArrayAipsIO.getShape, hd, hf, StIndArray.getShape, hk,
    StManArrayFile.getShape, hrec]

/-- On a row that has a descriptor whose array is in the bound file, `getShape`
returns: the descriptor returned keeps the offset and knows the shape, the file
keeps its name, its length and its arrays, and nothing but the file and the slot
of the row is touched. -/
theorem getShape_row (c : StManColumnIndArrayAipsIO) (rownr : Nat) (d : StIndArray)
    (f : StManArrayFile) (rec : ArrayRecord) (hf : c.file = some f)
    (hd : c.getArrayPtr rownr = some (some d)) (hrec : f.find d.fileOffset = some rec) :
    ∃ d1 f1 c1, c.getShape rownr = Outcome.ok d1 c1 ∧ c1.file = some f1 ∧
      d1.fileOffset = d.fileOffset ∧ d1.shapeKnown = true ∧
      f1.name = f.name ∧ f1.records = f.records ∧ f1.leng = f.leng ∧
      c1.stman = c.stman ∧ c1.dtype = c.dtype ∧ c1.data = c.data.set rownr (some d1) := by
  cases hk : d.shapeKnown with
  | true =>
    refine ⟨d, f, _, getShape_known c rownr d f hf hd hk, ?_, rfl, hk, rfl, rfl, rfl, rfl, rfl,
      rfl⟩
    exact file_setFile c f f hf rfl
  | false =>
    refine ⟨_, { f with accesses := f.accesses ++ [FileAccess.getShape d.fileOffset] }, _,
      getShape_first c rownr d f rec hf hd hk hrec, ?_, rfl, rfl, rfl, rfl, rfl, rfl, rfl, rfl⟩
    exact file_setFile c f _ hf rfl

/-! ## Claims about puts, versions and file binding -/

/-- C11. Any put marks the table dirty: whenever `putArrayV` or `putSliceV`
returns, the has-put flag of the storage manager is set, whatever it was before;
and on a row that has a descriptor whose array is in the bound file both calls
do return. -/
theorem put_marks_dirty (c : StManColumnIndArrayAipsIO) (rownr : Nat) (ns : Slicer)
    (arr : ArrayBase) :
    (∀ c1, c.putArrayV rownr arr = Outcome.ok () c1 → c1.stman.hasPut = true) ∧
    (∀ c1, c.putSliceV rownr ns arr = Outcome.ok () c1 → c1.stman.hasPut = true) ∧
    (∀ (d : StIndArray) (f : StManArrayFile) (rec : ArrayRecord),
      c.getArrayPtr rownr = some (some d) → c.file = some f →
      f.find d.fileOffset = some rec →
      (∃ c1, c.putArrayV rownr arr = Outcome.ok () c1 ∧ c1.stman.hasPut = true) ∧
      (∃ c1, c.putSliceV rownr ns arr = Outcome.ok () c1 ∧ c1.stman.hasPut = true)) := by
  have h1 : ∀ c1, c.putArrayV rownr arr = Outcome.ok () c1 → c1.stman.hasPut = true := by
    intro c1
    unfold StManColumnIndArrayAipsIO.putArrayV
    repeat' (first | split | dsimp only)
    all_goals intro h
    all_goals simp only [Outcome.ok.injEq, true_and, reduceCtorEq] at h
    all_goals subst h
    all_goals rfl
  have h2 : ∀ c1, c.putSliceV rownr ns arr = Outcome.ok () c1 → c1.stman.hasPut = true := by
    intro c1
    unfold StManColumnIndArrayAipsIO.putSliceV
    repeat' (first | split | dsimp only)
    all_goals intro h
    all_goals simp only [Outcome.ok.injEq, true_and, reduceCtorEq] at h
    all_goals subst h
    all_goals rfl
  refine ⟨h1, h2, ?_⟩
  intro d f rec hd hf hrec
  obtain ⟨d1, f1, c1, hget, hf1, hoff, -, -, hrecs, -, -, -, -⟩ :=
    getShape_row c rownr d f rec hf hd hrec
  have hfind : f1.find d1.fileOffset = some rec := by
    unfold StManArrayFile.find at hrec ⊢
    rw [hrecs, hoff]
    exact hrec
  constructor
  · have : ∃ c2, c.putArrayV rownr arr = Outcome.ok () c2 := by
      simp [ StManColumnIndArrayAipsIO.putArrayV, hget, hf1, StIndArray.putArrayV,
        StManArrayFile.putArray, hfind]
    obtain ⟨c2, hc2⟩ := this
    exact ⟨c2, hc2, h1 c2 hc2⟩
  · have : ∃ c2, c.putSliceV rownr ns arr = Outcome.ok () c2 := by
      simp [ StManColumnIndArrayAipsIO.putSliceV, hget, hf1, StIndArray.putSliceV,
        StManArrayFile.putArray, hfind]
    obtain ⟨c2, hc2⟩ := this
    exact ⟨c2, hc2, h2 c2 hc2⟩

/-- Witness of C11 on the second row of `exampleColumn`, whose has-put flag is
not set. -/
theorem put_marks_dirty_witness :
    exampleColumn.stman.hasPut = false ∧
    (∃ c1, exampleColumn.putArrayV 1 { shape := [3], data := [7, 8, 9] } = Outcome.ok () c1 ∧
      c1.stman.hasPut = true) ∧
    (∃ c1, exampleColumn.putSliceV 1 { start := [1], length := [2] }
        { shape := [3], data := [7, 8, 9] } = Outcome.ok () c1 ∧
      c1.stman.hasPut = true) :=
  ⟨by decide,
    ((put_marks_dirty exampleColumn 1 { start := [1], length := [2] }
      { shape := [3], data := [7, 8, 9] }).2.2
      { fileOffset := 16, shapeKnown := true, shape := [3] }
      { name := "table.f0i", writable := true, leng := 52,
        records := [{ offset := 16, shape := [3], data := [0, 0, 0] }],
        accesses := [FileAccess.putShape 16] }
      { offset := 16, shape := [3], data := [0, 0, 0] }
      (by decide) (by decide) (by decide)).1,
    ((put_marks_dirty exampleColumn 1 { start := [1], length := [2] }
      { shape := [3], data := [7, 8, 9] }).2.2
      { fileOffset := 16, shapeKnown := true, shape := [3] }
      { name := "table.f0i", writable := true, leng := 52,
        records := [{ offset := 16, shape := [3], data := [0, 0, 0] }],
        accesses := [FileAccess.putShape 16] }
      { offset := 16, shape := [3], data := [0, 0, 0] }
      (by decide) (by decide) (by decide)).2⟩

/-! ## The version and the sequence number along sequences of calls -/

theorem members_setShape (c : StManColumnIndArrayAipsIO) (rownr : Nat) (s : IPosition) :
    ∀ c1, (c.setShape rownr s).state = some c1 →
      c1.version_p = c.version_p ∧ c1.seqnr_p = c.seqnr_p := by
  unfold StManColumnIndArrayAipsIO.setShape
  repeat' (first | split | dsimp only)
  all_goals intro c1 h
  all_goals simp only [Outcome.state, Option.some.injEq, reduceCtorEq] at h
  all_goals subst h
  all_goals exact ⟨rfl, rfl⟩

theorem members_getShape (c : StManColumnIndArrayAipsIO) (rownr : Nat) :
    ∀ c1, (c.getShape rownr).state = some c1 →
      c1.version_p = c.version_p ∧ c1.seqnr_p = c.seqnr_p := by
  unfold StManColumnIndArrayAipsIO.getShape
  repeat' (first | split | dsimp only)
  all_goals intro c1 h
  all_goals simp only [Outcome.state, Option.some.injEq, reduceCtorEq] at h
  all_goals subst h
  all_goals exact ⟨rfl, rfl⟩

theorem members_ndim (c : StManColumnIndArrayAipsIO) (rownr : Nat) :
    ∀ c1, (c.ndim rownr).state = some c1 →
      c1.version_p = c.version_p ∧ c1.seqnr_p = c.seqnr_p := by
  intro c1 h
  unfold StManColumnIndArrayAipsIO.ndim at h
  cases hg : c.getShape rownr with
  | undefined =>
    rw [hg] at h
    simp [Outcome.state] at h
  | throw e c2 =>
    rw [hg] at h
    have h2 := members_getShape c rownr c2 (by rw [hg]; rfl)
    simp only [Outcome.state, Option.some.injEq] at h
    subst h
    exact h2
  | ok sia c2 =>
    rw [hg] at h
    have h2 := members_getShape c rownr c2 (by rw [hg]; rfl)
    revert h
    intro h
    simp only [Outcome.state, Option.some.injEq] at h
    subst h
    exact h2

theorem members_shape (c : StManColumnIndArrayAipsIO) (rownr : Nat) :
    ∀ c1, (c.shape rownr).state = some c1 →
      c1.version_p = c.version_p ∧ c1.seqnr_p = c.seqnr_p := by
  intro c1 h
  unfold StManColumnIndArrayAipsIO.shape at h
  cases hg : c.getShape rownr with
  | undefined =>
    rw [hg] at h
    simp [Outcome.state] at h
  | throw e c2 =>
    rw [hg] at h
    have h2 := members_getShape c rownr c2 (by rw [hg]; rfl)
    simp only [Outcome.state, Option.some.injEq] at h
    subst h
    exact h2
  | ok sia c2 =>
    rw [hg] at h
    have h2 := members_getShape c rownr c2 (by rw [hg]; rfl)
    revert h
    intro h
    simp only [Outcome.state, Option.some.injEq] at h
    subst h
    exact h2

theorem members_getArrayV (c : StManColumnIndArrayAipsIO) (rownr : Nat) :
    ∀ c1, (c.getArrayV rownr).state = some c1 →
      c1.version_p = c.version_p ∧ c1.seqnr_p = c.seqnr_p := by
  intro c1 h
  unfold StManColumnIndArrayAipsIO.getArrayV at h
  cases hg : c.getShape rownr with
  | undefined =>
    rw [hg] at h
    simp [Outcome.state] at h
  | throw e c2 =>
    rw [hg] at h
    have h2 := members_getShape c rownr c2 (by rw [hg]; rfl)
    simp only [Outcome.state, Option.some.injEq] at h
    subst h
    exact h2
  | ok sia c2 =>
    rw [hg] at h
    have h2 := members_getShape c rownr c2 (by rw [hg]; rfl)
    revert h
    dsimp only
    repeat' (first | split | dsimp only)
    all_goals intro h
    all_goals simp only [Outcome.state, Option.some.injEq, reduceCtorEq] at h
    all_goals subst h
    all_goals exact h2

theorem members_putArrayV (c : StManColumnIndArrayAipsIO) (rownr : Nat) (arr : ArrayBase) :
    ∀ c1, (c.putArrayV rownr arr).state = some c1 →
      c1.version_p = c.version_p ∧ c1.seqnr_p = c.seqnr_p := by
  intro c1 h
  unfold StManColumnIndArrayAipsIO.putArrayV at h
  cases hg : c.getShape rownr with
  | undefined =>
    rw [hg] at h
    simp [Outcome.state] at h
  | throw e c2 =>
    rw [hg] at h
    have h2 := members_getShape c rownr c2 (by rw [hg]; rfl)
    simp only [Outcome.state, Option.some.injEq] at h
    subst h
    exact h2
  | ok sia c2 =>
    rw [hg] at h
    have h2 := members_getShape c rownr c2 (by rw [hg]; rfl)
    revert h
    dsimp only
    repeat' (first | split | dsimp only)
    all_goals intro h
    all_goals simp only [Outcome.state, Option.some.injEq, reduceCtorEq] at h
    all_goals subst h
    all_goals exact h2

theorem members_getSliceV (c : StManColumnIndArrayAipsIO) (rownr : Nat) (ns : Slicer) :
    ∀ c1, (c.getSliceV rownr ns).state = some c1 →
      c1.version_p = c.version_p ∧ c1.seqnr_p = c.seqnr_p := by
  intro c1 h
  unfold StManColumnIndArrayAipsIO.getSliceV at h
  cases hg : c.getShape rownr with
  | undefined =>
    rw [hg] at h
    simp [Outcome.state] at h
  | throw e c2 =>
    rw [hg] at h
    have h2 := members_getShape c rownr c2 (by rw [hg]; rfl)
    simp only [Outcome.state, Option.some.injEq] at h
    subst h
    exact h2
  | ok sia c2 =>
    rw [hg] at h
    have h2 := members_getShape c rownr c2 (by rw [hg]; rfl)
    revert h
    dsimp only
    repeat' (first | split | dsimp only)
    all_goals intro h
    all_goals simp only [Outcome.state, Option.some.injEq, reduceCtorEq] at h
    all_goals subst h
    all_goals exact h2

theorem members_putSliceV (c : StManColumnIndArrayAipsIO) (rownr : Nat) (ns : Slicer) (arr : ArrayBase) :
    ∀ c1, (c.putSliceV rownr ns arr).state = some c1 →
      c1.version_p = c.version_p ∧ c1.seqnr_p = c.seqnr_p := by
  intro c1 h
  unfold StManColumnIndArrayAipsIO.putSliceV at h
  cases hg : c.getShape rownr with
  | undefined =>
    rw [hg] at h
    simp [Outcome.state] at h
  | throw e c2 =>
    rw [hg] at h
    have h2 := members_getShape c rownr c2 (by rw [hg]; rfl)
    simp only [Outcome.state, Option.some.injEq] at h
    subst h
    exact h2
  | ok sia c2 =>
    rw [hg] at h
    have h2 := members_getShape c rownr c2 (by rw [hg]; rfl)
    revert h
    dsimp only
    repeat' (first | split | dsimp only)
    all_goals intro h
    all_goals simp only [Outcome.state, Option.some.injEq, reduceCtorEq] at h
    all_goals subst h
    all_goals exact h2

theorem members_isShapeDefined (c : StManColumnIndArrayAipsIO) (rownr : Nat) :
    ∀ c1, (c.isShapeDefined rownr).state = some c1 →
      c1.version_p = c.version_p ∧ c1.seqnr_p = c.seqnr_p := by
  unfold StManColumnIndArrayAipsIO.isShapeDefined
  repeat' (first | split | dsimp only)
  all_goals intro c1 h
  all_goals simp only [Outcome.state, Option.some.injEq, reduceCtorEq] at h
  all_goals subst h
  all_goals exact ⟨rfl, rfl⟩

theorem members_reopenRW (c : StManColumnIndArrayAipsIO) :
    ∀ c1, (c.reopenRW).state = some c1 →
      c1.version_p = c.version_p ∧ c1.seqnr_p = c.seqnr_p := by
  unfold StManColumnIndArrayAipsIO.reopenRW
  repeat' (first | split | dsimp only)
  all_goals intro c1 h
  all_goals simp only [Outcome.state, Option.some.injEq, reduceCtorEq] at h
  all_goals subst h
  all_goals exact ⟨rfl, rfl⟩

theorem members_putFile (c : StManColumnIndArrayAipsIO) (nrval : Nat) (ios : AipsIO) :
    ∀ c1, (c.putFile nrval ios).state = some c1 →
      c1.version_p = c.version_p ∧ c1.seqnr_p = c.seqnr_p := by
  unfold StManColumnIndArrayAipsIO.putFile
  repeat' (first | split | dsimp only)
  all_goals intro c1 h
  all_goals simp only [Outcome.state, Option.some.injEq, reduceCtorEq] at h
  all_goals subst h
  all_goals exact ⟨rfl, rfl⟩

theorem members_remove (c : StManColumnIndArrayAipsIO) (rownr : Nat) :
    ∀ c1, (c.remove rownr).state = some c1 →
      c1.version_p = c.version_p ∧ c1.seqnr_p = c.seqnr_p := by
  intro c1 h
  unfold StManColumnIndArrayAipsIO.remove StManColumnIndArrayAipsIO.deleteArray at h
  cases hp : c.getArrayPtr rownr with
  | none => simp [hp, Outcome.state] at h
  | some v =>
    simp only [hp, Outcome.state, Option.some.injEq] at h
    subst h
    exact ⟨rfl, rfl⟩

theorem members_openFile (c : StManColumnIndArrayAipsIO) (opt : OpenOption) :
    ∀ c1, (c.openFile opt).state = some c1 →
      c1.version_p = c.version_p ∧ c1.seqnr_p = c.seqnr_p := by
  unfold StManColumnIndArrayAipsIO.openFile
  split
  · cases ho : c.openArrayFile opt with
    | error e =>
      intro c1 h
      simp only [Outcome.state, Option.some.injEq] at h
      subst h
      exact ⟨rfl, rfl⟩
    | ok r =>
      intro c1 h
      simp only [Outcome.state, Option.some.injEq] at h
      subst h
      unfold StManColumnIndArrayAipsIO.openArrayFile at ho
      revert ho
      repeat' (first | split | dsimp only)
      all_goals intro ho
      all_goals simp only [Except.ok.injEq, reduceCtorEq] at ho
      all_goals subst ho
      all_goals exact ⟨rfl, rfl⟩
  · repeat' (first | split | dsimp only)
    all_goals intro c1 h
    all_goals simp only [Outcome.state, Option.some.injEq, reduceCtorEq] at h
    all_goals subst h
    all_goals exact ⟨rfl, rfl⟩

theorem members_addRow_loop (rows : List Nat) : ∀ (o : Outcome Unit) (v s : Nat),
    (∀ c0, o.state = some c0 → c0.version_p = v ∧ c0.seqnr_p = s) →
    ∀ c1, (rows.foldl StManColumnIndArrayAipsIO.addRowStep o).state = some c1 →
      c1.version_p = v ∧ c1.seqnr_p = s := by
  induction rows with
  | nil => intro o v s h c1 h1; exact h c1 h1
  | cons r rs ih =>
    intro o v s h
    rw [List.foldl_cons]
    apply ih
    intro c0 h0
    cases o with
    | ok u c =>
      have h1 := members_setShape c r c.fixedShape_p c0 h0
      have h2 := h c rfl
      exact ⟨h1.1.trans h2.1, h1.2.trans h2.2⟩
    | throw e c => exact h c0 h0
    | undefined => simp [ StManColumnIndArrayAipsIO.addRowStep, Outcome.state] at h0

theorem members_addRow (c : StManColumnIndArrayAipsIO) (nrnew nrold : Nat) :
    ∀ c1, (c.addRow nrnew nrold).state = some c1 →
      c1.version_p = c.version_p ∧ c1.seqnr_p = c.seqnr_p := by
  unfold StManColumnIndArrayAipsIO.addRow
  dsimp only
  split
  · apply members_addRow_loop
    intro c0 h0
    simp only [Outcome.state, Option.some.injEq] at h0
    subst h0
    exact ⟨rfl, rfl⟩
  · intro c1 h
    simp only [Outcome.state, Option.some.injEq] at h
    subst h
    exact ⟨rfl, rfl⟩

theorem members_doCreate (c : StManColumnIndArrayAipsIO) (nrrow : Nat) :
    ∀ c1, (c.doCreate nrrow).state = some c1 →
      c1.version_p = c.version_p ∧ c1.seqnr_p = c.seqnr_p := by
  intro c1 h
  unfold StManColumnIndArrayAipsIO.doCreate at h
  cases ho : c.openFile OpenOption.New with
  | undefined =>
    rw [ho] at h
    simp [Outcome.state] at h
  | throw e c2 =>
    rw [ho] at h
    have h2 := members_openFile c OpenOption.New c2 (by rw [ho]; rfl)
    simp only [Outcome.state, Option.some.injEq] at h
    subst h
    exact h2
  | ok u c2 =>
    rw [ho] at h
    have h2 := members_openFile c OpenOption.New c2 (by rw [ho]; rfl)
    have h3 := members_addRow c2 nrrow 0 c1 h
    exact ⟨h3.1.trans h2.1, h3.2.trans h2.2⟩

/-- A call other than `getFile` leaves the version and the sequence number as
they were. -/
theorem members_call (op : Op) (c c1 : StManColumnIndArrayAipsIO) (h : op.call c = some c1)
    (hne : ∀ n ios, op ≠ Op.getFile n ios) :
    c1.version_p = c.version_p ∧ c1.seqnr_p = c.seqnr_p := by
  cases op with
  | setShapeColumn s =>
    simp only [Op.call, StManColumnIndArrayAipsIO.setShapeColumn, Outcome.state,
      Option.some.injEq] at h
    subst h
    exact ⟨rfl, rfl⟩
  | doCreate nrrow => exact members_doCreate c nrrow c1 h
  | openFile opt => exact members_openFile c opt c1 h
  | reopenRW => exact members_reopenRW c c1 h
  | addRow nrnew nrold => exact members_addRow c nrnew nrold c1 h
  | setShape rownr sh => exact members_setShape c rownr sh c1 h
  | getShape rownr => exact members_getShape c rownr c1 h
  | isShapeDefined rownr => exact members_isShapeDefined c rownr c1 h
  | ndim rownr => exact members_ndim c rownr c1 h
  | shape rownr => exact members_shape c rownr c1 h
  | canChangeShape =>
    simp only [Op.call, Option.some.injEq] at h
    subst h
    exact ⟨rfl, rfl⟩
  | getArrayV rownr => exact members_getArrayV c rownr c1 h
  | putArrayV rownr arr => exact members_putArrayV c rownr arr c1 h
  | getSliceV rownr ns => exact members_getSliceV c rownr ns c1 h
  | putSliceV rownr ns arr => exact members_putSliceV c rownr ns arr c1 h
  | remove rownr => exact members_remove c rownr c1 h
  | ok =>
    simp only [Op.call, Option.some.injEq] at h
    subst h
    exact ⟨rfl, rfl⟩
  | putFile nrval ios => exact members_putFile c nrval ios c1 h
  | getFile nrval ios => exact absurd rfl (hne nrval ios)

/-- A sequence of calls holding no `getFile` leaves the version and the sequence
number as they were. -/
theorem members_run (ops : List Op) : ∀ (c c1 : StManColumnIndArrayAipsIO),
    run ops c = some c1 → (∀ n ios, Op.getFile n ios ∉ ops) →
    c1.version_p = c.version_p ∧ c1.seqnr_p = c.seqnr_p := by
  induction ops with
  | nil =>
    intro c c1 h _
    simp only [run, Option.some.injEq] at h
    subst h
    exact ⟨rfl, rfl⟩
  | cons op ops ih =>
    intro c c1 h hno
    cases hc : op.call c with
    | none => simp [run, hc] at h
    | some c2 =>
      simp only [run, hc] at h
      have h1 := ih c2 c1 h (fun n ios hm => hno n ios (List.mem_cons_of_mem _ hm))
      have h2 := members_call op c c2 hc
        (fun n ios he => hno n ios (by rw [he]; exact List.mem_cons_self _ _))
      exact ⟨h1.1.trans h2.1, h1.2.trans h2.2⟩

/-- What `getFile` leaves in the version and the sequence number: those of the
stream once it has read them, those of before otherwise. -/
theorem getFile_members (c : StManColumnIndArrayAipsIO) (nrval : Nat) (ios : AipsIO) :
    ∀ c1, (c.getFile nrval ios).state = some c1 →
      (∀ e, getstart "StManColumnIndArrayAipsIO" ios = Except.error e → c1 = c) ∧
      (∀ v ios1, getstart "StManColumnIndArrayAipsIO" ios = Except.ok (v, ios1) →
        c1.version_p = v ∧
        ∀ t ios2 s ios3, getInt ios1 = some (t, ios2) → getUInt ios2 = some (s, ios3) →
          c1.seqnr_p = s) := by
  intro c1
  unfold StManColumnIndArrayAipsIO.getFile
  split
  · rename_i e he
    intro h
    simp only [Outcome.state, Option.some.injEq] at h
    subst h
    exact ⟨fun _ _ => rfl, fun v ios1 hv => by rw [he] at hv; cases hv⟩
  · rename_i version ios1 hs
    refine fun h => ⟨fun e he => (by rw [hs] at he; cases he), fun v ios1a hv => ?_⟩
    rw [hs] at hv
    simp only [Except.ok.injEq, Prod.mk.injEq] at hv
    obtain ⟨hv1, hv2⟩ := hv
    subst hv1 hv2
    revert h
    split
    · rename_i hi
      intro h
      simp only [Outcome.state, Option.some.injEq] at h
      subst h
      exact ⟨rfl, fun t ios2 s ios3 ht _ => by rw [hi] at ht; cases ht⟩
    · rename_i t0 ios2 hi
      split
      · rename_i hu
        intro h
        simp only [Outcome.state, Option.some.injEq] at h
        subst h
        refine ⟨rfl, fun t ios2a s ios3 ht hsq => ?_⟩
        rw [hi] at ht
        simp only [Option.some.injEq, Prod.mk.injEq] at ht
        rw [← ht.2, hu] at hsq
        cases hsq
      · rename_i seqnr ios3 hu
        have key : ∀ c3 : StManColumnIndArrayAipsIO,
            c3.version_p = version → c3.seqnr_p = seqnr →
            c3.version_p = version ∧
              ∀ t ios2a s ios3a, getInt ios1 = some (t, ios2a) →
                getUInt ios2a = some (s, ios3a) → c3.seqnr_p = s := by
          intro c3 h1 h2
          refine ⟨h1, fun t ios2a s ios3a ht hsq => ?_⟩
          rw [hi] at ht
          simp only [Option.some.injEq, Prod.mk.injEq] at ht
          rw [← ht.2, hu] at hsq
          simp only [Option.some.injEq, Prod.mk.injEq] at hsq
          rw [h2, hsq.1]
        dsimp only
        split
        · intro h
          simp [Outcome.state] at h
        · rename_i e c3 ho
          intro h
          simp only [Outcome.state, Option.some.injEq] at h
          subst h
          have h3 := members_openFile _ _ c3 (congrArg Outcome.state ho)
          exact key c3 h3.1 h3.2
        · rename_i u c3 ho
          have h3 := members_openFile _ _ c3 (congrArg Outcome.state ho)
          repeat' (first | split | dsimp only)
          all_goals intro h
          all_goals simp only [Outcome.state, Option.some.injEq, reduceCtorEq] at h
          all_goals subst h
          all_goals exact key _ h3.1 h3.2

theorem putData_append (n : Nat) : ∀ (dp : List (Option StIndArray)) (ios : AipsIO),
    putData dp n ios = (putData dp n []).map (fun w => ios ++ w) := by
  induction n with
  | zero => intro dp ios; simp [putData]
  | succ n ih =>
    intro dp ios
    cases dp with
    | nil => simp [putData]
    | cons d dp =>
      rw [putData, putData, ih dp (putDataEntry d ios), ih dp (putDataEntry d []),
        putDataEntry_append d ios]
      cases putData dp n [] with
      | none => rfl
      | some w => simp [List.append_assoc]

/-- What `putFile` writes when it returns: the header with the tag and the
version, the data-type code, the sequence number, what `putData` writes for the
slots, the end marker. -/
theorem putFile_stream (c c1 : StManColumnIndArrayAipsIO) (nrval : Nat) (ios ios1 : AipsIO)
    (h : c.putFile nrval ios = Outcome.ok ios1 c1) :
    ∃ w, putData c.data nrval [] = some w ∧
      ios1 = ios ++ (Item.start "StManColumnIndArrayAipsIO" c.version_p ::
        (uIntBytes (Int.toNat (c.dtype % 4294967296)) ++
          (uIntBytes c.seqnr_p ++ (w ++ [Item.finish])))) := by
  unfold StManColumnIndArrayAipsIO.putFile StManColumnIndArrayAipsIO.basePutFile at h
  dsimp only at h
  rw [putData_append] at h
  cases hw : putData c.data nrval [] with
  | none => simp [hw] at h
  | some w =>
    refine ⟨w, rfl, ?_⟩
    simp only [hw, Option.map_some'] at h
    cases hf : c.file with
    | none => simp [hf] at h
    | some f =>
      simp only [hf, Outcome.ok.injEq] at h
      rw [← h.1]
      simp [putend, putUInt, putInt, putstart, List.append_assoc]

/-- C12, the claim as stated fails: the column `exampleAttach`, loaded by
`getFile` from a stream whose header version is 1, afterwards writes a header
with the version 1, not 2. -/
theorem putFile_version_counterexample :
    exampleAttach.getFile 0 exampleStreamV1 = Outcome.ok [] exampleLegacy ∧
    ∃ ios2 c2, exampleLegacy.putFile 0 [] = Outcome.ok ios2 c2 ∧
      ios2.head? = some (Item.start "StManColumnIndArrayAipsIO" 1) ∧
      ios2.head? ≠ some (Item.start "StManColumnIndArrayAipsIO" 2) :=
  ⟨by decide, _, _, rfl, rfl, by decide⟩

/-- C12 as amended: `putFile` writes in the header the version the column
holds: that is 2 for a newly constructed column and in every state reached from
it by calls other than `getFile`; after `getFile` has read a header it is the
version of that header, so a column loaded from a stream of version 1 writes
version 1. -/
theorem putFile_writes_version :
    (∀ (c c1 : StManColumnIndArrayAipsIO) (nrval : Nat) (ios ios1 : AipsIO),
      c.putFile nrval ios = Outcome.ok ios1 c1 →
      ∃ rest, ios1 = ios ++ Item.start "StManColumnIndArrayAipsIO" c.version_p :: rest) ∧
    (∀ (ops : List Op) (smptr : StManAipsIO) (dataType : Int) (files : List StManArrayFile)
      (c1 : StManColumnIndArrayAipsIO),
      run ops ( StManColumnIndArrayAipsIO.new smptr dataType files) = some c1 →
      (∀ n ios, Op.getFile n ios ∉ ops) → c1.version_p = 2) ∧
    (∀ (c c1 : StManColumnIndArrayAipsIO) (nrval v : Nat) (rest : AipsIO),
      (c.getFile nrval (Item.start "StManColumnIndArrayAipsIO" v :: rest)).state = some c1 →
      c1.version_p = v) := by
  refine ⟨?_, ?_, ?_⟩
  · intro c c1 nrval ios ios1 h
    obtain ⟨w, -, hw⟩ := putFile_stream c c1 nrval ios ios1 h
    exact ⟨_, hw⟩
  · intro ops smptr dataType files c1 hrun hno
    exact (members_run ops _ c1 hrun hno).1
  · intro c c1 nrval v rest h
    exact ((getFile_members c nrval _ c1 h).2 v rest (by simp [getstart])).1

/-- Witness of C12 as amended: a new column that is created and written, and
`exampleAttach` loaded from the stream of version 1. -/
theorem putFile_writes_version_witness :
    (run [Op.doCreate 2, Op.setShape 0 [3]] exampleNew ≠ none ∧
      ∀ c1, run [Op.doCreate 2, Op.setShape 0 [3]] exampleNew = some c1 → c1.version_p = 2) ∧
    ((exampleAttach.getFile 0 (Item.start "StManColumnIndArrayAipsIO" 1 ::
        (uIntBytes 0 ++ (uIntBytes 0 ++ [Item.finish])))).state = some exampleLegacy ∧
      exampleLegacy.version_p = 1) :=
  ⟨⟨by decide, fun c1 h =>
      putFile_writes_version.2.1 [Op.doCreate 2, Op.setShape 0 [3]] exampleStMan 0 [] c1 h
        (by intro n ios hm; simp at hm)⟩,
    ⟨by decide,
      putFile_writes_version.2.2 exampleAttach exampleLegacy 0 1
        (uIntBytes 0 ++ (uIntBytes 0 ++ [Item.finish])) (by decide)⟩⟩

/-- Which array file `openFile` binds. For a version above 1 it is the shared
file obtained from the storage manager by `openArrayFile`; for a version of at
most 1 and no file bound it is the column's own file, named by the file name of
the storage manager followed by the text `sprintf` makes (the letter i and the
decimal sequence number), provided that text fits its buffer of 8 bytes; with a
file bound that file is kept and resynced, the storage manager not being
asked. -/
theorem openFile_binding (c : StManColumnIndArrayAipsIO) (opt : OpenOption) :
    (1 < c.version_p →
      (∀ e, c.openArrayFile opt = Except.error e → c.openFile opt = Outcome.throw e c) ∧
      (∀ ptr c0, c.openArrayFile opt = Except.ok (ptr, c0) →
        c.openFile opt = Outcome.ok () { c0 with iosfile_p := some ptr } ∧
        c0.stman.iosfile_p = some ptr)) ∧
    (c.version_p ≤ 1 → c.iosfile_p = none → (sprintf_i c.seqnr_p).length + 1 ≤ 8 →
      (∀ e, StManArrayFile.new (c.stman.fileName ++ sprintf_i c.seqnr_p) opt c.files =
          Except.error e → c.openFile opt = Outcome.throw e c) ∧
      (∀ files, StManArrayFile.new (c.stman.fileName ++ sprintf_i c.seqnr_p) opt c.files =
          Except.ok files →
        c.openFile opt = Outcome.ok ()
          { c with iosfile_p := some (c.stman.fileName ++ sprintf_i c.seqnr_p),
                   files := files }) ∧
      (c.seqnr_p < 2147483648 →
        sprintf_i c.seqnr_p = "i" ++ toString (c.seqnr_p : Int))) ∧
    (c.version_p ≤ 1 → ∀ n f, c.iosfile_p = some n → c.file = some f →
      c.openFile opt = Outcome.ok () (c.setFile f.resync) ∧
      (c.setFile f.resync).iosfile_p = some n ∧ (c.setFile f.resync).stman = c.stman ∧
      (c.setFile f.resync).file = some f.resync) := by
  refine ⟨?_, ?_, ?_⟩
  · intro hv
    refine ⟨?_, ?_⟩
    · intro e he
      simp only [ StManColumnIndArrayAipsIO.openFile, hv, if_true, he, gt_iff_lt]
    · intro ptr c0 ho
      refine ⟨?_, ?_⟩
      · simp only [ StManColumnIndArrayAipsIO.openFile, hv, if_true, ho, gt_iff_lt]
      · unfold StManColumnIndArrayAipsIO.openArrayFile at ho
        revert ho
        repeat' (first | split | dsimp only)
        all_goals intro ho
        all_goals simp only [Except.ok.injEq, Prod.mk.injEq, reduceCtorEq] at ho
        · rename_i n hn
          rw [← ho.2, hn, ho.1]
        · rw [← ho.2, ← ho.1]
  · intro hv hnone hfit
    have hv1 : ¬ c.version_p > 1 := by omega
    have hfit1 : ¬ 8 < (sprintf_i c.seqnr_p).length + 1 := by omega
    refine ⟨?_, ?_, ?_⟩
    · intro e he
      simp only [ StManColumnIndArrayAipsIO.openFile, hv1, if_false, hnone, hfit1, he]
    · intro files hfiles
      simp only [ StManColumnIndArrayAipsIO.openFile, hv1, if_false, hnone, hfit1, hfiles]
    · intro hs
      simp only [sprintf_i, hs, if_true]
  · intro hv n f hn hf
    have hv1 : ¬ c.version_p > 1 := by omega
    refine ⟨?_, hn, rfl, file_setFile c f f.resync hf rfl⟩
    simp only [ StManColumnIndArrayAipsIO.openFile, hv1, if_false, hn, hf]

/-- C13, the failing input: for a column of version 1 with no file bound and the
sequence number 1000000, `sprintf` makes the 8 characters `i1000000`, which with
the terminating zero byte take 9 bytes of the buffer of 8, so that the behaviour
of `openFile` is undefined before any file name is formed; for the sequence
number 999999 the column's own file `table.f0i999999` is opened, and for a
version above 1 the shared file of the storage manager is bound. -/
theorem openFile_legacy_overrun :
    exampleOverflow.version_p = 1 ∧ exampleOverflow.iosfile_p = none ∧
    exampleOverflow.seqnr_p = 1000000 ∧
    sprintf_i 1000000 = "i1000000" ∧ (sprintf_i 1000000).length + 1 = 9 ∧
    exampleOverflow.openFile OpenOption.New = Outcome.undefined ∧
    ({ exampleOverflow with seqnr_p := 999999 }).openFile OpenOption.New =
      Outcome.ok ()
        { exampleOverflow with
          seqnr_p := 999999
          iosfile_p := some "table.f0i999999"
          files := [StManArrayFile.create "table.f0i0",
                    StManArrayFile.create "table.f0i999999"] } ∧
    exampleNew.openFile OpenOption.New =
      Outcome.ok ()
        { exampleNew with
          iosfile_p := some "table.f0i"
          stman := { exampleNew.stman with iosfile_p := some "table.f0i" }
          files := [StManArrayFile.create "table.f0i"] } := by
  refine ⟨rfl, rfl, rfl, by decide, by decide, by decide, by decide, by decide⟩

/-! ## Reads of the array file -/

/-- `getArrayV` once `getShape` has returned, the array being in the file: the
elements are read, and nothing else is. -/
theorem getArrayV_after (c c1 : StManColumnIndArrayAipsIO) (rownr : Nat) (d1 : StIndArray)
    (f1 : StManArrayFile) (rec : ArrayRecord) (hg : c.getShape rownr = Outcome.ok d1 c1)
    (hf : c1.file = some f1) (hrec : f1.find d1.fileOffset = some rec) :
    c.getArrayV rownr = Outcome.ok { shape := d1.shape, data := rec.data }
      (c1.setFile { f1 with accesses := f1.accesses ++ [FileAccess.getArray d1.fileOffset] }) ∧
    (c1.setFile { f1 with accesses := f1.accesses ++
        [FileAccess.getArray d1.fileOffset] }).file =
      some { f1 with accesses := f1.accesses ++ [FileAccess.getArray d1.fileOffset] } := by
  refine ⟨?_, file_setFile c1 f1 _ hf rfl⟩
  simp [ StManColumnIndArrayAipsIO.getArrayV, hg, hf, StIndArray.getArrayV,
    StManArrayFile.getArray, hrec]

/-- `getSliceV` once `getShape` has returned, the array being in the file: the
elements are read, and nothing else is. -/
theorem getSliceV_after (c c1 : StManColumnIndArrayAipsIO) (rownr : Nat) (ns : Slicer)
    (d1 : StIndArray) (f1 : StManArrayFile) (rec : ArrayRecord)
    (hg : c.getShape rownr = Outcome.ok d1 c1)
    (hf : c1.file = some f1) (hrec : f1.find d1.fileOffset = some rec) :
    (∃ arr, c.getSliceV rownr ns = Outcome.ok arr
      (c1.setFile { f1 with accesses := f1.accesses ++
        [FileAccess.getArray d1.fileOffset] })) ∧
    (c1.setFile { f1 with accesses := f1.accesses ++
        [FileAccess.getArray d1.fileOffset] }).file =
      some { f1 with accesses := f1.accesses ++ [FileAccess.getArray d1.fileOffset] } := by
  refine ⟨?_, file_setFile c1 f1 _ hf rfl⟩
  simp [ StManColumnIndArrayAipsIO.getSliceV, hg, hf, StIndArray.getSliceV,
    StManArrayFile.getArray, hrec]

/-- The slots `getData` stores hold null or a descriptor knowing only its
offset; the other slots of the block are left as they were. -/
theorem getData_slots (nrval : Nat) : ∀ (dp : List (Option StIndArray)) (inx : Nat)
    (ios : AipsIO) (dp1 : List (Option StIndArray)) (ios1 : AipsIO),
    getData dp inx nrval ios = GetResult.ok dp1 ios1 →
    dp1.length = dp.length ∧
    (∀ i, inx ≤ i → i < inx + nrval → ∃ offset, dp1[i]? = some (getDataSlot offset)) ∧
    (∀ i, i < inx ∨ inx + nrval ≤ i → dp1[i]? = dp[i]?) := by
  induction nrval with
  | zero =>
    intro dp inx ios dp1 ios1 h
    simp only [getData, getDataLoop, GetResult.ok.injEq] at h
    rw [← h.1]
    exact ⟨rfl, fun i h1 h2 => by omega, fun _ _ => rfl⟩
  | succ n ih =>
    intro dp inx ios dp1 ios1 h
    simp only [getData, getDataLoop] at h
    cases ho : getDataOffset ios with
    | none => simp [ho] at h
    | some r =>
      obtain ⟨offset, ios2⟩ := r
      simp only [ho] at h
      by_cases hlt : inx < dp.length
      · simp only [hlt, if_true] at h
        obtain ⟨hl, hin, hout⟩ := ih (dp.set inx (getDataSlot offset)) (inx + 1) ios2 dp1 ios1 h
        refine ⟨by rw [hl, List.length_set], ?_, ?_⟩
        · intro i h1 h2
          by_cases hi : i = inx
          · refine ⟨offset, ?_⟩
            rw [hout i (by omega), hi, List.getElem?_set_self hlt]
          · exact hin i (by omega) (by omega)
        · intro i hi
          rw [hout i (by omega), List.getElem?_set_ne (by omega)]
      · simp [hlt] at h

theorem new_accesses (name : String) (opt : OpenOption) (files files1 : List StManArrayFile)
    (h : StManArrayFile.new name opt files = Except.ok files1) :
    ∀ g ∈ files1, ∀ a ∈ g.accesses, ∃ g0 ∈ files, g0.name = g.name ∧ a ∈ g0.accesses := by
  have hcreate : ∀ a, a ∉ (StManArrayFile.create name).accesses := by
    intro a ha
    simp [StManArrayFile.create] at ha
  have hmap : ∀ (w : Bool), ∀ g ∈ files.map
      (fun f => if f.name = name then { f with writable := w } else f),
      ∀ a ∈ g.accesses, ∃ g0 ∈ files, g0.name = g.name ∧ a ∈ g0.accesses := by
    intro w g hg a ha
    obtain ⟨g0, hg0, hgg⟩ := List.mem_map.mp hg
    refine ⟨g0, hg0, ?_, ?_⟩
    · rw [← hgg]; split <;> rfl
    · rw [← hgg] at ha
      split at ha <;> exact ha
  have hnew : ∀ g ∈ files.filter (fun f => f.name ≠ name) ++ [StManArrayFile.create name],
      ∀ a ∈ g.accesses, ∃ g0 ∈ files, g0.name = g.name ∧ a ∈ g0.accesses := by
    intro g hg a ha
    rcases List.mem_append.mp hg with h1 | h1
    · exact ⟨g, (List.mem_filter.mp h1).1, rfl, ha⟩
    · rw [List.mem_singleton.mp h1] at ha
      exact absurd ha (hcreate a)
  cases opt
  case New =>
    simp only [StManArrayFile.new, Except.ok.injEq] at h
    rw [← h]; exact hnew
  case Scratch =>
    simp only [StManArrayFile.new, Except.ok.injEq] at h
    rw [← h]; exact hnew
  case NewNoReplace =>
    simp only [StManArrayFile.new] at h
    split at h
    · cases h
    · simp only [Except.ok.injEq] at h
      rw [← h]
      intro g hg a ha
      rcases List.mem_append.mp hg with h1 | h1
      · exact ⟨g, h1, rfl, ha⟩
      · rw [List.mem_singleton.mp h1] at ha
        exact absurd ha (hcreate a)
  case Old =>
    simp only [StManArrayFile.new] at h
    split at h
    · simp only [Except.ok.injEq] at h
      rw [← h]; exact hmap false
    · cases h
  case Update =>
    simp only [StManArrayFile.new] at h
    split at h
    · simp only [Except.ok.injEq] at h
      rw [← h]; exact hmap true
    · cases h
  case Append =>
    simp only [StManArrayFile.new] at h
    split at h
    · simp only [Except.ok.injEq] at h
      rw [← h]; exact hmap true
    · cases h
  case Delete =>
    simp only [StManArrayFile.new] at h
    split at h
    · simp only [Except.ok.injEq] at h
      rw [← h]; exact hmap true
    · cases h

theorem file_mem (c : StManColumnIndArrayAipsIO) (f : StManArrayFile) (h : c.file = some f) :
    f ∈ c.files := by
  unfold StManColumnIndArrayAipsIO.file at h
  cases hp : c.iosfile_p with
  | none => simp [hp] at h
  | some n =>
    simp only [hp] at h
    exact List.mem_of_find?_eq_some h

/-- `openFile` reads no shape and no array: a read recorded in a file after the
call was recorded in the file of that name before. -/
theorem openFile_reads (c c1 : StManColumnIndArrayAipsIO) (opt : OpenOption)
    (h : (c.openFile opt).state = some c1) :
    ∀ g ∈ c1.files, ∀ a ∈ g.accesses, a.isRead = true →
      ∃ g0 ∈ c.files, g0.name = g.name ∧ a ∈ g0.accesses := by
  have hsame : ∀ g ∈ c.files, ∀ a ∈ g.accesses, a.isRead = true →
      ∃ g0 ∈ c.files, g0.name = g.name ∧ a ∈ g0.accesses :=
    fun g hg a ha _ => ⟨g, hg, rfl, ha⟩
  unfold StManColumnIndArrayAipsIO.openFile at h
  split at h
  · cases ho : c.openArrayFile opt with
    | error e =>
      simp only [ho, Outcome.state, Option.some.injEq] at h
      rw [← h]; exact hsame
    | ok r =>
      simp only [ho, Outcome.state, Option.some.injEq] at h
      rw [← h]
      unfold StManColumnIndArrayAipsIO.openArrayFile at ho
      split at ho
      · simp only [Except.ok.injEq] at ho
        rw [← ho]; exact hsame
      · split at ho
        · cases ho
        · rename_i files hnew
          simp only [Except.ok.injEq] at ho
          rw [← ho]
          intro g hg a ha _
          exact new_accesses _ _ _ _ hnew g hg a ha
  · split at h
    · dsimp only at h
      split at h
      · simp [Outcome.state] at h
      · split at h
        · simp only [Outcome.state, Option.some.injEq] at h
          rw [← h]; exact hsame
        · rename_i files hnew
          simp only [Outcome.state, Option.some.injEq] at h
          rw [← h]
          intro g hg a ha _
          exact new_accesses _ _ _ _ hnew g hg a ha
    · split at h
      · simp [Outcome.state] at h
      · rename_i f hf
        simp only [Outcome.state, Option.some.injEq] at h
        rw [← h]
        intro g hg a ha hread
        simp only [ StManColumnIndArrayAipsIO.setFile] at hg
        obtain ⟨g0, hg0, hgg⟩ := List.mem_map.mp hg
        by_cases hn : g0.name = f.resync.name
        · rw [if_pos hn] at hgg
          rw [← hgg] at ha ⊢
          refine ⟨f, file_mem c f hf, rfl, ?_⟩
          simp only [StManArrayFile.resync, List.mem_append, List.mem_singleton] at ha
          rcases ha with ha | ha
          · exact ha
          · rw [ha] at hread
            cases hread
        · rw [if_neg hn] at hgg
          rw [← hgg] at ha ⊢
          exact ⟨g0, hg0, rfl, ha⟩

/-- `getFile` reads no shape and no array from the array files, and every slot
it leaves is null or a descriptor knowing only its offset. -/
theorem getFile_reads (c c1 : StManColumnIndArrayAipsIO) (nrval : Nat) (ios ios1 : AipsIO)
    (h : c.getFile nrval ios = Outcome.ok ios1 c1) :
    (∀ g ∈ c1.files, ∀ a ∈ g.accesses, a.isRead = true →
      ∃ g0 ∈ c.files, g0.name = g.name ∧ a ∈ g0.accesses) ∧
    c1.data.length = nrval ∧
    (∀ i, i < nrval → ∃ offset, c1.data[i]? = some (getDataSlot offset)) := by
  unfold StManColumnIndArrayAipsIO.getFile at h
  split at h
  · cases h
  · dsimp only at h
    split at h
    · cases h
    · split at h
      · cases h
      · split at h
        · cases h
        · cases h
        · rename_i u c3 ho
          have hreads := openFile_reads _ c3 _ (congrArg Outcome.state ho)
          split at h
          · cases h
          · cases h
          · rename_i dp ios4 hbase
            have hslots := getData_slots nrval _ 0 _ dp ios4 hbase
            split at h
            · cases h
            · simp only [Outcome.ok.injEq] at h
              rw [← h.2]
              refine ⟨hreads, ?_, ?_⟩
              · simpa using hslots.1
              · intro i hi
                exact hslots.2.1 i (Nat.zero_le i) (by omega)

theorem getShape_data (c c1 : StManColumnIndArrayAipsIO) (rownr : Nat) (d1 : StIndArray)
    (h : c.getShape rownr = Outcome.ok d1 c1) : c1.data = c.data.set rownr (some d1) := by
  unfold StManColumnIndArrayAipsIO.getShape at h
  revert h
  repeat' (first | split | dsimp only)
  all_goals intro h
  all_goals simp only [Outcome.ok.injEq, reduceCtorEq] at h
  obtain ⟨h1, h2⟩ := h
  subst h1 h2
  rfl

theorem set_same {α : Type} (l : List α) (i : Nat) (a : α) (h : l[i]? = some a) :
    l.set i a = l := by
  apply List.ext_getElem?
  intro j
  by_cases hj : i = j
  · subst hj
    obtain ⟨hi, -⟩ := List.getElem?_eq_some.mp h
    rw [List.getElem?_set_self hi, h]
  · rw [List.getElem?_set_ne hj]

/-! ## Claims about laziness, numbered tables and round trips -/

/-- C14, the claim as stated fails: on the first row of `exampleLoaded` the
first `getArrayV` reads the shape and the array, and the second `getArrayV` on
the same row reads the array from the file again. -/
theorem second_request_reads_counterexample :
    ∃ arr c1 c2 f1 f2, exampleLoaded.getArrayV 0 = Outcome.ok arr c1 ∧ c1.file = some f1 ∧
      c1.getArrayV 0 = Outcome.ok arr c2 ∧ c2.file = some f2 ∧
      f1.accesses = [FileAccess.getShape 16, FileAccess.getArray 16] ∧
      f2.accesses = [FileAccess.getShape 16, FileAccess.getArray 16, FileAccess.getArray 16] ∧
      f2.accesses ≠ f1.accesses :=
  ⟨_, _, _, _, _, rfl, rfl, rfl, rfl, rfl, rfl, by decide⟩

/-- C14 as amended. Lazy-shape invariant: `getData` and `getFile` read no shape
and no array from the array file and leave in every slot they fill null or a
descriptor knowing only its offset; the first `getShape`, `shape`, `ndim`,
`getArrayV` or `getSliceV` on a row reads the shape of that row from the file;
a second such request on the row does not read the shape again: `getShape`,
`shape` and `ndim` then read nothing, `getArrayV` and `getSliceV` read the
elements of the array only; and a request on another row still makes the first
read of that row. -/
theorem lazy_shape :
    (∀ (dp : List (Option StIndArray)) (inx nrval : Nat) (ios : AipsIO)
      (dp1 : List (Option StIndArray)) (ios1 : AipsIO),
      getData dp inx nrval ios = GetResult.ok dp1 ios1 →
      ∀ i, inx ≤ i → i < inx + nrval →
        dp1[i]? = some none ∨ ∃ offset, dp1[i]? = some (some (StIndArray.new offset))) ∧
    (∀ (c c1 : StManColumnIndArrayAipsIO) (nrval : Nat) (ios ios1 : AipsIO),
      c.getFile nrval ios = Outcome.ok ios1 c1 →
      (∀ g ∈ c1.files, ∀ a ∈ g.accesses, a.isRead = true →
        ∃ g0 ∈ c.files, g0.name = g.name ∧ a ∈ g0.accesses) ∧
      (∀ i, i < nrval →
        c1.data[i]? = some none ∨
        ∃ offset, c1.data[i]? = some (some (StIndArray.new offset)))) ∧
    (∀ (c : StManColumnIndArrayAipsIO) (r : Nat) (d : StIndArray) (f : StManArrayFile)
      (rec : ArrayRecord) (ns : Slicer),
      c.file = some f → c.getArrayPtr r = some (some d) → d.shapeKnown = false →
      f.find d.fileOffset = some rec →
      ∃ c1, c.getShape r = Outcome.ok { d with shapeKnown := true, shape := rec.shape } c1 ∧
        c1.file = some { f with accesses := f.accesses ++ [FileAccess.getShape d.fileOffset] } ∧
        c1.data = c.data.set r (some { d with shapeKnown := true, shape := rec.shape }) ∧
        c.shape r = Outcome.ok rec.shape c1 ∧
        c.ndim r = Outcome.ok rec.shape.length c1 ∧
        (∃ c2, c.getArrayV r = Outcome.ok { shape := rec.shape, data := rec.data } c2 ∧
          c2.data = c1.data ∧
          c2.file = some { f with accesses := f.accesses ++
            [FileAccess.getShape d.fileOffset, FileAccess.getArray d.fileOffset] }) ∧
        (∃ arr c2, c.getSliceV r ns = Outcome.ok arr c2 ∧ c2.data = c1.data ∧
          c2.file = some { f with accesses := f.accesses ++
            [FileAccess.getShape d.fileOffset, FileAccess.getArray d.fileOffset] })) ∧
    (∀ (c : StManColumnIndArrayAipsIO) (r : Nat) (d : StIndArray) (f : StManArrayFile)
      (rec : ArrayRecord) (ns : Slicer),
      c.file = some f → c.getArrayPtr r = some (some d) → d.shapeKnown = true →
      f.find d.fileOffset = some rec →
      ∃ c1, c.getShape r = Outcome.ok d c1 ∧ c1.file = some f ∧ c1.data = c.data ∧
        c.shape r = Outcome.ok d.shape c1 ∧
        c.ndim r = Outcome.ok d.shape.length c1 ∧
        (∃ c2, c.getArrayV r = Outcome.ok { shape := d.shape, data := rec.data } c2 ∧
          c2.data = c.data ∧
          c2.file = some { f with accesses := f.accesses ++
            [FileAccess.getArray d.fileOffset] }) ∧
        (∃ arr c2, c.getSliceV r ns = Outcome.ok arr c2 ∧ c2.data = c.data ∧
          c2.file = some { f with accesses := f.accesses ++
            [FileAccess.getArray d.fileOffset] })) ∧
    (∀ (c : StManColumnIndArrayAipsIO) (r r1 : Nat) (d d1 : StIndArray) (f : StManArrayFile)
      (rec rec1 : ArrayRecord),
      r1 ≠ r → c.file = some f →
      c.getArrayPtr r = some (some d) → d.shapeKnown = false →
      c.getArrayPtr r1 = some (some d1) → d1.shapeKnown = false →
      f.find d.fileOffset = some rec → f.find d1.fileOffset = some rec1 →
      ∃ c1 c2, c.getShape r = Outcome.ok { d with shapeKnown := true, shape := rec.shape } c1 ∧
        c1.getArrayPtr r1 = some (some d1) ∧
        c1.getShape r1 =
          Outcome.ok { d1 with shapeKnown := true, shape := rec1.shape } c2 ∧
        c2.file = some { f with accesses := f.accesses ++
          [FileAccess.getShape d.fileOffset, FileAccess.getShape d1.fileOffset] }) := by
  have hslot : ∀ offset, getDataSlot offset = none ∨
      getDataSlot offset = some (StIndArray.new offset) := by
    intro offset
    unfold getDataSlot
    split
    · exact Or.inl rfl
    · exact Or.inr rfl
  refine ⟨?_, ?_, ?_, ?_, ?_⟩
  · intro dp inx nrval ios dp1 ios1 h i h1 h2
    obtain ⟨offset, ho⟩ := (getData_slots nrval dp inx ios dp1 ios1 h).2.1 i h1 h2
    rcases hslot offset with hs | hs
    · exact Or.inl (by rw [ho, hs])
    · exact Or.inr ⟨offset, by rw [ho, hs]⟩
  · intro c c1 nrval ios ios1 h
    obtain ⟨hreads, -, hslots⟩ := getFile_reads c c1 nrval ios ios1 h
    refine ⟨hreads, ?_⟩
    intro i hi
    obtain ⟨offset, ho⟩ := hslots i hi
    rcases hslot offset with hs | hs
    · exact Or.inl (by rw [ho, hs])
    · exact Or.inr ⟨offset, by rw [ho, hs]⟩
  · intro c r d f rec ns hf hd hk hrec
    have hg := getShape_first c r d f rec hf hd hk hrec
    have hf1 := file_setFile c f
      { f with accesses := f.accesses ++ [FileAccess.getShape d.fileOffset] } hf rfl
    have hf1a : ((c.setFile { f with accesses := f.accesses ++
        [FileAccess.getShape d.fileOffset] }).putArrayPtr r
          { d with shapeKnown := true, shape := rec.shape }).file =
        some { f with accesses := f.accesses ++ [FileAccess.getShape d.fileOffset] } := hf1
    have hrec1 : StManArrayFile.find
        { f with accesses := f.accesses ++ [FileAccess.getShape d.fileOffset] }
        d.fileOffset = some rec := hrec
    obtain ⟨ha1, ha2⟩ := getArrayV_after c _ r _ _ rec hg hf1a hrec1
    obtain ⟨⟨arr, hs1⟩, hs2⟩ := getSliceV_after c _ r ns _ _ rec hg hf1a hrec1
    refine ⟨_, hg, hf1a, rfl, ?_, ?_, ⟨_, ha1, rfl, ?_⟩, ⟨arr, _, hs1, rfl, ?_⟩⟩
    · simp only [ StManColumnIndArrayAipsIO.shape, hg]
    · simp only [ StManColumnIndArrayAipsIO.ndim, hg]
    · rw [ha2]; simp
    · rw [hs2]; simp
  · intro c r d f rec ns hf hd hk hrec
    have hg := getShape_known c r d f hf hd hk
    have hf1 : ((c.setFile f).putArrayPtr r d).file = some f := file_setFile c f f hf rfl
    obtain ⟨ha1, ha2⟩ := getArrayV_after c _ r _ _ rec hg hf1 hrec
    obtain ⟨⟨arr, hs1⟩, hs2⟩ := getSliceV_after c _ r ns _ _ rec hg hf1 hrec
    have hdata : ((c.setFile f).putArrayPtr r d).data = c.data :=
      set_same c.data r (some d) hd
    refine ⟨_, hg, hf1, hdata, ?_, ?_, ⟨_, ha1, hdata, ha2⟩, ⟨arr, _, hs1, hdata, hs2⟩⟩
    · simp only [ StManColumnIndArrayAipsIO.shape, hg]
    · simp only [ StManColumnIndArrayAipsIO.ndim, hg]
  · intro c r r1 d d1 f rec rec1 hne hf hd hk hd1 hk1 hrec hrec1
    have hg := getShape_first c r d f rec hf hd hk hrec
    have hf1 : ((c.setFile { f with accesses := f.accesses ++
        [FileAccess.getShape d.fileOffset] }).putArrayPtr r
          { d with shapeKnown := true, shape := rec.shape }).file =
        some { f with accesses := f.accesses ++ [FileAccess.getShape d.fileOffset] } :=
      file_setFile c f _ hf rfl
    have hslot1 : ((c.setFile { f with accesses := f.accesses ++
        [FileAccess.getShape d.fileOffset] }).putArrayPtr r
          { d with shapeKnown := true, shape := rec.shape }).getArrayPtr r1 =
        some (some d1) := by
      simp only [ StManColumnIndArrayAipsIO.getArrayPtr,
        StManColumnIndArrayAipsIO.putArrayPtr, StManColumnIndArrayAipsIO.setFile]
      rw [List.getElem?_set_ne (Ne.symm hne)]
      exact hd1
    have hrec2 : StManArrayFile.find
        { f with accesses := f.accesses ++ [FileAccess.getShape d.fileOffset] }
        d1.fileOffset = some rec1 := hrec1
    have hg1 := getShape_first _ r1 d1 _ rec1 hf1 hslot1 hk1 hrec2
    have hf2 := file_setFile _ _
      { f with accesses := (f.accesses ++ [FileAccess.getShape d.fileOffset]) ++
          [FileAccess.getShape d1.fileOffset] } hf1 rfl
    refine ⟨_, _, hg, hslot1, hg1, ?_⟩
    exact hf2.trans (by simp)

/-- Witness of C14 as amended on `exampleLoaded`: the first request on row 0
reads its shape, a request on row 1 then reads the shape of row 1; and on
`exampleColumn`, whose second row knows its shape, `getShape` reads nothing. -/
theorem lazy_shape_witness :
    (∃ c1, exampleLoaded.getShape 0 =
        Outcome.ok { fileOffset := 16, shapeKnown := true, shape := [3] } c1 ∧
      c1.file = some { exampleLoadedFile with accesses := [FileAccess.getShape 16] }) ∧
    (∃ c1 c2, exampleLoaded.getShape 0 =
        Outcome.ok { fileOffset := 16, shapeKnown := true, shape := [3] } c1 ∧
      c1.getArrayPtr 1 = some (some (StIndArray.new 52)) ∧
      c1.getShape 1 = Outcome.ok { fileOffset := 52, shapeKnown := true, shape := [2, 2] } c2 ∧
      c2.file = some { exampleLoadedFile with
        accesses := [FileAccess.getShape 16, FileAccess.getShape 52] }) ∧
    (∃ c1, exampleColumn.getShape 1 =
        Outcome.ok { fileOffset := 16, shapeKnown := true, shape := [3] } c1 ∧
      c1.file = exampleColumn.file ∧ c1.data = exampleColumn.data) :=
  ⟨(lazy_shape.2.2.1 exampleLoaded 0 (StIndArray.new 16) exampleLoadedFile
      { offset := 16, shape := [3], data := [1, 2, 3] } ⟨[], []⟩
      (by decide) (by decide) (by decide) (by decide)).imp
      (fun _ h => ⟨h.1, h.2.1⟩),
    lazy_shape.2.2.2.2 exampleLoaded 0 1 (StIndArray.new 16) (StIndArray.new 52)
      exampleLoadedFile { offset := 16, shape := [3], data := [1, 2, 3] }
      { offset := 52, shape := [2, 2], data := [4, 5, 6, 7] }
      (by decide) (by decide) (by decide) (by decide) (by decide) (by decide) (by decide)
      (by decide),
    (lazy_shape.2.2.2.1 exampleColumn 1 { fileOffset := 16, shapeKnown := true, shape := [3] }
      { name := "table.f0i", writable := true, leng := 52,
        records := [{ offset := 16, shape := [3], data := [0, 0, 0] }],
        accesses := [FileAccess.putShape 16] }
      { offset := 16, shape := [3], data := [0, 0, 0] } ⟨[], []⟩
      (by decide) (by decide) (by decide) (by decide)).imp
      (fun _ h => ⟨h.1, h.2.1, h.2.2.1⟩)⟩

/-! ## The whole block through `putData` and `getData` -/

/-- What `getData` stores for a slot written by `putData`: null for null, and
for a descriptor a new descriptor holding the same offset. -/
theorem getDataOffset_entry (s : Option StIndArray)
    (h : ∀ d, s = some d → 1 ≤ d.fileOffset ∧ d.fileOffset < 9223372036854775808)
    (rest : AipsIO) :
    ∃ offset, getDataOffset (putDataEntry s [] ++ rest) = some (offset, rest) ∧
      getDataSlot offset = s.map (fun d => StIndArray.new d.fileOffset) := by
  cases s with
  | none =>
    refine ⟨0, ?_, rfl⟩
    exact getDataOffset_word 0 (by decide) (by decide) rest
  | some d =>
    obtain ⟨h1, h2⟩ := h d rfl
    refine ⟨d.fileOffset, ?_, ?_⟩
    · by_cases hle : d.fileOffset ≤ 2147483648
      · rw [putDataEntry_word d hle]
        have hv : ((Int.toNat (d.fileOffset % 4294967296) : Nat) : Int) = d.fileOffset := by
          rw [Int.toNat_of_nonneg (Int.emod_nonneg _ (by decide))]
          omega
        rw [getDataOffset_word _ (by omega) (by omega), hv]
      · rw [putDataEntry_escape d (by omega), List.append_assoc]
        exact getDataOffset_escape _ (by omega) h2 rest
    · have : d.fileOffset ≠ 0 := by omega
      simp [getDataSlot, this]

theorem putData_cons (s : Option StIndArray) (slots : List (Option StIndArray)) (n : Nat)
    (w : AipsIO) (h : putData (s :: slots) (n + 1) [] = some w) :
    ∃ w1, putData slots n [] = some w1 ∧ w = putDataEntry s [] ++ w1 := by
  rw [putData, putData_append] at h
  cases hw : putData slots n [] with
  | none => simp [hw] at h
  | some w1 =>
    simp only [hw, Option.map_some', Option.some.injEq] at h
    exact ⟨w1, rfl, h.symm⟩

/-- `getData` on what `putData` wrote for a sequence of slots, each null or
holding an offset from 1 to `2^63 - 1`: it returns having consumed exactly these
words, each slot read holds what was written, the others are untouched. -/
theorem getData_putData (slots : List (Option StIndArray)) :
    ∀ (dp : List (Option StIndArray)) (inx : Nat) (w rest : AipsIO),
    (∀ d, some d ∈ slots → 1 ≤ d.fileOffset ∧ d.fileOffset < 9223372036854775808) →
    inx + slots.length ≤ dp.length → putData slots slots.length [] = some w →
    ∃ dp1, getData dp inx slots.length (w ++ rest) = GetResult.ok dp1 rest ∧
      dp1.length = dp.length ∧
      (∀ i, i < slots.length →
        dp1[inx + i]? = (slots[i]?).map (Option.map (fun d => StIndArray.new d.fileOffset))) ∧
      (∀ j, j < inx ∨ inx + slots.length ≤ j → dp1[j]? = dp[j]?) := by
  induction slots with
  | nil =>
    intro dp inx w rest _ _ hw
    simp only [putData, Option.some.injEq, List.length_nil] at hw
    subst hw
    exact ⟨dp, rfl, rfl, fun i hi => by simp at hi, fun _ _ => rfl⟩
  | cons s slots ih =>
    intro dp inx w rest hvalid hlen hw
    simp only [List.length_cons] at hlen hw ⊢
    obtain ⟨w1, hw1, hww⟩ := putData_cons s slots slots.length w hw
    obtain ⟨offset, hoff, hslot⟩ := getDataOffset_entry s
      (fun d hd => hvalid d (by rw [hd]; exact List.mem_cons_self _ _)) (w1 ++ rest)
    have hlt : inx < dp.length := by omega
    obtain ⟨dp1, hget, hl1, hin, hout⟩ := ih (dp.set inx (getDataSlot offset)) (inx + 1) w1 rest
      (fun d hd => hvalid d (List.mem_cons_of_mem _ hd))
      (by rw [List.length_set]; omega) hw1
    refine ⟨dp1, ?_, by rw [hl1, List.length_set], ?_, ?_⟩
    · rw [hww, List.append_assoc]
      simp only [getData, getDataLoop, hoff, hlt, if_true]
      exact hget
    · intro i hi
      cases i with
      | zero =>
        rw [Nat.add_zero, hout inx (by omega), List.getElem?_set_self hlt, hslot]
        simp
      | succ k =>
        have hk : inx + (k + 1) = inx + 1 + k := by omega
        rw [hk, hin k (by omega)]
        simp
    · intro j hj
      rw [hout j (by omega), List.getElem?_set_ne (by omega)]

/-- C16. Whole-table round trip: for every sequence of slots, each null or
holding an offset from 1 to `2^63 - 1`, `putData` writes words from which
`getData`, called with the same count, reads back slot for slot the same
sequence (null for null, a descriptor with the same offset otherwise) and after
which the stream stands exactly behind these words; no word written on the
4-byte path is the sentinel `2^31 + 1`. -/
theorem table_round_trip (slots : List (Option StIndArray))
    (h : ∀ d, some d ∈ slots → 1 ≤ d.fileOffset ∧ d.fileOffset < 9223372036854775808)
    (rest : AipsIO) :
    (∃ w, putData slots slots.length [] = some w ∧
      getData (List.replicate slots.length none) 0 slots.length (w ++ rest) =
        GetResult.ok (slots.map (Option.map (fun d => StIndArray.new d.fileOffset))) rest ∧
      ∀ (dp : List (Option StIndArray)) (inx : Nat), inx + slots.length ≤ dp.length →
        ∃ dp1, getData dp inx slots.length (w ++ rest) = GetResult.ok dp1 rest ∧
          dp1.length = dp.length ∧
          (∀ i, i < slots.length → dp1[inx + i]? =
            (slots[i]?).map (Option.map (fun d => StIndArray.new d.fileOffset))) ∧
          (∀ j, j < inx ∨ inx + slots.length ≤ j → dp1[j]? = dp[j]?)) ∧
    (putDataEntry none [] = uIntBytes 0 ∧ (0 : Nat) ≠ 2147483649) ∧
    (∀ d, some d ∈ slots → d.fileOffset ≤ 2147483648 →
      putDataEntry (some d) [] = uIntBytes (Int.toNat (d.fileOffset % 4294967296)) ∧
      Int.toNat (d.fileOffset % 4294967296) ≠ 2147483649) := by
  have hput : ∃ w, putData slots slots.length [] = some w := by
    clear h
    induction slots with
    | nil => exact ⟨[], rfl⟩
    | cons s slots ih =>
      obtain ⟨w, hw⟩ := ih
      refine ⟨putDataEntry s [] ++ w, ?_⟩
      rw [List.length_cons, putData, putData_append, hw]
      rfl
  obtain ⟨w, hw⟩ := hput
  refine ⟨⟨w, hw, ?_, ?_⟩, ⟨rfl, by decide⟩, ?_⟩
  · obtain ⟨dp1, hget, hl, hin, -⟩ := getData_putData slots (List.replicate slots.length none)
      0 w rest h (by simp) hw
    rw [hget]
    congr 1
    apply List.ext_getElem?
    intro i
    by_cases hi : i < slots.length
    · have := hin i hi
      rw [Nat.zero_add] at this
      rw [this, List.getElem?_map]
    · rw [List.getElem?_eq_none (by rw [hl, List.length_replicate]; omega),
        List.getElem?_eq_none (by rw [List.length_map]; omega)]
  · intro dp inx hlen
    exact getData_putData slots dp inx w rest h hlen hw
  · intro d hd hle
    obtain ⟨h1, h2⟩ := h d hd
    refine ⟨putDataEntry_word d hle, ?_⟩
    have hv : ((Int.toNat (d.fileOffset % 4294967296) : Nat) : Int) = d.fileOffset := by
      rw [Int.toNat_of_nonneg (Int.emod_nonneg _ (by decide))]
      omega
    omega

/-- Witness of C16 on a block of three slots: a descriptor on the 4-byte path,
a null slot and a descriptor on the escape path. -/
theorem table_round_trip_witness :
    ∃ w, putData [some (StIndArray.new 16), none, some (StIndArray.new 5000000000)] 3 [] =
        some w ∧
      getData (List.replicate 3 none) 0 3 (w ++ uIntBytes 7) =
        GetResult.ok [some (StIndArray.new 16), none, some (StIndArray.new 5000000000)]
          (uIntBytes 7) :=
  (table_round_trip [some (StIndArray.new 16), none, some (StIndArray.new 5000000000)]
    (by
      intro d hd
      simp only [List.mem_cons, Option.some.injEq, reduceCtorEq, List.mem_singleton, false_or,
        List.mem_nil_iff, or_false] at hd
      rcases hd with rfl | rfl <;> exact ⟨by decide, by decide⟩)
    (uIntBytes 7)).1.imp (fun _ h => ⟨h.1, h.2.1⟩)

/-! ## Writes of the array file -/

/-- `getData` into a block of null slots on what `putData` wrote for a whole
sequence of slots in range. -/
theorem getData_putData_block (slots : List (Option StIndArray)) (w rest : AipsIO)
    (h : ∀ d, some d ∈ slots → 1 ≤ d.fileOffset ∧ d.fileOffset < 9223372036854775808)
    (hw : putData slots slots.length [] = some w) :
    getData (List.replicate slots.length none) 0 slots.length (w ++ rest) =
      GetResult.ok (slots.map (Option.map (fun d => StIndArray.new d.fileOffset))) rest := by
  obtain ⟨dp1, hget, hl, hin, -⟩ := getData_putData slots (List.replicate slots.length none)
    0 w rest h (by simp) hw
  rw [hget]
  congr 1
  apply List.ext_getElem?
  intro i
  by_cases hi : i < slots.length
  · have := hin i hi
    rw [Nat.zero_add] at this
    rw [this, List.getElem?_map]
  · rw [List.getElem?_eq_none (by rw [hl, List.length_replicate]; omega),
      List.getElem?_eq_none (by rw [List.length_map]; omega)]

/-- C18. Persisted header round trip. `putFile` writes, in this order, the
header with the tag and the version, the data-type code, the sequence number,
the payload of the base column and the end marker; whenever `getFile`, called on
any column with that stream, returns or raises an error, the column holds the
version and the sequence number of the column that wrote the stream; the
data-type code is read and not used, the outcome being the same whatever the
code; and when the array file can be opened and every offset written is in
range, `getFile` returns with the slots that were written. -/
theorem header_round_trip :
    (∀ (c c1 : StManColumnIndArrayAipsIO) (nrval : Nat) (ios ios1 : AipsIO),
      c.putFile nrval ios = Outcome.ok ios1 c1 →
      ∃ w, c.basePutFile nrval [] = some w ∧
        ios1 = ios ++ (putstart "StManColumnIndArrayAipsIO" c.version_p [] ++
          (putInt c.dtype [] ++ (putUInt c.seqnr_p [] ++ (w ++ putend []))))) ∧
    (∀ (c c1 c2 c3 : StManColumnIndArrayAipsIO) (nrval nrval2 : Nat) (ios1 rest : AipsIO),
      c.seqnr_p < 4294967296 → c.putFile nrval [] = Outcome.ok ios1 c1 →
      (c2.getFile nrval2 (ios1 ++ rest)).state = some c3 →
      c3.version_p = c.version_p ∧ c3.seqnr_p = c.seqnr_p) ∧
    (∀ (c2 : StManColumnIndArrayAipsIO) (nrval v dt1 dt2 : Nat) (rest : AipsIO),
      c2.getFile nrval (Item.start "StManColumnIndArrayAipsIO" v :: (uIntBytes dt1 ++ rest)) =
      c2.getFile nrval (Item.start "StManColumnIndArrayAipsIO" v :: (uIntBytes dt2 ++ rest))) ∧
    (∀ (c c1 c2 c3 : StManColumnIndArrayAipsIO) (ios1 rest : AipsIO),
      c.seqnr_p < 4294967296 →
      (∀ d, some d ∈ c.data → 1 ≤ d.fileOffset ∧ d.fileOffset < 9223372036854775808) →
      c.putFile c.data.length [] = Outcome.ok ios1 c1 →
      ({ c2 with version_p := c.version_p, seqnr_p := c.seqnr_p }).openFile
        c2.stman.fileOption = Outcome.ok () c3 →
      c2.getFile c.data.length (ios1 ++ rest) = Outcome.ok rest
        { c3 with data := c.data.map (Option.map (fun d => StIndArray.new d.fileOffset)) }) := by
  refine ⟨?_, ?_, ?_, ?_⟩
  · intro c c1 nrval ios ios1 h
    obtain ⟨w, hw, hios⟩ := putFile_stream c c1 nrval ios ios1 h
    refine ⟨w, hw, ?_⟩
    rw [hios]
    simp [putstart, putInt, putUInt, putend]
  · intro c c1 c2 c3 nrval nrval2 ios1 rest hseq hput hget
    obtain ⟨w, -, hios⟩ := putFile_stream c c1 nrval [] ios1 hput
    rw [List.nil_append] at hios
    have hm := (getFile_members c2 nrval2 (ios1 ++ rest) c3 hget).2 c.version_p
      (uIntBytes (Int.toNat (c.dtype % 4294967296)) ++
        (uIntBytes c.seqnr_p ++ (w ++ [Item.finish])) ++ rest)
      (by rw [hios]; simp [getstart])
    refine ⟨hm.1, ?_⟩
    obtain ⟨t, hi⟩ : ∃ t, getInt (uIntBytes (Int.toNat (c.dtype % 4294967296)) ++
        (uIntBytes c.seqnr_p ++ (w ++ [Item.finish])) ++ rest) =
        some (t, uIntBytes c.seqnr_p ++ ((w ++ [Item.finish]) ++ rest)) := by
      simp only [getInt, List.append_assoc, getUInt_uIntBytes]
      exact ⟨_, rfl⟩
    have hu : getUInt (uIntBytes c.seqnr_p ++ ((w ++ [Item.finish]) ++ rest)) =
        some (c.seqnr_p, (w ++ [Item.finish]) ++ rest) := by
      rw [getUInt_uIntBytes, Nat.mod_eq_of_lt hseq]
    exact hm.2 _ _ _ _ hi hu
  · intro c2 nrval v dt1 dt2 rest
    simp only [ StManColumnIndArrayAipsIO.getFile, getstart, if_true, getInt,
      getUInt_uIntBytes]
  · intro c c1 c2 c3 ios1 rest hseq hvalid hput hopen
    obtain ⟨w, hw, hios⟩ := putFile_stream c c1 c.data.length [] ios1 hput
    rw [List.nil_append] at hios
    have hbase := getData_putData_block c.data w (Item.finish :: rest) hvalid hw
    rw [hios]
    simp only [ StManColumnIndArrayAipsIO.getFile, getstart, if_true, getInt,
      List.cons_append, List.append_assoc, List.nil_append, List.singleton_append,
      getUInt_uIntBytes, Nat.mod_eq_of_lt hseq, hopen,
      StManColumnIndArrayAipsIO.baseGetFile, hbase, getend]

/-- Witness of C18: `exampleColumn` written by `putFile` and read by `getFile`
into `exampleReader`. -/
theorem header_round_trip_witness :
    ∃ ios1 c1 c3, exampleColumn.putFile 2 [] = Outcome.ok ios1 c1 ∧
      ({ exampleReader with version_p := 2, seqnr_p := 0 }).openFile OpenOption.Old =
        Outcome.ok () c3 ∧
      exampleReader.getFile 2 (ios1 ++ []) = Outcome.ok []
        { c3 with data := [none, some (StIndArray.new 16)] } ∧
      c3.version_p = exampleColumn.version_p ∧ c3.seqnr_p = exampleColumn.seqnr_p :=
  ⟨_, exampleColumn.setFile exampleFile.flush, _, rfl, rfl,
    header_round_trip.2.2.2 exampleColumn (exampleColumn.setFile exampleFile.flush)
      exampleReader _ _ [] (by decide)
      (by
        intro d hd
        simp only [exampleColumn, List.mem_cons, Option.some.injEq, reduceCtorEq,
          List.mem_singleton, false_or, List.mem_nil_iff, or_false] at hd
        subst hd
        exact ⟨by decide, by decide⟩)
      rfl rfl,
    rfl, rfl⟩

/-! ## Claims about `remove` and about offsets out of range -/

/-- C19. `remove` releases only the descriptor in memory: whenever `remove (r)`
returns or raises an error, the array files are what they were, contents, length
and accesses made (nothing is written, no space is reclaimed), the column is
bound to the same file, and the fixed-shape flag, the version and the sequence
number are unchanged; on a row inside the slots it returns, the slot of the row
being taken out. -/
theorem remove_keeps_file (c : StManColumnIndArrayAipsIO) (r : Nat) :
    (∀ c1, (c.remove r).state = some c1 →
      c1.files = c.files ∧ c1.file = c.file ∧ c1.iosfile_p = c.iosfile_p ∧
      c1.shapeIsFixed_p = c.shapeIsFixed_p ∧ c1.fixedShape_p = c.fixedShape_p ∧
      c1.version_p = c.version_p ∧ c1.seqnr_p = c.seqnr_p ∧ c1.stman = c.stman) ∧
    (∀ slot, c.getArrayPtr r = some slot →
      c.remove r = Outcome.ok () { c with data := c.data.eraseIdx r }) := by
  constructor
  · intro c1 h
    unfold StManColumnIndArrayAipsIO.remove StManColumnIndArrayAipsIO.deleteArray at h
    cases hp : c.getArrayPtr r with
    | none => simp [hp, Outcome.state] at h
    | some v =>
      simp only [hp, Outcome.state, Option.some.injEq] at h
      subst h
      exact ⟨rfl, rfl, rfl, rfl, rfl, rfl, rfl, rfl⟩
  · intro slot h
    simp only [ StManColumnIndArrayAipsIO.remove, StManColumnIndArrayAipsIO.deleteArray, h,
      StManColumnIndArrayAipsIO.baseRemove]

/-- Witness of C19: the second row of `exampleColumn`, which holds an array, is
removed; the array stays in the file. -/
theorem remove_keeps_file_witness :
    exampleColumn.remove 1 = Outcome.ok () { exampleColumn with data := [none] } ∧
    ({ exampleColumn with data := [none] } : StManColumnIndArrayAipsIO).file =
      some exampleFile ∧
    exampleFile.find 16 = some { offset := 16, shape := [3], data := [0, 0, 0] } :=
  ⟨(remove_keeps_file exampleColumn 1).2
      (some { fileOffset := 16, shapeKnown := true, shape := [3] }) (by decide),
    ((remove_keeps_file exampleColumn 1).1 { exampleColumn with data := [none] }
      (by decide)).2.1.trans (by decide),
    by decide⟩

/-- C20. Negative offsets break the encoding: a descriptor holding an offset
`O < 0` is written on the 4-byte path as the single word `O mod 2^32`; from that
word `getData` does not recover `O`: when the word is not the sentinel the offset
read is the word, which is not negative, and when it is the sentinel `getData`
goes on to read 8 bytes that were not written for the entry; the offset
`-2147483647` is written as the word `2147483649 = 2^31 + 1`, the sentinel. -/
theorem negative_offset_breaks (d : StIndArray) (h : d.fileOffset < 0) (rest : AipsIO) :
    putData [some d] 1 [] = some (uIntBytes (Int.toNat (d.fileOffset % 4294967296))) ∧
    ((Int.toNat (d.fileOffset % 4294967296) : Nat) : Int) = d.fileOffset % 4294967296 ∧
    Int.toNat (d.fileOffset % 4294967296) < 4294967296 ∧
    (Int.toNat (d.fileOffset % 4294967296) ≠ 2147483649 →
      getDataOffset (uIntBytes (Int.toNat (d.fileOffset % 4294967296)) ++ rest) =
        some (d.fileOffset % 4294967296, rest) ∧
      d.fileOffset % 4294967296 ≠ d.fileOffset) ∧
    (Int.toNat (d.fileOffset % 4294967296) = 2147483649 →
      getDataOffset (uIntBytes (Int.toNat (d.fileOffset % 4294967296)) ++ rest) =
        getInt64 rest ∧
      getData [none] 0 1 (uIntBytes (Int.toNat (d.fileOffset % 4294967296))) =
        GetResult.eof [none]) ∧
    (∀ ios1, getDataOffset (uIntBytes (Int.toNat (d.fileOffset % 4294967296))) ≠
      some (d.fileOffset, ios1)) ∧
    (Int.toNat ((-2147483647 : Int) % 4294967296) = 2147483649 ∧
      putData [some (StIndArray.new (-2147483647))] 1 [] = some (uIntBytes 2147483649) ∧
      getData [none] 0 1 (uIntBytes 2147483649) = GetResult.eof [none] ∧
      putData [some (StIndArray.new (-2147483647)), some (StIndArray.new 16),
          some (StIndArray.new 52)] 3 [] =
        some (uIntBytes 2147483649 ++ (uIntBytes 16 ++ uIntBytes 52)) ∧
      getData [none, none, none] 0 3 (uIntBytes 2147483649 ++ (uIntBytes 16 ++ uIntBytes 52)) =
        GetResult.eof [some (StIndArray.new 68719476788), none, none]) := by
  have hnn : (0 : Int) ≤ d.fileOffset % 4294967296 := Int.emod_nonneg _ (by decide)
  have hlt : d.fileOffset % 4294967296 < 4294967296 := Int.emod_lt_of_pos _ (by decide)
  have hcast : ((Int.toNat (d.fileOffset % 4294967296) : Nat) : Int) =
      d.fileOffset % 4294967296 := Int.toNat_of_nonneg hnn
  have hw : Int.toNat (d.fileOffset % 4294967296) < 4294967296 := by omega
  have hput : putDataEntry (some d) [] =
      uIntBytes (Int.toNat (d.fileOffset % 4294967296)) :=
    putDataEntry_word d (by omega)
  refine ⟨?_, hcast, hw, ?_, ?_, ?_, ?_⟩
  · rw [putData, putData, hput]
  · intro hs
    refine ⟨?_, by omega⟩
    rw [getDataOffset_word _ hw hs, hcast]
  · intro hs
    refine ⟨?_, ?_⟩
    · simp only [getDataOffset, getUInt_uIntBytes, Nat.mod_eq_of_lt hw, hs, if_true]
    · rw [hs]
      decide
  · intro ios1 hcontra
    by_cases hs : Int.toNat (d.fileOffset % 4294967296) = 2147483649
    · have hnone : getDataOffset (uIntBytes 2147483649) = none := by decide
      rw [hs, hnone] at hcontra
      cases hcontra
    · have := getDataOffset_word _ hw hs []
      rw [List.append_nil] at this
      rw [this, hcast] at hcontra
      simp only [Option.some.injEq, Prod.mk.injEq] at hcontra
      omega
  · refine ⟨by decide, by decide, by decide, by decide, by decide⟩

/-- Witness of C20 at the offset `-1`, written as the word `2^32 - 1`. -/
theorem negative_offset_breaks_witness :
    (StIndArray.new (-1)).fileOffset < 0 ∧
    putData [some (StIndArray.new (-1))] 1 [] = some (uIntBytes 4294967295) ∧
    getDataOffset (uIntBytes 4294967295 ++ []) = some (4294967295, []) := by
  have h := negative_offset_breaks (StIndArray.new (-1)) (by decide) []
  have hv : Int.toNat ((StIndArray.new (-1)).fileOffset % 4294967296) = 4294967295 := by
    decide
  have hi : (StIndArray.new (-1)).fileOffset % 4294967296 = 4294967295 := by decide
  obtain ⟨h1, -, -, h4, -⟩ := h
  rw [hv] at h1 h4
  rw [hi] at h4
  exact ⟨by decide, h1, (h4 (by decide)).1⟩

/-! ## Claims about the query handler -/

theorem updateTop_temp (h : TaQLNodeHandler) (f : TableParseQuery → TableParseQuery) :
    (h.updateTop f).itsTempTables = h.itsTempTables ∧ (h.updateTop f).done = h.done := by
  unfold TaQLNodeHandler.updateTop
  split <;> exact ⟨rfl, rfl⟩

theorem makeTable_temp (h : TaQLNodeHandler) (hrval : TaQLNodeHRValue) :
    (h.makeTable hrval).2.itsTempTables = h.itsTempTables := by
  unfold TaQLNodeHandler.makeTable
  repeat' split
  all_goals rfl

mutual

theorem visitTableNode_temp : ∀ (node : TaQLTableNode) (h : TaQLNodeHandler),
    (h.visitTableNode node).2.itsTempTables = h.itsTempTables
  | TaQLTableNode.name _, h => by simp only [TaQLNodeHandler.visitTableNode]
  | TaQLTableNode.number _, h => by simp only [TaQLNodeHandler.visitTableNode]
  | TaQLTableNode.select query, h => by
    have h1 := handleSelect_temp query h true
    simp only [TaQLNodeHandler.visitTableNode]
    split
    · rename_i heq
      rw [heq] at h1
      exact h1
    · rename_i heq
      rw [heq] at h1
      exact h1
  | TaQLTableNode.concat tables, h => by
    have h1 := makeConcatTable_temp tables h []
    simp only [TaQLNodeHandler.visitTableNode]
    split
    · rename_i heq
      rw [heq] at h1
      exact h1
    · rename_i heq
      rw [heq] at h1
      exact h1

theorem makeConcatTable_temp : ∀ (nodes : List TaQLTableNode) (h : TaQLNodeHandler)
    (found : List Table),
    (h.makeConcatTable found nodes).2.itsTempTables = h.itsTempTables
  | [], h, found => by simp only [TaQLNodeHandler.makeConcatTable, TaQLNodeHandler.did]
  | node :: nodes, h, found => by
    have h1 := visitTableNode_temp node h
    simp only [TaQLNodeHandler.makeConcatTable]
    split
    · rename_i heq
      rw [heq] at h1
      exact h1
    · rename_i hrval h2 heq
      rw [heq] at h1
      have h3 := makeTable_temp h2 hrval
      split
      · rename_i heq2
        rw [heq2] at h3
        exact h3.trans h1
      · rename_i t h4 heq2
        rw [heq2] at h3
        exact (makeConcatTable_temp nodes h4 (found ++ [t])).trans (h3.trans h1)

theorem handleTables_temp : ∀ (nodes : List TaQLTableNode) (h : TaQLNodeHandler),
    (h.handleTables nodes).2.itsTempTables = h.itsTempTables
  | [], h => by simp only [TaQLNodeHandler.handleTables]
  | node :: nodes, h => by
    have h1 := visitTableNode_temp node h
    simp only [TaQLNodeHandler.handleTables]
    split
    · rename_i heq
      rw [heq] at h1
      exact h1
    · rename_i hrval h2 heq
      rw [heq] at h1
      have h3 := makeTable_temp h2 hrval
      split
      · rename_i heq2
        rw [heq2] at h3
        exact h3.trans h1
      · rename_i t h4 heq2
        rw [heq2] at h3
        exact (handleTables_temp nodes _).trans
          ((updateTop_temp h4 _).1.trans (h3.trans h1))

theorem handleSelect_temp : ∀ (query : TaQLStatement) (h : TaQLNodeHandler) (doExec : Bool),
    (h.handleSelect doExec query).2.itsTempTables = h.itsTempTables
  | TaQLStatement.mk command tables clauses, h, doExec => by
    have h1 := handleTables_temp tables (h.pushStack command)
    simp only [TaQLNodeHandler.handleSelect]
    split
    · rename_i heq
      rw [heq] at h1
      exact h1
    · rename_i u h2 heq
      rw [heq] at h1
      have h3 := handleClauses_temp clauses h2
      split
      · rename_i heq2
        rw [heq2] at h3
        exact h3.trans h1
      · rename_i u2 h4 heq2
        rw [heq2] at h3
        have h5 : ((if doExec = true then
            h4.did (TaQLEvent.execute (h4.topStack.getD
              { commandType := command, fromList := [], clauses := [] }))
            else h4).popStack).itsTempTables = h4.itsTempTables := by
          split <;> rfl
        exact h5.trans (h3.trans h1)

theorem handleClause_temp : ∀ (node : TaQLClauseNode) (h : TaQLNodeHandler),
    (h.handleClause node).2.itsTempTables = h.itsTempTables
  | TaQLClauseNode.expr kind, h => by
    simp only [TaQLNodeHandler.handleClause, TaQLNodeHandler.did]
    exact (updateTop_temp h _).1
  | TaQLClauseNode.subquery kind query, h => by
    have h1 := handleSelect_temp query h false
    simp only [TaQLNodeHandler.handleClause]
    split
    · rename_i heq
      rw [heq] at h1
      exact h1
    · rename_i u h2 heq
      rw [heq] at h1
      simp only [TaQLNodeHandler.did]
      exact (updateTop_temp h2 _).1.trans h1

theorem handleClauses_temp : ∀ (nodes : List TaQLClauseNode) (h : TaQLNodeHandler),
    (h.handleClauses nodes).2.itsTempTables = h.itsTempTables
  | [], h => by simp only [TaQLNodeHandler.handleClauses]
  | node :: nodes, h => by
    have h1 := handleClause_temp node h
    simp only [TaQLNodeHandler.handleClauses]
    split
    · rename_i heq
      rw [heq] at h1
      exact h1
    · rename_i u h2 heq
      rw [heq] at h1
      exact (handleClauses_temp nodes h2).trans h1

end

/-- What `getData` stores for a slot written by `putData`, the offset 0
included: null for null, and for a descriptor what `getDataSlot` makes of its
offset. -/
theorem getDataOffset_entry_zero (s : Option StIndArray)
    (h : ∀ d, s = some d → 0 ≤ d.fileOffset ∧ d.fileOffset < 9223372036854775808)
    (rest : AipsIO) :
    ∃ offset, getDataOffset (putDataEntry s [] ++ rest) = some (offset, rest) ∧
      getDataSlot offset = s.bind (fun d => getDataSlot d.fileOffset) := by
  cases s with
  | none =>
    refine ⟨0, ?_, rfl⟩
    exact getDataOffset_word 0 (by decide) (by decide) rest
  | some d =>
    obtain ⟨h1, h2⟩ := h d rfl
    refine ⟨d.fileOffset, ?_, rfl⟩
    by_cases hle : d.fileOffset ≤ 2147483648
    · rw [putDataEntry_word d hle]
      have hv : ((Int.toNat (d.fileOffset % 4294967296) : Nat) : Int) = d.fileOffset := by
        rw [Int.toNat_of_nonneg (Int.emod_nonneg _ (by decide))]
        omega
      rw [getDataOffset_word _ (by omega) (by omega), hv]
    · rw [putDataEntry_escape d (by omega), List.append_assoc]
      exact getDataOffset_escape _ (by omega) h2 rest

/-- The call of `putData` for all slots of a block returns. -/
theorem putData_total (slots : List (Option StIndArray)) :
    ∃ w, putData slots slots.length [] = some w := by
  induction slots with
  | nil => exact ⟨[], rfl⟩
  | cons s slots ih =>
    obtain ⟨w, hw⟩ := ih
    refine ⟨putDataEntry s [] ++ w, ?_⟩
    rw [List.length_cons, putData, putData_append, hw]
    rfl

/-- The call of `getData` on what `putData` wrote for a sequence of slots, each
null or holding an offset from 0 to `2^63 - 1`. -/
theorem getData_putData_zero (slots : List (Option StIndArray)) :
    ∀ (dp : List (Option StIndArray)) (inx : Nat) (w rest : AipsIO),
    (∀ d, some d ∈ slots → 0 ≤ d.fileOffset ∧ d.fileOffset < 9223372036854775808) →
    inx + slots.length ≤ dp.length → putData slots slots.length [] = some w →
    ∃ dp1, getData dp inx slots.length (w ++ rest) = GetResult.ok dp1 rest ∧
      dp1.length = dp.length ∧
      (∀ i, i < slots.length →
        dp1[inx + i]? = (slots[i]?).map (fun s => s.bind (fun d => getDataSlot d.fileOffset))) ∧
      (∀ j, j < inx ∨ inx + slots.length ≤ j → dp1[j]? = dp[j]?) := by
  induction slots with
  | nil =>
    intro dp inx w rest _ _ hw
    simp only [putData, Option.some.injEq, List.length_nil] at hw
    subst hw
    exact ⟨dp, rfl, rfl, fun i hi => by simp at hi, fun _ _ => rfl⟩
  | cons s slots ih =>
    intro dp inx w rest hvalid hlen hw
    simp only [List.length_cons] at hlen hw ⊢
    obtain ⟨w1, hw1, hww⟩ := putData_cons s slots slots.length w hw
    obtain ⟨offset, hoff, hslot⟩ := getDataOffset_entry_zero s
      (fun d hd => hvalid d (by rw [hd]; exact List.mem_cons_self _ _)) (w1 ++ rest)
    have hlt : inx < dp.length := by omega
    obtain ⟨dp1, hget, hl1, hin, hout⟩ := ih (dp.set inx (getDataSlot offset)) (inx + 1) w1 rest
      (fun d hd => hvalid d (List.mem_cons_of_mem _ hd))
      (by rw [List.length_set]; omega) hw1
    refine ⟨dp1, ?_, by rw [hl1, List.length_set], ?_, ?_⟩
    · rw [hww, List.append_assoc]
      simp only [getData, getDataLoop, hoff, hlt, if_true]
      exact hget
    · intro i hi
      cases i with
      | zero =>
        rw [Nat.add_zero, hout inx (by omega), List.getElem?_set_self hlt, hslot]
        simp
      | succ k =>
        have hk : inx + (k + 1) = inx + 1 + k := by omega
        rw [hk, hin k (by omega)]
        simp
    · intro j hj
      rw [hout j (by omega), List.getElem?_set_ne (by omega)]

/-- C21. A descriptor with the offset 0 is not preserved: `putData` writes it as
the single word 0, the same as a null slot, and `getData` turns that word into a
null slot; so for a column whose row `rownr` holds such a descriptor (the
offsets of all rows being from 0 to `2^63 - 1`) `putData` of its slots returns,
`getData` of the words written returns with a block in which the row is null,
and `isShapeDefined` for the row, true before, is false on that block. -/
theorem zero_offset_lost (d : StIndArray) (h0 : d.fileOffset = 0) :
    (∀ ios, putDataEntry (some d) ios = ios ++ uIntBytes 0 ∧
      putDataEntry (some d) ios = putDataEntry none ios) ∧
    (∀ (dp : List (Option StIndArray)) (inx : Nat) (rest : AipsIO), inx < dp.length →
      getData dp inx 1 (putDataEntry (some d) [] ++ rest) =
        GetResult.ok (dp.set inx none) rest) ∧
    (∀ (c : StManColumnIndArrayAipsIO) (rownr : Nat) (dp : List (Option StIndArray))
      (rest : AipsIO),
      c.data[rownr]? = some (some d) →
      (∀ d1, some d1 ∈ c.data → 0 ≤ d1.fileOffset ∧ d1.fileOffset < 9223372036854775808) →
      dp.length = c.data.length →
      ∃ w dp1, putData c.data c.data.length [] = some w ∧
        getData dp 0 c.data.length (w ++ rest) = GetResult.ok dp1 rest ∧
        dp1[rownr]? = some none ∧
        c.isShapeDefined rownr = Outcome.ok true c ∧
        ({ c with data := dp1 }).isShapeDefined rownr =
          Outcome.ok false { c with data := dp1 }) := by
  have hle : d.fileOffset ≤ 2147483648 := by omega
  have hword : putDataEntry (some d) [] = uIntBytes 0 := by
    rw [putDataEntry_word d hle, h0]
    rfl
  refine ⟨?_, ?_, ?_⟩
  · intro ios
    have h1 : putDataEntry (some d) ios = ios ++ uIntBytes 0 := by
      rw [putDataEntry_append, hword]
    exact ⟨h1, h1.trans rfl⟩
  · intro dp inx rest hlt
    rw [hword, getData_one dp inx hlt _ rest 0
      (getDataOffset_word 0 (by decide) (by decide) rest)]
    rfl
  · intro c rownr dp rest hrow hvalid hlen
    obtain ⟨w, hw⟩ := putData_total c.data
    obtain ⟨dp1, hget, -, hin, -⟩ := getData_putData_zero c.data dp 0 w rest hvalid
      (by omega) hw
    have hlt : rownr < c.data.length := by
      by_contra hge
      rw [List.getElem?_eq_none (by omega)] at hrow
      cases hrow
    have hnull : dp1[rownr]? = some none := by
      have := hin rownr hlt
      rw [Nat.zero_add, hrow] at this
      rw [this]
      simp [getDataSlot, h0]
    refine ⟨w, dp1, hw, hget, hnull, ?_, ?_⟩
    · simp only [ StManColumnIndArrayAipsIO.isShapeDefined,
        StManColumnIndArrayAipsIO.getArrayPtr, hrow]
    · simp only [ StManColumnIndArrayAipsIO.isShapeDefined,
        StManColumnIndArrayAipsIO.getArrayPtr, hnull]

/-- Witness of C21: the column `exampleZero`, whose first row holds a
descriptor with the offset 0; read back, the first row is null and the second
one keeps its offset 16. -/
theorem zero_offset_lost_witness :
    (StIndArray.new 0).fileOffset = 0 ∧
    putData exampleZero.data 2 [] = some (uIntBytes 0 ++ uIntBytes 16) ∧
    getData [none, none] 0 2 (uIntBytes 0 ++ uIntBytes 16) =
      GetResult.ok [none, some (StIndArray.new 16)] [] ∧
    exampleZero.isShapeDefined 0 = Outcome.ok true exampleZero ∧
    ∃ w dp1, putData exampleZero.data exampleZero.data.length [] = some w ∧
      getData [none, none] 0 exampleZero.data.length (w ++ []) = GetResult.ok dp1 [] ∧
      dp1[0]? = some none ∧
      exampleZero.isShapeDefined 0 = Outcome.ok true exampleZero ∧
      ({ exampleZero with data := dp1 }).isShapeDefined 0 =
        Outcome.ok false { exampleZero with data := dp1 } :=
  ⟨rfl, by decide, by decide, by decide,
    (zero_offset_lost (StIndArray.new 0) rfl).2.2 exampleZero 0 [none, none] [] rfl
      (by
        intro d1 hd
        have hd1 : d1 = StIndArray.new 0 ∨ d1 = StIndArray.new 16 := by
          simpa [exampleZero] using hd
        rcases hd1 with rfl | rfl <;> exact ⟨by decide, by decide⟩)
      rfl⟩

/-! ## Claims about the file name of a legacy column -/

/-- The text `sprintf` makes for a sequence number below `10^e` that is an
`int` has at most `e` characters after the letter i. -/
theorem sprintf_i_length (n e : Nat) (he : 0 < e) (hn : n < 10 ^ e)
    (hint : n < 2147483648) : (sprintf_i n).length ≤ 1 + e := by
  have hrepr : toString (n : Int) = Nat.repr n := rfl
  simp only [sprintf_i, hint, if_true, String.length_append, hrepr]
  have h1 : ("i" : String).length = 1 := rfl
  have h2 := Nat.repr_length n e he hn
  omega

/-- C22. The buffer of the legacy file name: for every sequence number from 0
to 999999 the text `openFile` formats for a column of version at most 1 (the
letter i and the decimal sequence number) takes with its terminating zero byte
at most the 8 bytes of the buffer, and `openFile` on a column with no file bound
does not run past it; for the sequence number 1000000 the text is `i1000000`,
which with the zero byte takes 9 bytes, one more than the buffer holds. -/
theorem legacy_suffix_fits :
    (∀ seqnr, seqnr ≤ 999999 →
      (sprintf_i seqnr).length + 1 ≤ 8 ∧
      ∀ (c : StManColumnIndArrayAipsIO) (opt : OpenOption),
        c.version_p ≤ 1 → c.iosfile_p = none → c.seqnr_p = seqnr →
        c.openFile opt ≠ Outcome.undefined) ∧
    sprintf_i 1000000 = "i1000000" ∧
    (sprintf_i 1000000).length + 1 = 9 ∧
    (∀ (c : StManColumnIndArrayAipsIO) (opt : OpenOption),
      c.version_p ≤ 1 → c.iosfile_p = none → c.seqnr_p = 1000000 →
      c.openFile opt = Outcome.undefined) := by
  refine ⟨?_, by decide, by decide, ?_⟩
  · intro seqnr hs
    have hfit : (sprintf_i seqnr).length + 1 ≤ 8 := by
      have := sprintf_i_length seqnr 6 (by decide) (by omega) (by omega)
      omega
    refine ⟨hfit, ?_⟩
    intro c opt hv hio hseq
    have hv1 : ¬ c.version_p > 1 := by omega
    have hfit1 : ¬ 8 < (sprintf_i c.seqnr_p).length + 1 := by rw [hseq]; omega
    simp only [ StManColumnIndArrayAipsIO.openFile, hv1, if_false, hio, hfit1]
    split <;> simp
  · intro c opt hv hio hseq
    have hv1 : ¬ c.version_p > 1 := by omega
    have hover : 8 < (sprintf_i 1000000).length + 1 := by decide
    simp only [ StManColumnIndArrayAipsIO.openFile, hv1, if_false, hio, hseq, hover, if_true]

/-- Witness of C22: the sequence number 999999, whose text `i999999` takes 8
bytes with the zero byte, on a column of version 1 with no file bound. -/
theorem legacy_suffix_fits_witness :
    sprintf_i 999999 = "i999999" ∧ (sprintf_i 999999).length + 1 ≤ 8 ∧
    ({ exampleOverflow with seqnr_p := 999999 }).openFile OpenOption.New ≠
      Outcome.undefined :=
  ⟨by decide, (legacy_suffix_fits.1 999999 (by decide)).1,
    (legacy_suffix_fits.1 999999 (by decide)).2 { exampleOverflow with seqnr_p := 999999 }
      OpenOption.New (by decide) rfl rfl⟩

/-! ## Claims about the value result of a node -/

/-- A getter that every setter call either sets to its argument or leaves as it
is returns, after a sequence of calls, the argument of the most recent call that
set it, or what it returned before when there was none. -/
theorem getter_setCalls {α : Type} (get : TaQLNodeHRValue → α) (pick : SetCall → Option α)
    (h : ∀ s v, get (s.call v) = (pick s).getD (get v)) :
    ∀ (calls : List SetCall) (v : TaQLNodeHRValue),
    get (setCalls calls v) = (lastArg pick calls).getD (get v) := by
  intro calls
  induction calls with
  | nil => intro v; rfl
  | cons s calls ih =>
    intro v
    rw [setCalls, ih (s.call v), h s v]
    unfold lastArg
    cases hp : pick s with
    | none => simp [List.filterMap_cons, hp]
    | some x =>
      simp only [List.filterMap_cons, hp, Option.getD_some]
      cases hl : (List.filterMap pick calls).getLast? with
      | none =>
        have hnil : List.filterMap pick calls = [] := List.getLast?_eq_none_iff.mp hl
        simp [hnil]
      | some y =>
        have hne : List.filterMap pick calls ≠ [] := by
          intro hnil
          rw [hnil] at hl
          cases hl
        obtain ⟨z, zs, hz⟩ := List.exists_cons_of_ne_nil hne
        rw [hz] at hl ⊢
        rw [List.getLast?_cons_cons, hl]
        rfl

/-- C23. The class `TaQLNodeHRValue` is a plain record of twelve independent
fields. A default-constructed value has `getInt () = -1` and null element, set
and names pointers, and so has the one made from an expression, whose `getExpr`
is that expression. After any sequence of calls of setters on any value, each
getter returns the argument of the most recent call of its own setter, or what
it returned at the start when its setter was not called: no other setter changes
it. `getExprSet` dereferences the set pointer, so it is defined exactly when
the pointer last stored (or the one at the start) is not null, and never on a
constructed value to which no set has been given. -/
theorem hrvalue_fields :
    (TaQLNodeHRValue.new.getInt = -1 ∧ TaQLNodeHRValue.new.getElem = none ∧
      TaQLNodeHRValue.new.getExprSet = none ∧ TaQLNodeHRValue.new.getNames = none) ∧
    (∀ expr, (TaQLNodeHRValue.newExpr expr).getExpr = expr ∧
      TaQLNodeHRValue.newExpr expr = TaQLNodeHRValue.new.setExpr expr) ∧
    (∀ (calls : List SetCall) (v : TaQLNodeHRValue),
      (setCalls calls v).getInt = (lastArg SetCall.int? calls).getD v.getInt ∧
      (setCalls calls v).getString = (lastArg SetCall.string? calls).getD v.getString ∧
      (setCalls calls v).getAlias = (lastArg SetCall.alias? calls).getD v.getAlias ∧
      (setCalls calls v).getNameMask = (lastArg SetCall.nameMask? calls).getD v.getNameMask ∧
      (setCalls calls v).getDtype = (lastArg SetCall.dtype? calls).getD v.getDtype ∧
      (setCalls calls v).getRecord = (lastArg SetCall.record? calls).getD v.getRecord ∧
      (setCalls calls v).getValueHolder =
        (lastArg SetCall.valueHolder? calls).getD v.getValueHolder ∧
      (setCalls calls v).getTable = (lastArg SetCall.table? calls).getD v.getTable ∧
      (setCalls calls v).getExpr = (lastArg SetCall.expr? calls).getD v.getExpr ∧
      (setCalls calls v).getElem = (lastArg SetCall.elem? calls).getD v.getElem ∧
      (setCalls calls v).getExprSet = (lastArg SetCall.exprSet? calls).getD v.getExprSet ∧
      (setCalls calls v).getNames = (lastArg SetCall.names? calls).getD v.getNames) ∧
    (∀ (calls : List SetCall) (v : TaQLNodeHRValue),
      ((setCalls calls v).getExprSet ≠ none ↔
        (lastArg SetCall.exprSet? calls).getD v.itsSet ≠ none) ∧
      ((setCalls calls TaQLNodeHRValue.new).getExprSet ≠ none ↔
        ∃ set, lastArg SetCall.exprSet? calls = some (some set))) := by
  have hset : ∀ (calls : List SetCall) (v : TaQLNodeHRValue),
      (setCalls calls v).getExprSet = (lastArg SetCall.exprSet? calls).getD v.getExprSet :=
    getter_setCalls _ _ (by intro s v; cases s <;> rfl)
  refine ⟨⟨rfl, rfl, rfl, rfl⟩, fun expr => ⟨rfl, rfl⟩, ?_, ?_⟩
  · intro calls v
    refine ⟨?_, ?_, ?_, ?_, ?_, ?_, ?_, ?_, ?_, ?_, hset calls v, ?_⟩
    all_goals exact getter_setCalls _ _ (by intro s v; cases s <;> rfl) calls v
  · intro calls v
    refine ⟨?_, ?_⟩
    · rw [hset calls v]
      rfl
    · rw [hset calls TaQLNodeHRValue.new]
      cases hl : lastArg SetCall.exprSet? calls with
      | none => simp [TaQLNodeHRValue.getExprSet, TaQLNodeHRValue.new]
      | some p =>
        cases p with
        | none => simp
        | some set => simp

/-- Witness of C23: on a default-constructed value `setInt (3)`,
`setString ("a")`, `setExprSet` of an empty set and `setInt (5)` give
`getInt () = 5`, `getString () = "a"`, the set stored, and the alias and the
names pointer as constructed. -/
theorem hrvalue_fields_witness :
    (setCalls [SetCall.setInt 3, SetCall.setString "a",
        SetCall.setExprSet (some { elems := [] }), SetCall.setInt 5]
      TaQLNodeHRValue.new).getInt = 5 ∧
    (setCalls [SetCall.setInt 3, SetCall.setString "a",
        SetCall.setExprSet (some { elems := [] }), SetCall.setInt 5]
      TaQLNodeHRValue.new).getString = "a" ∧
    (setCalls [SetCall.setInt 3, SetCall.setString "a",
        SetCall.setExprSet (some { elems := [] }), SetCall.setInt 5]
      TaQLNodeHRValue.new).getExprSet = some { elems := [] } ∧
    (setCalls [SetCall.setInt 3, SetCall.setString "a",
        SetCall.setExprSet (some { elems := [] }), SetCall.setInt 5]
      TaQLNodeHRValue.new).getNames = none :=
  ⟨(hrvalue_fields.2.2.1 _ _).1, (hrvalue_fields.2.2.1 _ _).2.1,
    (hrvalue_fields.2.2.1 _ _).2.2.2.2.2.2.2.2.2.2.1,
    (hrvalue_fields.2.2.1 _ _).2.2.2.2.2.2.2.2.2.2.2⟩

end casacore
